import Mathlib

/-! # OptiCode: code execution engine and per-user admission lock

A verification development over a shallow embedding of

* `src/compiler/service/codeExecutor.js` (`getFileExtension`, `sanitizeError`,
  `cleanupFiles`, `executeCode`),
* `src/compiler/server.js` (the `app.post('/')` handler),
* `src/backend/controller/submissionController.js` (`withUserLock`, the hidden-test
  loop of `submitCode`, the verdict of `runCode`).

JavaScript strings are sequences of UTF-16 code units; they are embedded as lists of
natural numbers, one per code unit.  File system, toolchain and child process are
embedded as an explicit environment (`Env`) that supplies what the outside world
answers, and every call the code makes to the outside world is recorded in a list
of `Effect`s returned next to the result.  The result of `executeCode` is an
`Option`: `none` stands for a promise that is never settled, which is what the code
does when its `close` handler throws.
-/

namespace OptiCode

/-! ## Strings -/

/-- A JavaScript string: its UTF-16 code units. -/
abbrev JSString := List Nat

/-- The code units of a string literal of the source (all literals of the source are
in the Basic Multilingual Plane, where a character is one code unit). -/
def lit (s : String) : JSString := s.toList.map Char.toNat

/-- JavaScript `a || b` on strings: `a` unless it is the empty string. -/
def jsOr (a b : JSString) : JSString := if a = [] then b else a

/-- Method `String.prototype.slice(0, e)`: a negative `e` counts from the end of the string,
and the result is clamped to the string. -/
def slice0 (s : JSString) (e : Int) : JSString :=
  if e < 0 then s.take (s.length - e.natAbs) else s.take e.toNat

/-- Method `String.prototype.split(' ')`: the pieces between single spaces (code unit 32);
the result always has at least one piece. -/
def splitSpace : JSString → List JSString
  | [] => [[]]
  | c :: t =>
    match splitSpace t with
    | [] => [[c]]
    | h :: r => if c = 32 then [] :: h :: r else (c :: h) :: r

/-- Method `String.prototype.replace(re, repl)` for a regular expression `re` with the `g`
flag and a replacement `repl` without `$` patterns.  `matchAt t` is the length of the
match of `re` anchored at the start of `t`, if there is one.  The scan goes left to
right; after a match it resumes behind the match (the counter `skip` is the number
of code units of the current match still to be dropped); after an empty match the
next code unit is copied and the scan resumes behind it. -/
def replaceAllAux (matchAt : JSString → Option Nat) (repl : JSString) :
    Nat → JSString → JSString
  | 0, [] => match matchAt [] with
    | some _ => repl
    | none => []
  | _ + 1, [] => []
  | skip + 1, _ :: t => replaceAllAux matchAt repl skip t
  | 0, c :: t =>
    match matchAt (c :: t) with
    | some 0 => repl ++ c :: replaceAllAux matchAt repl 0 t
    | some (n + 1) => repl ++ replaceAllAux matchAt repl n t
    | none => c :: replaceAllAux matchAt repl 0 t

/-- Global replacement, see `replaceAllAux`. -/
def replaceAll (matchAt : JSString → Option Nat) (repl : JSString) (s : JSString) :
    JSString :=
  replaceAllAux matchAt repl 0 s

/-- Match of a regular expression that is one literal string `pat` (every
metacharacter escaped) at the start of `t`. -/
def matchLiteral (pat : JSString) (t : JSString) : Option Nat :=
  if pat.isPrefixOf t then some pat.length else none

/-! ## `codeExecutor.js` -/

/-- Constant `SANDBOX_DIR`. -/
def SANDBOX_DIR : JSString := lit "/sandbox"

/-- Source `getFileExtension`. -/
def getFileExtension (language : JSString) : JSString :=
  if language = lit "python" then lit "py"
  else if language = lit "cpp" then lit "cpp"
  else if language = lit "java" then lit "java"
  else lit "txt"

/-- Source `sanitizeError`.  The identifier is escaped with
`/[.*+?^${}()|[\]\\]/g → '\\$&'` before `new RegExp(escaped, 'g')`, so the regular
expression matches exactly the literal identifier; each identifier in turn is
replaced by the empty string in one global pass. -/
def sanitizeError (error : JSString) (fileIdentifiers : List JSString) : JSString :=
  if error = [] then []
  else fileIdentifiers.foldl (fun sanitized identifier =>
    replaceAll (matchLiteral identifier) [] sanitized) error

/-- Function `path.join(dir, name)` for a file name `name` that is a single path segment
(no `/`, not `.` or `..`): every name joined in this program is an execution id or a
`\w+` class name followed by an extension, for which the normalisation done by
`path.join` changes nothing. -/
def pathJoin (dir name : JSString) : JSString := dir ++ lit "/" ++ name

/-- Regular expression class `\s` of ECMAScript. -/
def isWhiteSpace (u : Nat) : Bool :=
  decide (u = 9 ∨ u = 10 ∨ u = 11 ∨ u = 12 ∨ u = 13 ∨ u = 32 ∨ u = 160 ∨ u = 5760 ∨
    (8192 ≤ u ∧ u ≤ 8202) ∨ u = 8232 ∨ u = 8233 ∨ u = 8239 ∨ u = 8287 ∨ u = 12288 ∨
    u = 65279)

/-- Regular expression class `\w`: `[A-Za-z0-9_]`. -/
def isWordChar (u : Nat) : Bool :=
  decide ((48 ≤ u ∧ u ≤ 57) ∨ (65 ≤ u ∧ u ≤ 90) ∨ u = 95 ∨ (97 ≤ u ∧ u ≤ 122))

/-- A literal piece of a regular expression at the start of `t`: what follows it. -/
def dropLiteral (pat t : JSString) : Option JSString :=
  if pat.isPrefixOf t then some (t.drop pat.length) else none

/-- A greedy `c+` for a character class `c` at the start of `t`: the run matched and
what follows it.  In the expressions of this program the piece after `c+` never
starts with a member of `c`, so the longest run is the only one that can match. -/
def takeSome (p : Nat → Bool) (t : JSString) : Option (JSString × JSString) :=
  if t.takeWhile p = [] then none else some (t.takeWhile p, t.dropWhile p)

/-- Capture group 1 of `/public\s+class\s+(\w+)/` anchored at the start of `t`. -/
def matchPublicClassAt (t : JSString) : Option JSString :=
  (dropLiteral (lit "public") t).bind fun r1 =>
  (takeSome isWhiteSpace r1).bind fun s1 =>
  (dropLiteral (lit "class") s1.2).bind fun r2 =>
  (takeSome isWhiteSpace r2).bind fun s2 =>
  (takeSome isWordChar s2.2).map fun w => w.1

/-- Capture group 1 of the leftmost match of `/public\s+class\s+(\w+)/` in `code`:
`code.match(...)`, `match[1]`. -/
def searchPublicClass : JSString → Option JSString
  | [] => matchPublicClassAt []
  | c :: t =>
    match matchPublicClassAt (c :: t) with
    | some name => some name
    | none => searchPublicClass t

/-- The expression `match ? match[1] : 'Main'` of lines 63-64 and 198-199. -/
def javaClassName (code : JSString) : JSString :=
  (searchPublicClass code).getD (lit "Main")

/-- The two configuration values, as `parseInt` read them from the environment. -/
structure Config where
  /-- Value of `parseInt(process.env.MAX_OUTPUT_SIZE || '1024')` -/
  maxOutputSize : Int
  /-- Value of `parseInt(process.env.MAX_EXECUTION_TIME || '5000')` -/
  maxExecutionTime : Int
  deriving DecidableEq, Repr

/-- The configuration when the environment sets nothing. -/
def defaultConfig : Config := { maxOutputSize := 1024, maxExecutionTime := 5000 }

/-- Constant `MAX_OUTPUT_SIZE`. -/
def MAX_OUTPUT_SIZE (cfg : Config) : Int := cfg.maxOutputSize * 1024

/-- Constant `TIME_LIMIT_MS`. -/
def TIME_LIMIT_MS (cfg : Config) : Int := cfg.maxExecutionTime

/-- A thrown JavaScript exception: its `message` and what `String(err)` gives. -/
structure JSError where
  message : JSString
  asString : JSString
  deriving DecidableEq, Repr

/-- What the callback of `exec` receives. -/
structure ExecOutcome where
  /-- Whether `error` is not null: the command failed, was killed or timed out -/
  failed : Bool
  stdout : JSString
  stderr : JSString
  /-- Field `error.message` -/
  message : JSString
  deriving DecidableEq, Repr

/-- What the outside world answers to one execution.  The child process is one that
ends with a `close` event; a child that emits an `error` event (the source installs
no listener for it) is outside this embedding. -/
structure Env where
  /-- The value `uuidv4()` returns -/
  executionId : JSString
  /-- The exception `fs.writeFileSync` throws, if it throws -/
  writeError : Option JSError
  /-- The outcome of the compile command -/
  compile : ExecOutcome
  /-- The exception thrown inside the executor of the run promise, if one is thrown
  (by `spawn`, or by `proc.stdin.write(input)` when `input` is not a string) -/
  runError : Option JSError
  /-- The `data` events of the stdout of the child, each already `toString()`ed -/
  stdoutChunks : List JSString
  /-- The `data` events of the stderr of the child -/
  stderrChunks : List JSString
  /-- First argument of the `close` event (`null` when the child died of a signal) -/
  exitCode : Option Int
  /-- Second argument of the `close` event -/
  signal : Option JSString
  deriving DecidableEq, Repr

/-- The calls `executeCode` makes to the outside world, and what the compiler leaves
behind. -/
inductive Effect
  /-- Call `fs.writeFileSync(path, content, { mode: 0o400 })`, which returned -/
  | writeFile (path content : JSString)
  /-- Call `exec(cmd, { timeout }, callback)` -/
  | exec (cmd : JSString) (timeout : Int)
  /-- The compile command succeeded and left its output file at `path` (the `-o`
  target of `g++`, the `.class` file of the entry class for `javac`) -/
  | compiled (path : JSString)
  /-- Call `spawn(cmd, args, { stdio, env, timeout })`; `killSignal` is the option of
  that name, which the source never sets -/
  | spawn (cmd : JSString) (args : List JSString) (timeout : Int)
      (killSignal : Option JSString)
  /-- Call `proc.stdin.write(input)` -/
  | stdinWrite (input : JSString)
  /-- Call `proc.stdin.end()` -/
  | stdinEnd
  /-- Call `setTimeout(() => proc.kill(signal), delay)` -/
  | killTimer (signal : JSString) (delay : Int)
  /-- Call `proc.kill(signal)` from the stdout handler -/
  | kill (signal : JSString)
  /-- Call `cleanupFiles(files)` -/
  | cleanupFiles (files : List JSString)
  deriving DecidableEq, Repr

/-- The object `executeCode` resolves with.  `type` and `error` are absent from the
successful result. -/
structure ExecResult where
  success : Bool
  verdict : JSString
  type : Option JSString
  error : Option JSString
  output : JSString
  memoryUsed : Nat
  deriving DecidableEq, Repr

/-- The failure results of lines 86-93, 117-124, 134-141, 178-185, 226-233. -/
def failure (kind error output : JSString) : ExecResult :=
  { success := false, verdict := kind, type := some kind, error := some error,
    output := output, memoryUsed := 0 }

/-- The stdout `data` handler of lines 163-168: append the chunk, and ask for a
`SIGKILL` when the accumulated string is longer than `MAX_OUTPUT_SIZE`. -/
def onStdoutData (cfg : Config) (st : JSString × List Effect) (data : JSString) :
    JSString × List Effect :=
  if ((st.1 ++ data).length : Int) > MAX_OUTPUT_SIZE cfg then
    (st.1 ++ data, st.2 ++ [Effect.kill (lit "SIGKILL")])
  else (st.1 ++ data, st.2)

/-- The list `identifiersToStrip` of lines 194-201, or `none` when building it
throws.  Inside the `close` handler the name `code` is the first parameter of the
handler, the exit code of the child (a number, or `null`), and it hides the source
text of the same name.  In the java case line 198 calls `code.match(...)` on that exit
code: a number has no method `match` and `null` has no properties, so the call throws
a `TypeError` whatever the exit code is, and the list is never built. -/
def identifiersToStrip (language filePath : JSString) : Option (List JSString) :=
  if language = lit "python" then some [filePath]
  else if language = lit "java" then none
  else some []

/-- The `close` handler of lines 174-213, called with the exit code `code` and the
signal: the result it resolves the promise with, or `none` when it throws before it
calls `resolve`.  An exception thrown in the handler leaves the event listener; no
code of `executeCode` catches it, and the promise is never settled. -/
def onClose (cfg : Config) (language filePath output error : JSString)
    (code : Option Int) (signal : Option JSString) : Option ExecResult :=
  if signal = some (lit "SIGKILL") then
    some (failure (lit "Time Limit Exceeded")
      (lit "Process killed due to timeout or resource limits") [])
  else if code = some 0 then
    some { success := true, verdict := lit "Executed", type := none, error := none,
           output := slice0 output (MAX_OUTPUT_SIZE cfg), memoryUsed := 0 }
  else
    match identifiersToStrip language filePath with
    | none => none
    | some identifiers =>
      some (failure (lit "Runtime Error")
        (sanitizeError (jsOr error (lit "Runtime error or non-zero exit code")) identifiers)
        (slice0 output (MAX_OUTPUT_SIZE cfg)))

/-- The `catch` block of lines 219-234, entered with the effects made so far. -/
def catchBlock (filePath execPath : JSString) (err : JSError) (done : List Effect) :
    Option ExecResult × List Effect :=
  (some (failure (lit "Internal Error")
      (lit "An internal error occurred: " ++ jsOr err.message err.asString) []),
    done ++ [Effect.cleanupFiles [filePath, execPath,
      pathJoin SANDBOX_DIR (lit "Main.java"), pathJoin SANDBOX_DIR (lit "Main.class")]])

/-- Lines 145-218: split the run command, spawn it, feed stdin, collect the output
and resolve in the `close` handler; an exception thrown while the promise is set up
rejects it and is caught by the `catch` block.  The `close` handler calls
`cleanupFiles(cleanupList)` first, so that call is made whether or not the handler
goes on to resolve. -/
def runStage (cfg : Config) (env : Env) (language input filePath execPath : JSString)
    (runCmd : JSString) (cleanupList : List JSString) (done : List Effect) :
    Option ExecResult × List Effect :=
  let cmd := (splitSpace runCmd).headD []
  let args := (splitSpace runCmd).tail
  let spawned := done ++ [Effect.spawn cmd args (TIME_LIMIT_MS cfg) none]
  match env.runError with
  | some err => catchBlock filePath execPath err spawned
  | none =>
    let stdin :=
      if input ≠ [] ∧ language ∈ [lit "python", lit "cpp", lit "java"] then
        [Effect.stdinWrite input, Effect.stdinEnd]
      else [Effect.stdinEnd]
    let timer := [Effect.killTimer (lit "SIGKILL") (TIME_LIMIT_MS cfg + 1000)]
    let out := env.stdoutChunks.foldl (onStdoutData cfg) ([], [])
    let error := env.stderrChunks.flatten
    (onClose cfg language filePath out.1 error env.exitCode env.signal,
      spawned ++ stdin ++ timer ++ out.2 ++ [Effect.cleanupFiles cleanupList])

/-- Source `executeCode`: the result its promise resolves with (`none` when the
promise is never settled, see `onClose`) and the effects it made, in order. -/
def executeCode (cfg : Config) (env : Env) (code language input : JSString) :
    Option ExecResult × List Effect :=
  let executionId := env.executionId
  let filename := executionId ++ lit "." ++ getFileExtension language
  let execName := executionId ++ lit ".out"
  let filePath := pathJoin SANDBOX_DIR filename
  let execPath := pathJoin SANDBOX_DIR execName
  if language = lit "java" then
    let javaClassName := javaClassName code
    let javaFileName := javaClassName ++ lit ".java"
    let javaFilePath := pathJoin SANDBOX_DIR javaFileName
    let classPath := pathJoin SANDBOX_DIR (javaClassName ++ lit ".class")
    match env.writeError with
    | some err => catchBlock filePath execPath err []
    | none =>
      let compileJavaCmd := lit "javac " ++ javaFilePath
      let runCmd := lit "java -cp " ++ SANDBOX_DIR ++ lit " " ++ javaClassName
      let done := [Effect.writeFile javaFilePath code,
        Effect.exec compileJavaCmd (TIME_LIMIT_MS cfg)]
      if env.compile.failed then
        (some (failure (lit "Compilation Error")
            (sanitizeError (jsOr (jsOr env.compile.stderr env.compile.stdout)
              env.compile.message) [javaFilePath]) []),
          done ++ [Effect.cleanupFiles [javaFilePath, classPath]])
      else
        runStage cfg env language input filePath execPath runCmd
          [javaFilePath, classPath] (done ++ [Effect.compiled classPath])
  else
    match env.writeError with
    | some err => catchBlock filePath execPath err []
    | none =>
      let written := [Effect.writeFile filePath code]
      if language = lit "cpp" then
        let compileCmd := lit "g++ " ++ filePath ++ lit " -o " ++ execPath ++
          lit " -O2 -static-libstdc++"
        let done := written ++ [Effect.exec compileCmd (TIME_LIMIT_MS cfg)]
        if env.compile.failed then
          (some (failure (lit "Compilation Error")
              (jsOr (jsOr env.compile.stderr env.compile.stdout) env.compile.message) []),
            done ++ [Effect.cleanupFiles [filePath, execPath]])
        else
          runStage cfg env language input filePath execPath execPath
            [filePath, execPath] (done ++ [Effect.compiled execPath])
      else if language = lit "python" then
        runStage cfg env language input filePath execPath
          (lit "python3 " ++ filePath) [filePath] written
      else
        (some (failure (lit "Bad Request") (lit "Unsupported language: " ++ language) []),
          written ++ [Effect.cleanupFiles [filePath, execPath]])

/-! ## `server.js` -/

/-- Class `[a-zA-Z0-9\-]`. -/
def isIdChar (u : Nat) : Bool :=
  decide ((97 ≤ u ∧ u ≤ 122) ∨ (65 ≤ u ∧ u ≤ 90) ∨ (48 ≤ u ∧ u ≤ 57) ∨ u = 45)

/-- Length of the match of `/\/sandbox\/[a-zA-Z0-9\-]+\.cpp:/` anchored at the start
of `t`. -/
def matchCppLocation (t : JSString) : Option Nat :=
  (dropLiteral (lit "/sandbox/") t).bind fun r =>
  (takeSome isIdChar r).bind fun s =>
  (dropLiteral (lit ".cpp:") s.2).map fun _ => 9 + s.1.length + 5

/-- The `error` field of the failure response of lines 49-56:
`result.error.replace(/\/sandbox\/[a-zA-Z0-9\-]+\.cpp:/g, 'Line:') || 'Unknown error'`. -/
def responseError (error : JSString) : JSString :=
  jsOr (replaceAll matchCppLocation (lit "Line:") error) (lit "Unknown error")

/-- Files an execution created: those it wrote and those its compile step produced. -/
def createdPaths (effects : List Effect) : List JSString :=
  effects.flatMap fun e =>
    match e with
    | Effect.writeFile path _ => [path]
    | Effect.compiled path => [path]
    | _ => []

/-- Files an execution passed to `cleanupFiles`. -/
def cleanedPaths (effects : List Effect) : List JSString :=
  effects.flatMap fun e =>
    match e with
    | Effect.cleanupFiles files => files
    | _ => []

/-- Files an execution writes, compiles to or cleans up. -/
def touchedPaths (effects : List Effect) : List JSString :=
  createdPaths effects ++ cleanedPaths effects

/-- The name an execution builds the names of its files from: the class name of the
source for java (lines 63-66), the execution id for every other language (lines
52-53). -/
def fileStem (env : Env) (code language : JSString) : JSString :=
  if language = lit "java" then javaClassName code else env.executionId

/-! ## The child process, as Node reports it -/

/-- Why a child process stopped. -/
inductive Termination
  /-- The child ran to its end and exited with `code`. -/
  | exited (code : Int)
  /-- The `timeout` of `spawn` elapsed and Node sent the kill signal of the options. -/
  | spawnTimeout
  /-- The timer of lines 215-217 fired and its `SIGKILL` ended the child. -/
  | backstopTimer
  /-- The `SIGKILL` of the stdout handler ended the child. -/
  | outputCap
  deriving DecidableEq, Repr

/-- Signal that `spawn` sends when its `timeout` elapses: the `killSignal` option,
`'SIGTERM'` when the option is not set (Node `child_process` documentation). -/
def timeoutSignal (killSignal : Option JSString) : JSString :=
  killSignal.getD (lit "SIGTERM")

/-- Arguments `(code, signal)` of the `close` event: a child that exits by itself has
its exit code and no signal, a child ended by a signal has code `null` and that
signal.  `killSignal` is the option given to `spawn`. -/
def closeEvent (killSignal : Option JSString) : Termination → Option Int × Option JSString
  | Termination.exited code => (some code, none)
  | Termination.spawnTimeout => (none, some (timeoutSignal killSignal))
  | Termination.backstopTimer => (none, some (lit "SIGKILL"))
  | Termination.outputCap => (none, some (lit "SIGKILL"))

/-- Size in bytes of a string once encoded as UTF-8 (`Buffer.byteLength(s)`): one
byte below U+0080, two below U+0800, four for a surrogate pair, three otherwise
(a lone surrogate is encoded as U+FFFD).  `afterHigh` says that the code unit before
was a high surrogate, already counted with three bytes. -/
def utf8ByteLengthAux : Bool → JSString → Nat
  | _, [] => 0
  | afterHigh, u :: t =>
    if u < 128 then 1 + utf8ByteLengthAux false t
    else if u < 2048 then 2 + utf8ByteLengthAux false t
    else if 55296 ≤ u ∧ u < 56320 then 3 + utf8ByteLengthAux true t
    else if (56320 ≤ u ∧ u < 57344) ∧ afterHigh = true then 1 + utf8ByteLengthAux false t
    else 3 + utf8ByteLengthAux false t

/-- Size in bytes of the UTF-8 encoding of a string. -/
def utf8ByteLength (s : JSString) : Nat := utf8ByteLengthAux false s

/-! ## `submissionController.js`: `withUserLock` -/

/-- How a promise settles; values and rejection reasons are numbered tokens. -/
inductive Outcome
  | resolved (value : Nat)
  | rejected (reason : Nat)
  deriving DecidableEq, Repr

/-- Where one call of `withUserLock` stands. -/
inductive Pc
  /-- Not called yet. -/
  | entry
  /-- Line 15: the loop found the lock taken and awaits the 50 ms timer. -/
  | sleeping
  /-- Line 19: the lock is set, `fn()` was called and its promise is pending. -/
  | awaiting
  /-- Line 19: the promise of `fn()` has settled, the continuation is queued. -/
  | resuming (o : Outcome)
  /-- The `finally` block ran and the promise of `withUserLock` settled. -/
  | settled (o : Outcome)
  deriving DecidableEq, Repr

/-- Whether `fn()` has been called. -/
def Pc.started : Pc → Bool
  | Pc.entry => false
  | Pc.sleeping => false
  | _ => true

/-- Whether the call is between line 17 and line 21: it has set the lock and not
yet deleted it. -/
def Pc.holding : Pc → Bool
  | Pc.awaiting => true
  | Pc.resuming _ => true
  | _ => false

/-- Whether the action is in flight: `fn()` was called and has not settled. -/
def Pc.inFlight : Pc → Bool
  | Pc.awaiting => true
  | _ => false

/-- The module-level `userLocks` map and the calls of `withUserLock`, numbered.
Every value stored in the map is `true`, so the map is embedded as its keys. -/
structure LockState where
  userLocks : List JSString
  pc : Nat → Pc

/-- Truthiness of `userLocks.get(userId)`. -/
def lockGet (m : List JSString) (userId : JSString) : Bool := decide (userId ∈ m)

/-- Method `userLocks.set(userId, true)`. -/
def lockSet (m : List JSString) (userId : JSString) : List JSString :=
  if userId ∈ m then m else m ++ [userId]

/-- Method `userLocks.delete(userId)`. -/
def lockDelete (m : List JSString) (userId : JSString) : List JSString :=
  m.filter fun k => decide (k ≠ userId)

/-- What the event loop can do next.  All code between two `await`s runs without
interruption. -/
inductive Event
  /-- Call number `i` runs until its next `await`: the call itself, a wake-up of the
  50 ms timer, or the continuation of `await fn()`.  When this run calls `fn`,
  `fnThrows` says whether `fn` throws before returning a promise. -/
  | run (i : Nat) (fnThrows : Option Nat)
  /-- The promise `fn()` returned to call number `i` settles with `o`. -/
  | settle (i : Nat) (o : Outcome)
  deriving DecidableEq, Repr

/-- The call an event belongs to. -/
def Event.call : Event → Nat
  | Event.run i _ => i
  | Event.settle i _ => i

/-- Lines 14-19, run without interruption by call number `i`: the loop condition,
and either the `await` of the timer, or `userLocks.set` followed by the call of `fn`
(and by the `finally` block at once when `fn` throws). -/
def enter (userId : Nat → JSString) (s : LockState) (i : Nat) (fnThrows : Option Nat) :
    LockState :=
  if lockGet s.userLocks (userId i) then
    { s with pc := Function.update s.pc i Pc.sleeping }
  else
    match fnThrows with
    | none =>
      { userLocks := lockSet s.userLocks (userId i),
        pc := Function.update s.pc i Pc.awaiting }
    | some reason =>
      { userLocks := lockDelete (lockSet s.userLocks (userId i)) (userId i),
        pc := Function.update s.pc i (Pc.settled (Outcome.rejected reason)) }

/-- One step of the event loop on `withUserLock` (lines 13-23); `userId i` is the
first argument of call number `i`.  An event that is not possible in the state
changes nothing. -/
def step (userId : Nat → JSString) (s : LockState) : Event → LockState
  | Event.run i fnThrows =>
    match s.pc i with
    | Pc.entry => enter userId s i fnThrows
    | Pc.sleeping => enter userId s i fnThrows
    | Pc.resuming o =>
      { userLocks := lockDelete s.userLocks (userId i),
        pc := Function.update s.pc i (Pc.settled o) }
    | Pc.awaiting => s
    | Pc.settled _ => s
  | Event.settle i o =>
    match s.pc i with
    | Pc.awaiting => { s with pc := Function.update s.pc i (Pc.resuming o) }
    | _ => s

/-- The state when the module is loaded: no lock, no call made. -/
def initial : LockState := { userLocks := [], pc := fun _ => Pc.entry }

/-- The state after a sequence of events, in order. -/
def runEvents (userId : Nat → JSString) (evs : List Event) : LockState :=
  evs.foldl (step userId) initial

/-! ## `submissionController.js`: `submitCode` -/

/-- Method `String.prototype.trim()`: the string without its leading and trailing
white space and line terminators, which are the members of the class `\s`. -/
def trim (s : JSString) : JSString :=
  (s.dropWhile isWhiteSpace).rdropWhile isWhiteSpace

/-- The body `response.data` of the answer of the compiler service, as far as
`submitCode` reads it (the execution time, a floating point number that only
enters a sum, is left out). -/
structure EngineReply where
  success : Bool
  output : Option JSString
  error : Option JSString
  deriving DecidableEq, Repr

/-- What the outside world answers for one hidden test case. -/
structure TestRun where
  /-- Result of `fs.readFile(inputPath)`, `none` when the promise rejects. -/
  inputData : Option JSString
  /-- Result of `fs.readFile(outputPath)`, `none` when the promise rejects. -/
  expectedOutput : Option JSString
  /-- Result of `axios.post`, `none` when the promise rejects. -/
  response : Option EngineReply
  deriving DecidableEq, Repr

/-- The body of one `axios.post(COMPILER_SERVICE_URL, ...)`. -/
structure Request where
  code : JSString
  language : JSString
  input : JSString
  deriving DecidableEq, Repr

/-- The object `failedTestCaseDetails`. -/
structure FailedTestCase where
  input : JSString
  expectedOutput : JSString
  actualOutput : JSString
  deriving DecidableEq, Repr

/-- The local variables of lines 39-43 of `submitCode`, and the requests made so far
to the compiler service, in order. -/
structure Judgement where
  verdict : JSString
  output : Option JSString
  allPassed : Bool
  failedTestCaseDetails : Option FailedTestCase
  requests : List Request
  deriving DecidableEq, Repr

/-- The `catch` block of lines 82-88, which ends the loop. -/
def testError (st : Judgement) : Judgement :=
  { st with verdict := lit "Error", output := some (lit "Failed to read test files"),
            allPassed := false }

/-- The loop of lines 45-89 over the hidden tests.  Every path through the body
but the last one ends with `break`. -/
def hiddenTestLoop (code language : JSString) : List TestRun → Judgement → Judgement
  | [], st => st
  | t :: rest, st =>
    match t.inputData with
    | none => testError st
    | some inputData =>
      match t.expectedOutput with
      | none => testError st
      | some expectedOutput =>
        let posted := { st with
          requests := st.requests ++ [{ code := code, language := language, input := inputData }] }
        match t.response with
        | none => testError posted
        | some result =>
          if result.success = false then
            { posted with
              verdict := lit "Compilation Error",
              output := some (jsOr (result.error.getD []) (lit "Error during execution")),
              allPassed := false }
          else if trim (result.output.getD []) ≠ trim (jsOr expectedOutput []) then
            match result.output with
            | none =>
              -- `result.output.trim()` throws on `undefined`: the `catch` block runs
              testError { posted with verdict := lit "Wrong Answer", output := none }
            | some actual =>
              { posted with
                verdict := lit "Wrong Answer",
                output := some actual,
                failedTestCaseDetails := some {
                  input := trim inputData,
                  expectedOutput := trim expectedOutput,
                  actualOutput := trim actual },
                allPassed := false }
          else hiddenTestLoop code language rest posted

/-- Lines 39-98 of `submitCode`, for a problem and a user that were found: the
judgement of a submission against the hidden tests of the problem. -/
def submitCode (code language : JSString) (hiddenTests : List TestRun) : Judgement :=
  let st := hiddenTestLoop code language hiddenTests
    { verdict := lit "Accepted", output := some [], allPassed := true,
      failedTestCaseDetails := none, requests := [] }
  if st.allPassed then
    { st with verdict := lit "Accepted", output := some (lit "All test cases passed!") }
  else st

/-- A hidden test passes, as the specification words it: its files are read, the
engine result has success true, and the trimmed engine output equals the trimmed
expected output. -/
def testPasses (t : TestRun) : Bool :=
  match t.inputData, t.expectedOutput, t.response with
  | some _, some expectedOutput, some result =>
    result.success && decide (trim (result.output.getD []) = trim expectedOutput)
  | _, _, _ => false

/-- The request `submitCode` makes for a hidden test whose files were read. -/
def requestOf (code language : JSString) (t : TestRun) : Request :=
  { code := code, language := language, input := t.inputData.getD [] }

/-- A hidden test whose engine output and expected output have white space added in
front and behind. -/
def padTest (ws1 ws2 ws3 ws4 : JSString) (t : TestRun) : TestRun :=
  { t with
    expectedOutput := t.expectedOutput.map fun e => ws3 ++ e ++ ws4,
    response := t.response.map fun r =>
      { r with output := r.output.map fun o => ws1 ++ o ++ ws2 } }

/-- A hidden test that passes, with output `out` up to white space. -/
def passingTest (input out : JSString) : TestRun :=
  { inputData := some input, expectedOutput := some (out ++ lit "\n"),
    response := some { success := true, output := some out, error := none } }

/-- A hidden test with a wrong answer. -/
def wrongTest (input : JSString) : TestRun :=
  { inputData := some input, expectedOutput := some (lit "42\n"),
    response := some { success := true, output := some (lit "41\n"), error := none } }

/-! ## Concrete executions -/

/-- An execution id as `uuidv4()` returns them. -/
def sampleId : JSString := lit "3f2b8c1e-9a4d-4e7b-8c21-5d6f7a8b9c0d"

/-- A second execution id. -/
def otherId : JSString := lit "7c9e6679-7425-40de-944b-e07fc1f90ae7"

/-- A world in which nothing fails and the child prints nothing and exits with 0. -/
def quietEnv (executionId : JSString) : Env :=
  { executionId := executionId, writeError := none,
    compile := { failed := false, stdout := [], stderr := [], message := [] },
    runError := none, stdoutChunks := [], stderrChunks := [],
    exitCode := some 0, signal := none }

/-- The `g++` command of execution `sampleId` is killed by the `timeout` of `exec`
before it printed anything: `error.message` is `Command failed: ` followed by the
command line. -/
def compileTimeoutEnv : Env :=
  { quietEnv sampleId with
    compile := {
      failed := true, stdout := [], stderr := [],
      message := lit "Command failed: g++ /sandbox/3f2b8c1e-9a4d-4e7b-8c21-5d6f7a8b9c0d.cpp -o /sandbox/3f2b8c1e-9a4d-4e7b-8c21-5d6f7a8b9c0d.out -O2 -static-libstdc++\n" } }

/-- The compiled program of execution `sampleId` writes its own `argv[0]` to stderr
and exits with code 1. -/
def argvLeakEnv : Env :=
  { quietEnv sampleId with
    stderrChunks := [lit "/sandbox/3f2b8c1e-9a4d-4e7b-8c21-5d6f7a8b9c0d.out: fatal\n"],
    exitCode := some 1 }

/-- The Java source compiles, then an exception is thrown while the run promise is set
up (the request carried `input: 5`, and `proc.stdin.write(5)` throws a `TypeError`). -/
def stdinThrowsEnv : Env :=
  { quietEnv sampleId with
    runError := some { message := lit "The \"chunk\" argument must be of type string or an instance of Buffer or Uint8Array. Received type number (5)",
                       asString := lit "TypeError [ERR_INVALID_ARG_TYPE]: The \"chunk\" argument must be of type string or an instance of Buffer or Uint8Array. Received type number (5)" } }

/-- The source file cannot be written: the disk of the sandbox is full. -/
def diskFullEnv : Env :=
  { quietEnv sampleId with
    writeError := some { message := lit "ENOSPC: no space left on device, write",
                         asString := lit "Error: ENOSPC: no space left on device, write" } }

/-- The source file of a python execution cannot be written: the sandbox directory is
read-only.  Node names the path it could not open in the message, between
apostrophes (code unit 39). -/
def readOnlyEnv : Env :=
  { quietEnv sampleId with
    writeError := some {
      message := lit "EACCES: permission denied, open " ++ [39] ++
        lit "/sandbox/3f2b8c1e-9a4d-4e7b-8c21-5d6f7a8b9c0d.py" ++ [39],
      asString := lit "Error: EACCES: permission denied, open " ++ [39] ++
        lit "/sandbox/3f2b8c1e-9a4d-4e7b-8c21-5d6f7a8b9c0d.py" ++ [39] } }

/-- The compiler `javac` rejects the source and reports the position with the path
of the source file. -/
def javacErrorEnv : Env :=
  { quietEnv sampleId with
    compile := {
      failed := true, stdout := [],
      stderr := lit "/sandbox/Main.java:1: error: class, interface, or enum expected\n",
      message := lit "Command failed: javac /sandbox/Main.java\n/sandbox/Main.java:1: error: class, interface, or enum expected\n" } }

/-- A Java source whose `main` divides by zero. -/
def divisionSource : JSString :=
  lit "public class Foo \x7b public static void main(String[] a) \x7b int x = 1 / 0; \x7d \x7d"

/-- The source `divisionSource` compiles; the JVM prints the stack trace of the
uncaught exception, which names the source file of the class, to stderr and exits
with code 1. -/
def javaTraceEnv : Env :=
  { quietEnv sampleId with
    stderrChunks := [lit "Exception in thread \"main\" java.lang.ArithmeticException: / by zero\n\tat Foo.main(Foo.java:1)\n"],
    exitCode := some 1 }

/-- A Java source whose `main` ends the JVM with exit code 3. -/
def exitSource : JSString :=
  lit "public class Main \x7b public static void main(String[] a) \x7b System.exit(3); \x7d \x7d"

/-- The program runs (for java, after it compiled), prints nothing and exits with
code 3. -/
def exitThreeEnv : Env :=
  { quietEnv otherId with exitCode := some 3 }

/-- The child never stops by itself, and the `timeout` of `spawn` ends it.  The
source passes no `killSignal` option to `spawn`. -/
def spawnTimeoutEnv : Env :=
  { quietEnv sampleId with
    exitCode := (closeEvent none Termination.spawnTimeout).1,
    signal := (closeEvent none Termination.spawnTimeout).2 }

/-- The child prints `n` times the letter `é` (U+00E9) in one chunk and exits
with 0. -/
def accentedEnv (n : Nat) : Env :=
  { quietEnv sampleId with stdoutChunks := [List.replicate n 233] }

/-- The lock map and the calls agree: a call between `set` and `delete` has its key
in the map, and two different calls with the same key are never both there. -/
def LockInv (userId : Nat → JSString) (s : LockState) : Prop :=
  (∀ i, (s.pc i).holding = true → userId i ∈ s.userLocks) ∧
    (∀ i j, i ≠ j → userId i = userId j → (s.pc i).holding = true →
      (s.pc j).holding = true → False)

/-! ## Exit paths of `executeCode` -/

/-- Whether an execution gets as far as the `close` handler: the source file was
written, the compile step (cpp, java) did not fail, and no exception was thrown
while the run promise was set up. -/
def reachesClose (env : Env) (language : JSString) : Bool :=
  env.writeError.isNone && env.runError.isNone &&
    (decide (language = lit "python") ||
      ((decide (language = lit "cpp") || decide (language = lit "java")) &&
        !env.compile.failed))

/-- The six verdicts of the engine. -/
def engineVerdicts : List JSString :=
  [lit "Executed", lit "Compilation Error", lit "Runtime Error",
   lit "Time Limit Exceeded", lit "Bad Request", lit "Internal Error"]

/-- The verdict of a result is one of the six, and `success` is true exactly for
`Executed`. -/
def ExecResult.wellFormed (r : ExecResult) : Prop :=
  r.verdict ∈ engineVerdicts ∧ (r.success = true ↔ r.verdict = lit "Executed")

/-- The exception raised inside the `try` block of `executeCode`, if one is raised:
by the write of the source file, or, when the run stage is reached, while the run
promise is set up. -/
def raisedError (env : Env) (language : JSString) : Option JSError :=
  match env.writeError with
  | some err => some err
  | none =>
    if language = lit "python" ∨
        ((language = lit "cpp" ∨ language = lit "java") ∧ env.compile.failed = false) then
      env.runError
    else none

/-- The compile diagnostic as the specification words it: the stderr of the compiler
if it is not empty, else its stdout if that is not empty, else the message of the
error. -/
def compileDiagnostic (o : ExecOutcome) : JSString :=
  if o.stderr ≠ [] then o.stderr else if o.stdout ≠ [] then o.stdout else o.message

/-- Whether an effect starts a child process to run the program. -/
def Effect.isSpawn : Effect → Bool
  | Effect.spawn _ _ _ _ => true
  | _ => false

/-- Whether an effect starts the compiler. -/
def Effect.isExec : Effect → Bool
  | Effect.exec _ _ => true
  | _ => false

/-! ## The entry class of a Java source, as the specification words it -/

/-- A match of `public`, whitespace, `class`, whitespace, word characters at the
start of `t` that captures `name`: the pieces follow each other, both runs of
whitespace and the name are not empty, and the name is the whole run of word
characters found there. -/
def PublicClassMatchAt (t name : JSString) : Prop :=
  ∃ ws1 ws2 rest, t = lit "public" ++ (ws1 ++ (lit "class" ++ (ws2 ++ (name ++ rest)))) ∧
    ws1 ≠ [] ∧ (∀ u ∈ ws1, isWhiteSpace u = true) ∧
    ws2 ≠ [] ∧ (∀ u ∈ ws2, isWhiteSpace u = true) ∧
    name ≠ [] ∧ (∀ u ∈ name, isWordChar u = true) ∧
    (∀ u, rest.head? = some u → isWordChar u = false)

/-- The leftmost match in `code` captures `name`: there is a match at the end of
`before`, and none at any earlier position. -/
def LeftmostPublicClass (code name : JSString) : Prop :=
  ∃ before after, code = before ++ after ∧ PublicClassMatchAt after name ∧
    ∀ before2 after2 name2, code = before2 ++ after2 → before2.length < before.length →
      ¬ PublicClassMatchAt after2 name2

/-! ## The file system and `cleanupFiles` -/

/-- The files that exist on disk, by path. -/
abbrev FileSystem := List JSString

/-- Call `fs.unlinkSync(file)` on an existing file: it throws when the deletion
fails, and otherwise the file is gone. -/
def unlinkSync (fails : Bool) (disk : FileSystem) (file : JSString) :
    Except JSError FileSystem :=
  if fails then
    Except.error { message := lit "EPERM: operation not permitted, unlink",
                   asString := lit "Error: EPERM: operation not permitted, unlink" }
  else Except.ok (disk.filter fun p => decide (p ≠ file))

/-- Source `cleanupFiles`, from the file at position `i` of the list on.  `unlinkFails i`
says whether the deletion of the file at position `i` fails.  Each round is the
`try` block (`existsSync`, then `unlinkSync`) with its `catch`, which logs and goes
on with the disk as it was. -/
def cleanupFilesFrom (unlinkFails : Nat → Bool) :
    Nat → List JSString → FileSystem → Except JSError FileSystem
  | _, [], disk => Except.ok disk
  | i, file :: rest, disk =>
    match (if file ∈ disk then unlinkSync (unlinkFails i) disk file else Except.ok disk) with
    | Except.ok disk2 => cleanupFilesFrom unlinkFails (i + 1) rest disk2
    | Except.error _ => cleanupFilesFrom unlinkFails (i + 1) rest disk

/-- Source `cleanupFiles`: the disk it leaves, or the exception it raises. -/
def cleanupFiles (unlinkFails : Nat → Bool) (files : List JSString) (disk : FileSystem) :
    Except JSError FileSystem :=
  cleanupFilesFrom unlinkFails 0 files disk

/-- The disk after one effect of an execution. -/
def diskAfter (unlinkFails : Nat → Bool) (disk : FileSystem) : Effect → FileSystem
  | Effect.writeFile path _ => if path ∈ disk then disk else disk ++ [path]
  | Effect.compiled path => if path ∈ disk then disk else disk ++ [path]
  | Effect.cleanupFiles files =>
    match cleanupFiles unlinkFails files disk with
    | Except.ok disk2 => disk2
    | Except.error _ => disk
  | _ => disk

/-- The disk after the effects of an execution, in order. -/
def diskAfterAll (unlinkFails : Nat → Bool) (disk : FileSystem) (effects : List Effect) :
    FileSystem :=
  effects.foldl (diskAfter unlinkFails) disk

/-! ## `server.js`: the `app.post('/')` handler -/

/-- The fields `code`, `language` and `input` of the request body; a field is `none`
when the body does not have it. -/
structure RequestBody where
  code : Option JSString
  language : Option JSString
  input : Option JSString
  deriving DecidableEq, Repr

/-- The status and the JSON body the handler answers with (the measured
`executionTime` is left out). -/
structure Response where
  status : Nat
  success : Bool
  verdict : Option JSString
  type : Option JSString
  error : Option JSString
  output : Option JSString
  memoryUsed : Nat
  deriving DecidableEq, Repr

/-- Truthiness of a body field: present and not the empty string. -/
def truthy : Option JSString → Bool
  | none => false
  | some s => decide (s ≠ [])

/-- The handler of lines 21-69: the response it sends and the effects of the
execution it started, if it started one.  The response is `none` when the promise of
`executeCode` is never settled: the `await` of line 37 does not return and no line
of the handler sends a response. -/
def postHandler (cfg : Config) (env : Env) (body : RequestBody) :
    Option Response × List Effect :=
  if (!truthy body.code || !truthy body.language) = true then
    (some { status := 400, success := false, verdict := some (lit "Bad Request"),
            type := some (lit "Bad Request"),
            error := some (lit "Code and language are required"),
            output := none, memoryUsed := 0 }, [])
  else
    let execution := executeCode cfg env (body.code.getD []) (body.language.getD [])
      (jsOr (body.input.getD []) [])
    match execution.1 with
    | none => (none, execution.2)
    | some result =>
      if result.success = true then
        (some { status := 200, success := true, verdict := some (lit "Executed"),
                type := none, error := none, output := some result.output,
                memoryUsed := result.memoryUsed },
          execution.2)
      else
        match result.error with
        | some error =>
          (some { status := 200, success := false, verdict := result.type,
                  type := result.type, error := some (responseError error), output := none,
                  memoryUsed := result.memoryUsed }, execution.2)
        | none =>
          -- `result.error.replace` throws on `undefined`: the `catch` of lines 58-68
          (some { status := 500, success := false, verdict := some (lit "Internal Error"),
                  type := some (lit "Internal Error"),
                  error := some (lit "An internal error occurred during code execution"),
                  output := none, memoryUsed := 0 }, execution.2)

/-- Whether Node hands the command of an effect to a shell: `child_process.exec`
runs its command string with `/bin/sh -c`, `child_process.spawn` without the `shell`
option starts the program directly with its argument vector. -/
def Effect.viaShell : Effect → Bool
  | Effect.exec _ _ => true
  | _ => false

/-- The command strings an execution hands to `exec`, in order. -/
def compileCommands (effects : List Effect) : List JSString :=
  effects.flatMap fun e =>
    match e with
    | Effect.exec cmd _ => [cmd]
    | _ => []

/-- The programs an execution spawns, each with its argument vector. -/
def spawnedCommands (effects : List Effect) : List (JSString × List JSString) :=
  effects.flatMap fun e =>
    match e with
    | Effect.spawn cmd args _ _ => [(cmd, args)]
    | _ => []

/-! ## Execution ids and command characters -/

/-- A lower-case hexadecimal digit. -/
def isHexDigit (u : Nat) : Bool :=
  decide ((48 ≤ u ∧ u ≤ 57) ∨ (97 ≤ u ∧ u ≤ 102))

/-- The UUID format of `uuidv4()`: 36 characters, hyphens at positions 8, 13, 18 and
23, and hexadecimal digits everywhere else. -/
def isUuid (s : JSString) : Bool :=
  decide (s.length = 36) && s.all (fun u => isHexDigit u || decide (u = 45)) &&
    decide (s.getD 8 0 = 45) && decide (s.getD 13 0 = 45) && decide (s.getD 18 0 = 45) &&
    decide (s.getD 23 0 = 45) && decide ((s.filter fun u => decide (u = 45)).length = 4)

/-- The characters the claim allows in a compile command: letters, digits,
underscore, space, and `/`, `.`, `-`, `+`. -/
def isSafeCmdChar (u : Nat) : Bool :=
  decide ((48 ≤ u ∧ u ≤ 57) ∨ (65 ≤ u ∧ u ≤ 90) ∨ (97 ≤ u ∧ u ≤ 122) ∨ u = 95 ∨ u = 32 ∨
    u = 47 ∨ u = 46 ∨ u = 45 ∨ u = 43)

/-- The shell metacharacters the claim names: quotes, semicolon, pipe, ampersand,
dollar, backtick, redirections, globs, newline (and the backslash, parentheses,
braces, brackets, tilde, hash, exclamation mark and tab). -/
def shellMetacharacters : JSString :=
  [34, 39, 59, 124, 38, 36, 96, 60, 62, 42, 63, 10, 92, 40, 41, 123, 125, 91, 93, 126, 35,
   33, 9]

/-- The bound of the output field: with `stdout` the accumulated stdout of the child,
the output has at most `MAX_OUTPUT_SIZE` code units, it is a beginning of `stdout`, and
it is empty unless the verdict is `Executed` or `Runtime Error`. -/
def ExecResult.outputBounded (cfg : Config) (stdout : JSString) (r : ExecResult) : Prop :=
  (r.output.length : Int) ≤ MAX_OUTPUT_SIZE cfg ∧ r.output <+: stdout ∧
    (r.verdict ≠ lit "Executed" → r.verdict ≠ lit "Runtime Error" → r.output = [])

/-- The child prints `n` times the letter U+00E9 in one chunk and is ended by the
`SIGKILL` of the stdout handler. -/
def floodEnv (n : Nat) : Env :=
  { quietEnv sampleId with
    stdoutChunks := [List.replicate n 233],
    exitCode := (closeEvent none Termination.outputCap).1,
    signal := (closeEvent none Termination.outputCap).2 }

/-! ## The regular expression of `sanitizeError` -/

/-- The class `[.*+?^${}()|[\]\\]` of line 23: the syntax characters of a pattern. -/
def isSyntaxChar (u : Nat) : Bool :=
  decide (u ∈ [46, 42, 43, 63, 94, 36, 123, 125, 40, 41, 124, 91, 93, 92])

/-- Line 23, `identifier.replace(/[.*+?^${}()|[\]\\]/g, '\\$&')`: a backslash is put
in front of every syntax character. -/
def escapeRegExp (identifier : JSString) : JSString :=
  identifier.flatMap fun u => if isSyntaxChar u then [92, u] else [u]

/-- The string a pattern source matches, for a source made only of characters that
stand for themselves and of syntax characters escaped by a backslash; `none` for a
source with anything else in it.  `escaped` says that the character before was the
escaping backslash. -/
def literalOfPatternAux : Bool → JSString → Option JSString
  | false, [] => some []
  | true, [] => none
  | true, c :: t =>
    if isSyntaxChar c then (literalOfPatternAux false t).map fun l => c :: l else none
  | false, c :: t =>
    if c = 92 then literalOfPatternAux true t
    else if isSyntaxChar c then none
    else (literalOfPatternAux false t).map fun l => c :: l

/-- The string the pattern `new RegExp(source)` matches, see `literalOfPatternAux`. -/
def literalOfPattern (source : JSString) : Option JSString :=
  literalOfPatternAux false source

/-- One left-to-right pass over a text, as the specification words it: where the
identifier occurs at the current position it is deleted and the pass goes on behind
it, so that occurrences never overlap; any other character is kept. -/
inductive OnePass (identifier : JSString) : JSString → JSString → Prop
  | done : OnePass identifier [] []
  | delete (rest out : JSString) : identifier ≠ [] → OnePass identifier rest out →
      OnePass identifier (identifier ++ rest) out
  | keep (c : Nat) (t out : JSString) : ¬ (identifier ≠ [] ∧ identifier <+: c :: t) →
      OnePass identifier t out → OnePass identifier (c :: t) (c :: out)

/-! ## `submissionController.js`: `runCode` -/

/-- One entry of `problem.samples`. -/
structure Sample where
  input : Option JSString
  output : Option JSString
  deriving DecidableEq, Repr

/-- The body `response.data` of the answer of the compiler service, as far as
`runCode` reads it. -/
structure RunReply where
  success : Bool
  verdict : Option JSString
  output : Option JSString
  error : Option JSString
  deriving DecidableEq, Repr

/-- What `runCode` sends and answers: the `input` of the request to the compiler
service, and the fields of the response of lines 175-187. -/
structure RunResponse where
  stdin : JSString
  verdict : JSString
  output : JSString
  input : JSString
  expectedOutput : JSString
  actualOutput : JSString
  passed : Bool
  deriving DecidableEq, Repr

/-- The expression `problem.samples[0]?.input || ''`. -/
def sampleInput (samples : List Sample) : JSString :=
  jsOr ((samples.head?.bind fun s => s.input).getD []) []

/-- The expression `problem.samples[0]?.output || ''`. -/
def sampleOutput (samples : List Sample) : JSString :=
  jsOr ((samples.head?.bind fun s => s.output).getD []) []

/-- Lines 141-187 of `runCode`, for a problem that was found and a request to the
compiler service that was answered.  `input` is `none` when the body has no input
or `null`. -/
def runCode (samples : List Sample) (input : Option JSString) (result : RunReply) :
    RunResponse :=
  let isCustomInput := input.isSome
  let actualInput := if isCustomInput then input.getD [] else sampleInput samples
  let actualExpectedOutput : Option JSString :=
    if isCustomInput then none else some (sampleOutput samples)
  let actualOutput := trim (jsOr (jsOr (result.output.getD []) (result.error.getD [])) [])
  let expected := actualExpectedOutput.map trim
  let inputUsed := trim actualInput
  let compare := !isCustomInput && truthy expected
  let verdict :=
    if result.success = false then
      if result.verdict = some (lit "Compilation Error") then lit "Compilation Error"
      else lit "Runtime Error"
    else if compare = true ∧ actualOutput ≠ expected.getD [] then lit "Wrong Answer"
    else if compare = true ∧ actualOutput = expected.getD [] then lit "Correct Answer"
    else lit "Executed"
  let passed := decide (result.success = true ∧ compare = true ∧
    actualOutput = expected.getD [])
  { stdin := actualInput,
    verdict := verdict,
    output := jsOr (jsOr (result.output.getD []) (result.error.getD [])) [],
    input := inputUsed,
    expectedOutput := jsOr (expected.getD []) [],
    actualOutput := actualOutput,
    passed := passed }

/-- A successful answer of the compiler service with output `out`. -/
def executedReply (out : JSString) : RunReply :=
  { success := true, verdict := some (lit "Executed"), output := some out, error := none }

/-- The samples of a problem whose first sample reads `1 2` and expects `3`. -/
def sumSamples : List Sample :=
  [{ input := some (lit "1 2"), output := some (lit "3\n") }]

/-- The samples of a problem whose first sample expects no output but a line end. -/
def silentSamples : List Sample :=
  [{ input := some (lit "1 2"), output := some (lit "\n") }]

/-- The rewrite of line 53 alone:
`error.replace(/\/sandbox\/[a-zA-Z0-9\-]+\.cpp:/g, 'Line:')`. -/
def rewriteLocations (error : JSString) : JSString :=
  replaceAll matchCppLocation (lit "Line:") error

/-- The text `t` begins with a substring of the form the claim names: `/sandbox/`,
then one or more letters, digits or hyphens, then `.cpp:`. -/
def CppLocationAt (t : JSString) : Prop :=
  ∃ run rest, t = lit "/sandbox/" ++ (run ++ (lit ".cpp:" ++ rest)) ∧ run ≠ [] ∧
    ∀ u ∈ run, isIdChar u = true

/-! # Theorems -/

/-! ## The sanitizer and what reaches the caller -/

/-- C1 (defect of the code): `sanitizeError` makes one pass per identifier, and the
pieces left and right of a deleted occurrence can join into a new occurrence: from
the text `/sandbox//sandbox/Main.javaMain.java:1: error` the identifier
`/sandbox/Main.java` is deleted once, and the result `/sandbox/Main.java:1: error`
still contains it. -/
theorem sanitizeError_identifier_survives :
    sanitizeError (lit "/sandbox//sandbox/Main.javaMain.java:1: error")
        [lit "/sandbox/Main.java"] = lit "/sandbox/Main.java:1: error" ∧
      lit "/sandbox/Main.java" <:+:
        sanitizeError (lit "/sandbox//sandbox/Main.javaMain.java:1: error")
          [lit "/sandbox/Main.java"] := by
  decide

/-- C2 (defect of the code): the cpp branch returns the compile diagnostic without
calling `sanitizeError` (the java branch calls it), and the rewrite of `server.js`
only covers the path followed by a colon.  When the `g++` command times out, the
error text that reaches the caller is the command line: it contains the execution
id, the source file path and the file name. -/
theorem compile_error_leaks_workspace :
    (executeCode defaultConfig compileTimeoutEnv (lit "int main(){}") (lit "cpp") []).1 =
        some (failure (lit "Compilation Error") compileTimeoutEnv.compile.message []) ∧
      responseError compileTimeoutEnv.compile.message = compileTimeoutEnv.compile.message ∧
      sampleId <:+: compileTimeoutEnv.compile.message ∧
      pathJoin SANDBOX_DIR (sampleId ++ lit ".cpp") <:+: compileTimeoutEnv.compile.message ∧
      (sampleId ++ lit ".cpp") <:+: compileTimeoutEnv.compile.message := by
  decide

/-- C3 (defect of the code): for cpp the close handler strips no identifier at all
(for python it strips the source path).  A program that writes its `argv[0]` to
stderr and exits with 1 gets a Runtime Error whose error text is that stderr,
executable path and execution id included. -/
theorem runtime_error_leaks_workspace :
    (executeCode defaultConfig argvLeakEnv (lit "int main(){}") (lit "cpp") []).1 =
        some (failure (lit "Runtime Error")
          (lit "/sandbox/3f2b8c1e-9a4d-4e7b-8c21-5d6f7a8b9c0d.out: fatal\n") []) ∧
      pathJoin SANDBOX_DIR (sampleId ++ lit ".out") <:+:
        lit "/sandbox/3f2b8c1e-9a4d-4e7b-8c21-5d6f7a8b9c0d.out: fatal\n" ∧
      sampleId <:+: lit "/sandbox/3f2b8c1e-9a4d-4e7b-8c21-5d6f7a8b9c0d.out: fatal\n" := by
  decide

/-! ## Cleanup on the exit paths -/

/-- C5 (defect of the code): the `catch` block names `Main.java` and `Main.class`
whatever the class of the source is, while the other exit paths of the java branch
use the class name.  For a source with `public class Foo` and an exception thrown
after the compile step, `/sandbox/Foo.java` and `/sandbox/Foo.class` were created
and neither is in the list passed to `cleanupFiles`. -/
theorem catch_block_misses_java_files :
    (executeCode defaultConfig stdinThrowsEnv (lit "public class Foo { }") (lit "java")
        []).1.map ExecResult.verdict = some (lit "Internal Error") ∧
      createdPaths (executeCode defaultConfig stdinThrowsEnv (lit "public class Foo { }")
        (lit "java") []).2 = [lit "/sandbox/Foo.java", lit "/sandbox/Foo.class"] ∧
      cleanedPaths (executeCode defaultConfig stdinThrowsEnv (lit "public class Foo { }")
        (lit "java") []).2 =
        [lit "/sandbox/3f2b8c1e-9a4d-4e7b-8c21-5d6f7a8b9c0d.java",
         lit "/sandbox/3f2b8c1e-9a4d-4e7b-8c21-5d6f7a8b9c0d.out",
         lit "/sandbox/Main.java", lit "/sandbox/Main.class"] ∧
      lit "/sandbox/Foo.java" ∉ cleanedPaths (executeCode defaultConfig stdinThrowsEnv
        (lit "public class Foo { }") (lit "java") []).2 ∧
      lit "/sandbox/Foo.class" ∉ cleanedPaths (executeCode defaultConfig stdinThrowsEnv
        (lit "public class Foo { }") (lit "java") []).2 := by
  decide

/-- C6 (defect of the code): the `catch` block passes `/sandbox/Main.java` and
`/sandbox/Main.class` to `cleanupFiles` for every language and class name.  A python
execution that ends there, because the source file could not be written or because
the write to stdin threw, created neither of them and asks for the deletion of
both; they are the files of whatever java execution has class `Main`. -/
theorem catch_block_deletes_foreign_files :
    createdPaths (executeCode defaultConfig diskFullEnv (lit "print(1)") (lit "python")
        []).2 = [] ∧
      cleanedPaths (executeCode defaultConfig diskFullEnv (lit "print(1)") (lit "python")
        []).2 =
        [lit "/sandbox/3f2b8c1e-9a4d-4e7b-8c21-5d6f7a8b9c0d.py",
         lit "/sandbox/3f2b8c1e-9a4d-4e7b-8c21-5d6f7a8b9c0d.out",
         lit "/sandbox/Main.java", lit "/sandbox/Main.class"] ∧
      createdPaths (executeCode defaultConfig stdinThrowsEnv (lit "print(1)") (lit "python")
        []).2 = [lit "/sandbox/3f2b8c1e-9a4d-4e7b-8c21-5d6f7a8b9c0d.py"] ∧
      cleanedPaths (executeCode defaultConfig stdinThrowsEnv (lit "print(1)") (lit "python")
        []).2 =
        [lit "/sandbox/3f2b8c1e-9a4d-4e7b-8c21-5d6f7a8b9c0d.py",
         lit "/sandbox/3f2b8c1e-9a4d-4e7b-8c21-5d6f7a8b9c0d.out",
         lit "/sandbox/Main.java", lit "/sandbox/Main.class"] ∧
      createdPaths (executeCode defaultConfig (quietEnv otherId) [] (lit "java") []).2 =
        [lit "/sandbox/Main.java", lit "/sandbox/Main.class"] := by
  decide

/-! ## Paths of two executions -/

theorem createdPaths_append (xs ys : List Effect) :
    createdPaths (xs ++ ys) = createdPaths xs ++ createdPaths ys := by
  simp [createdPaths]

theorem cleanedPaths_append (xs ys : List Effect) :
    cleanedPaths (xs ++ ys) = cleanedPaths xs ++ cleanedPaths ys := by
  simp [cleanedPaths]

theorem stdout_handler_paths (cfg : Config) (chunks : List JSString)
    (st : JSString × List Effect) :
    createdPaths (chunks.foldl (onStdoutData cfg) st).2 = createdPaths st.2 ∧
      cleanedPaths (chunks.foldl (onStdoutData cfg) st).2 = cleanedPaths st.2 := by
  induction chunks generalizing st with
  | nil => simp
  | cons c cs ih =>
    rw [List.foldl_cons]
    refine ⟨(ih _).1.trans ?_, (ih _).2.trans ?_⟩
    · unfold onStdoutData
      split <;> simp [createdPaths]
    · unfold onStdoutData
      split <;> simp [cleanedPaths]

theorem getFileExtension_cases (language : JSString) (h : language ≠ lit "java") :
    getFileExtension language = lit "py" ∨ getFileExtension language = lit "cpp" ∨
      getFileExtension language = lit "txt" := by
  unfold getFileExtension
  split_ifs <;> simp

theorem append_eq_suffix (a b x y : JSString) (h : a ++ x = b ++ y) :
    x <:+ y ∨ y <:+ x := by
  have hx : x <:+ a ++ x := List.suffix_append a x
  have hy : y <:+ a ++ x := h ▸ List.suffix_append b y
  rcases Nat.le_total x.length y.length with hl | hl
  · exact Or.inl (List.suffix_of_suffix_length_le hx hy hl)
  · exact Or.inr (List.suffix_of_suffix_length_le hy hx hl)

theorem extension_not_suffix :
    ∀ x ∈ [lit "py", lit "cpp", lit "txt", lit "out", lit "java", lit "class"],
      ∀ y ∈ [lit "py", lit "cpp", lit "txt", lit "out", lit "java", lit "class"],
        x ≠ y → ¬ (x <:+ y ∨ y <:+ x) := by
  decide

theorem sandbox_paths_differ (a b x y : JSString) (hab : a ≠ b ∨ x ≠ y)
    (hx : x ∈ [lit "py", lit "cpp", lit "txt", lit "out", lit "java", lit "class"])
    (hy : y ∈ [lit "py", lit "cpp", lit "txt", lit "out", lit "java", lit "class"]) :
    pathJoin SANDBOX_DIR (a ++ lit "." ++ x) ≠ pathJoin SANDBOX_DIR (b ++ lit "." ++ y) := by
  intro h
  unfold pathJoin at h
  have h1 : a ++ lit "." ++ x = b ++ lit "." ++ y := List.append_cancel_left h
  by_cases hxy : x = y
  · subst hxy
    rcases hab with hab | hab
    · exact hab (List.append_cancel_right (List.append_cancel_right h1))
    · exact hab rfl
  · exact extension_not_suffix x hx y hy hxy (append_eq_suffix _ _ _ _ h1)

theorem execName_eq (a : JSString) : a ++ lit ".out" = a ++ lit "." ++ lit "out" := by
  rw [List.append_assoc]
  rfl

/-- Outside the java branch and the `catch` block, every path an execution touches is
its source path or its executable path. -/
theorem touchedPaths_own (cfg : Config) (env : Env) (code language input : JSString)
    (hj : language ≠ lit "java")
    (hv : (executeCode cfg env code language input).1.map ExecResult.verdict ≠
      some (lit "Internal Error")) :
    ∀ p ∈ touchedPaths (executeCode cfg env code language input).2,
      p = pathJoin SANDBOX_DIR (env.executionId ++ lit "." ++ getFileExtension language) ∨
        p = pathJoin SANDBOX_DIR (env.executionId ++ lit ".out") := by
  intro p hp
  unfold executeCode at hp hv
  simp only [if_neg hj] at hp hv
  cases hw : env.writeError with
  | some err =>
    simp only [hw, catchBlock, failure] at hv
    exact absurd rfl hv
  | none =>
    simp only [hw] at hp hv
    by_cases hc : language = lit "cpp"
    · simp only [if_pos hc] at hp hv
      by_cases hf : env.compile.failed = true
      · simp only [if_pos hf] at hp
        simp [touchedPaths, createdPaths, cleanedPaths] at hp ⊢
        tauto
      · simp only [if_neg hf, runStage] at hp hv
        cases hr : env.runError with
        | some err =>
          simp only [hr, catchBlock, failure] at hv
          exact absurd rfl hv
        | none =>
          simp only [hr] at hp
          have hk := stdout_handler_paths cfg env.stdoutChunks ([], [])
          simp only [touchedPaths, createdPaths_append, cleanedPaths_append, hk.1, hk.2] at hp
          split at hp <;> simp [createdPaths, cleanedPaths] at hp ⊢ <;> tauto
    · simp only [if_neg hc] at hp hv
      by_cases hpy : language = lit "python"
      · simp only [if_pos hpy, runStage] at hp hv
        cases hr : env.runError with
        | some err =>
          simp only [hr, catchBlock, failure] at hv
          exact absurd rfl hv
        | none =>
          simp only [hr] at hp
          have hk := stdout_handler_paths cfg env.stdoutChunks ([], [])
          simp only [touchedPaths, createdPaths_append, cleanedPaths_append, hk.1, hk.2] at hp
          split at hp <;> simp [createdPaths, cleanedPaths] at hp ⊢ <;> tauto
      · simp only [if_neg hpy] at hp
        simp [touchedPaths, createdPaths, cleanedPaths] at hp ⊢
        tauto

/-- In the java branch, outside the `catch` block, every path an execution touches
is the source path or the class file path built from the class name of the source. -/
theorem touchedPaths_java (cfg : Config) (env : Env) (code input : JSString)
    (hv : (executeCode cfg env code (lit "java") input).1.map ExecResult.verdict ≠
      some (lit "Internal Error")) :
    ∀ p ∈ touchedPaths (executeCode cfg env code (lit "java") input).2,
      p = pathJoin SANDBOX_DIR (javaClassName code ++ lit ".java") ∨
        p = pathJoin SANDBOX_DIR (javaClassName code ++ lit ".class") := by
  intro p hp
  unfold executeCode at hp hv
  simp only [if_true] at hp hv
  cases hw : env.writeError with
  | some err =>
    simp only [hw, catchBlock, failure] at hv
    exact absurd rfl hv
  | none =>
    simp only [hw] at hp hv
    by_cases hf : env.compile.failed = true
    · simp only [if_pos hf] at hp
      simp [touchedPaths, createdPaths, cleanedPaths] at hp ⊢
      tauto
    · simp only [if_neg hf, runStage] at hp hv
      cases hr : env.runError with
      | some err =>
        simp only [hr, catchBlock, failure] at hv
        exact absurd rfl hv
      | none =>
        simp only [hr] at hp
        have hk := stdout_handler_paths cfg env.stdoutChunks ([], [])
        simp only [touchedPaths, createdPaths_append, cleanedPaths_append, hk.1, hk.2] at hp
        split at hp <;> simp [createdPaths, cleanedPaths] at hp ⊢ <;> tauto

/-- Outside the `catch` block every path an execution touches is
`/sandbox/<stem>.<extension>`, with the stem of `fileStem` and one of six extensions,
`java` or `class` exactly for the language java. -/
theorem touchedPaths_stem (cfg : Config) (env : Env) (code language input : JSString)
    (hv : (executeCode cfg env code language input).1.map ExecResult.verdict ≠
      some (lit "Internal Error")) :
    ∀ p ∈ touchedPaths (executeCode cfg env code language input).2,
      ∃ x, p = pathJoin SANDBOX_DIR (fileStem env code language ++ lit "." ++ x) ∧
        x ∈ [lit "py", lit "cpp", lit "txt", lit "out", lit "java", lit "class"] ∧
        (x ∈ [lit "java", lit "class"] ↔ language = lit "java") := by
  intro p hp
  by_cases hj : language = lit "java"
  · subst hj
    have hstem : fileStem env code (lit "java") = javaClassName code := by
      unfold fileStem
      rw [if_pos rfl]
    rw [hstem]
    rcases touchedPaths_java cfg env code input hv p hp with h | h
    · refine ⟨lit "java", ?_, by decide, by decide⟩
      rw [h, List.append_assoc]
      rfl
    · refine ⟨lit "class", ?_, by decide, by decide⟩
      rw [h, List.append_assoc]
      rfl
  · have hstem : fileStem env code language = env.executionId := by
      unfold fileStem
      rw [if_neg hj]
    rw [hstem]
    rcases touchedPaths_own cfg env code language input hj hv p hp with h | h
    · refine ⟨getFileExtension language, h, ?_, ?_⟩
      · rcases getFileExtension_cases language hj with e | e | e <;> rw [e] <;> decide
      · rcases getFileExtension_cases language hj with e | e | e <;> rw [e] <;>
          exact ⟨fun hx => absurd hx (by decide), fun hx => absurd hx hj⟩
    · refine ⟨lit "out", ?_, by decide, fun hx => absurd hx (by decide),
        fun hx => absurd hx hj⟩
      rw [h, execName_eq]

/-- C4 (defect of the code): the java branch names its files after the class of the
source, not after the execution id.  Two java executions with different execution
ids and the same class name both write, compile to and clean up `/sandbox/Main.java`
and `/sandbox/Main.class`, paths in which neither execution id occurs; and the cleanup
of the second deletes the two files of the first while the first may still be
running. -/
theorem java_executions_share_paths :
    sampleId ≠ otherId ∧
      lit "/sandbox/Main.java" ∈ touchedPaths (executeCode defaultConfig (quietEnv sampleId)
        (lit "public class Main { }") (lit "java") []).2 ∧
      lit "/sandbox/Main.java" ∈ touchedPaths (executeCode defaultConfig (quietEnv otherId)
        (lit "public class Main { }") (lit "java") []).2 ∧
      touchedPaths (executeCode defaultConfig (quietEnv sampleId)
        (lit "public class Main { }") (lit "java") []).2 =
        touchedPaths (executeCode defaultConfig (quietEnv otherId)
          (lit "public class Main { }") (lit "java") []).2 ∧
      ¬ sampleId <:+: lit "/sandbox/Main.java" ∧
      createdPaths (executeCode defaultConfig (quietEnv sampleId)
        (lit "public class Main { }") (lit "java") []).2 =
        [lit "/sandbox/Main.java", lit "/sandbox/Main.class"] ∧
      diskAfterAll (fun _ => false) [lit "/sandbox/Main.java", lit "/sandbox/Main.class"]
        (executeCode defaultConfig (quietEnv otherId)
          (lit "public class Main { }") (lit "java") []).2 = [] := by
  decide

/-- Two executions with different execution ids, neither ending in the `catch` block,
touch disjoint sets of paths unless both are java executions with the same class
name: every other pair differs in the stem or in the extension of each path. -/
theorem executions_touch_disjoint_paths (cfg1 cfg2 : Config) (env1 env2 : Env)
    (code1 code2 language1 language2 input1 input2 : JSString)
    (hid : env1.executionId ≠ env2.executionId)
    (hcls : language1 = lit "java" → language2 = lit "java" →
      javaClassName code1 ≠ javaClassName code2)
    (hv1 : (executeCode cfg1 env1 code1 language1 input1).1.map ExecResult.verdict ≠
      some (lit "Internal Error"))
    (hv2 : (executeCode cfg2 env2 code2 language2 input2).1.map ExecResult.verdict ≠
      some (lit "Internal Error")) :
    ∀ p ∈ touchedPaths (executeCode cfg1 env1 code1 language1 input1).2,
      p ∉ touchedPaths (executeCode cfg2 env2 code2 language2 input2).2 := by
  intro p hp1 hp2
  obtain ⟨x1, e1, hx1, hj1⟩ := touchedPaths_stem cfg1 env1 code1 language1 input1 hv1 p hp1
  obtain ⟨x2, e2, hx2, hj2⟩ := touchedPaths_stem cfg2 env2 code2 language2 input2 hv2 p hp2
  refine sandbox_paths_differ _ _ x1 x2 ?_ hx1 hx2 (e1.symm.trans e2)
  by_cases h1 : language1 = lit "java"
  · by_cases h2 : language2 = lit "java"
    · left
      unfold fileStem
      rw [if_pos h1, if_pos h2]
      exact hcls h1 h2
    · right
      intro hx
      exact h2 (hj2.1 (hx ▸ hj1.2 h1))
  · by_cases h2 : language2 = lit "java"
    · right
      intro hx
      exact h1 (hj1.1 (hx ▸ hj2.2 h2))
    · left
      unfold fileStem
      rw [if_neg h1, if_neg h2]
      exact hid

/-- The theorem `executions_touch_disjoint_paths` at two java executions with the
classes `Foo` and `Bar`, and at a java execution with class `Main` next to a python
execution. -/
theorem executions_touch_disjoint_paths_witness :
    (quietEnv sampleId).executionId ≠ (quietEnv otherId).executionId ∧
      (∀ p ∈ touchedPaths (executeCode defaultConfig (quietEnv sampleId)
          (lit "public class Foo { }") (lit "java") []).2,
        p ∉ touchedPaths (executeCode defaultConfig (quietEnv otherId)
          (lit "public class Bar { }") (lit "java") []).2) ∧
      (∀ p ∈ touchedPaths (executeCode defaultConfig (quietEnv sampleId)
          (lit "public class Main { }") (lit "java") []).2,
        p ∉ touchedPaths (executeCode defaultConfig (quietEnv otherId) (lit "print(1)")
          (lit "python") []).2) :=
  ⟨by decide,
    executions_touch_disjoint_paths defaultConfig defaultConfig (quietEnv sampleId)
      (quietEnv otherId) (lit "public class Foo { }") (lit "public class Bar { }")
      (lit "java") (lit "java") [] [] (by decide) (fun _ _ => by decide) (by decide)
      (by decide),
    executions_touch_disjoint_paths defaultConfig defaultConfig (quietEnv sampleId)
      (quietEnv otherId) (lit "public class Main { }") (lit "print(1)")
      (lit "java") (lit "python") [] [] (by decide) (fun _ h => absurd h (by decide))
      (by decide) (by decide)⟩

/-! ## Time limit and output cap -/

/-- C7 (defect of the code): the close handler recognises only `SIGKILL`.  The
`spawn` call sets no `killSignal`, so its `timeout` ends the child with `SIGTERM`;
the close event is then `(null, 'SIGTERM')` and the handler falls through to the
last branch: the result is a Runtime Error, not Time Limit Exceeded. -/
theorem spawn_timeout_is_runtime_error :
    Effect.spawn (lit "python3") [lit "/sandbox/3f2b8c1e-9a4d-4e7b-8c21-5d6f7a8b9c0d.py"]
        5000 none ∈
        (executeCode defaultConfig spawnTimeoutEnv (lit "while True: pass") (lit "python")
          []).2 ∧
      (spawnTimeoutEnv.exitCode, spawnTimeoutEnv.signal) = (none, some (lit "SIGTERM")) ∧
      (executeCode defaultConfig spawnTimeoutEnv (lit "while True: pass") (lit "python")
          []).1 =
        some (failure (lit "Runtime Error") (lit "Runtime error or non-zero exit code")
          []) := by
  decide

theorem lit_python_ne_java : lit "python" ≠ lit "java" := by decide

theorem lit_python_ne_cpp : lit "python" ≠ lit "cpp" := by decide

theorem utf8ByteLengthAux_replicate (n : Nat) (afterHigh : Bool) :
    utf8ByteLengthAux afterHigh (List.replicate n 233) = 2 * n := by
  induction n generalizing afterHigh with
  | zero => simp [utf8ByteLengthAux]
  | succ n ih =>
    rw [List.replicate_succ]
    simp only [utf8ByteLengthAux]
    rw [if_neg (by decide), if_pos (by decide), ih]
    omega

theorem accented_output (n : Nat) (code : JSString)
    (h : ¬ ((n : Int) > MAX_OUTPUT_SIZE defaultConfig)) :
    (executeCode defaultConfig (accentedEnv n) code (lit "python") []).1 =
      some { success := true, verdict := lit "Executed", type := none, error := none,
             output := List.replicate n 233, memoryUsed := 0 } := by
  have hn : n ≤ (MAX_OUTPUT_SIZE defaultConfig).toNat := by
    have : (0 : Int) ≤ MAX_OUTPUT_SIZE defaultConfig := by decide
    omega
  have hneg : ¬ MAX_OUTPUT_SIZE defaultConfig < 0 := by decide
  simp only [executeCode, if_neg lit_python_ne_java, if_neg lit_python_ne_cpp, if_true,
    accentedEnv, quietEnv, runStage, onClose, List.foldl, onStdoutData, List.nil_append,
    List.length_replicate]
  rw [if_neg h]
  simp only [slice0, if_neg hneg, List.take_replicate]
  rw [Nat.min_eq_right hn, if_neg (by intro hs; cases hs)]

/-- C8 (defect of the code): `MAX_OUTPUT_SIZE` is documented in the source as a
number of bytes, and the code compares and cuts with the string length, which counts
UTF-16 code units.  With the default cap of 1048576, a child that prints 1048576
times the letter U+00E9 is not killed and not cut: the output field holds 1048576
code units, which are 2097152 bytes. -/
theorem output_bytes_exceed_cap :
    MAX_OUTPUT_SIZE defaultConfig = 1048576 ∧
      (executeCode defaultConfig (accentedEnv 1048576)
        (lit "print(chr(233) * 1048576, end=str())") (lit "python") []).1.map
          ExecResult.success = some true ∧
      (executeCode defaultConfig (accentedEnv 1048576)
        (lit "print(chr(233) * 1048576, end=str())") (lit "python") []).1.map
          (fun r => utf8ByteLength r.output) = some 2097152 := by
  refine ⟨by decide, ?_, ?_⟩
  · rw [accented_output 1048576 _ (by decide)]
    rfl
  · rw [accented_output 1048576 _ (by decide)]
    simp only [Option.map, utf8ByteLength, utf8ByteLengthAux_replicate]

/-! ## The per-user lock -/

theorem mem_lockSet (m : List JSString) (u k : JSString) :
    k ∈ lockSet m u ↔ k = u ∨ k ∈ m := by
  unfold lockSet
  split
  · constructor
    · exact Or.inr
    · rintro (h | h)
      · subst h; assumption
      · exact h
  · simp [or_comm]

theorem mem_lockDelete (m : List JSString) (u k : JSString) :
    k ∈ lockDelete m u ↔ k ∈ m ∧ k ≠ u := by
  simp [lockDelete]

theorem enter_pc_other (userId : Nat → JSString) (s : LockState) (i : Nat)
    (thr : Option Nat) (k : Nat) (hk : k ≠ i) : (enter userId s i thr).pc k = s.pc k := by
  unfold enter
  split
  · simp [Function.update_apply, hk]
  · cases thr <;> simp [Function.update_apply, hk]

theorem step_pc_other (userId : Nat → JSString) (s : LockState) (ev : Event) (k : Nat)
    (hk : k ≠ ev.call) : (step userId s ev).pc k = s.pc k := by
  cases ev with
  | run i thr =>
    have hki : k ≠ i := hk
    cases hpc : s.pc i <;>
      simp [step, hpc, enter_pc_other, Function.update_apply, hki]
  | settle i o =>
    have hki : k ≠ i := hk
    cases hpc : s.pc i <;> simp [step, hpc, Function.update_apply, hki]

theorem enter_other_keys (userId : Nat → JSString) (s : LockState) (i : Nat)
    (thr : Option Nat) (k : JSString) (hk : k ≠ userId i) :
    k ∈ (enter userId s i thr).userLocks ↔ k ∈ s.userLocks := by
  unfold enter
  split
  · rfl
  · cases thr <;> simp [mem_lockSet, mem_lockDelete, hk]

theorem step_other_keys (userId : Nat → JSString) (s : LockState) (ev : Event)
    (k : JSString) (hk : k ≠ userId ev.call) :
    k ∈ (step userId s ev).userLocks ↔ k ∈ s.userLocks := by
  cases ev with
  | run i thr =>
    have hki : k ≠ userId i := hk
    cases hpc : s.pc i <;>
      simp [step, hpc, enter_other_keys, mem_lockDelete, hki]
  | settle i o =>
    cases hpc : s.pc i <;> simp [step, hpc]

theorem update_not_holding (userId : Nat → JSString) (s : LockState) (i : Nat) (v : Pc)
    (locks : List JSString) (hv : v.holding = false) (h : LockInv userId s)
    (hl : ∀ k, k ≠ i → (s.pc k).holding = true → userId k ∈ locks) :
    LockInv userId { userLocks := locks, pc := Function.update s.pc i v } := by
  obtain ⟨_, h2⟩ := h
  refine ⟨fun k hk => ?_, fun a b hab hid ha hb => ?_⟩
  · by_cases hki : k = i
    · subst hki; simp [hv] at hk
    · simp [Function.update_apply, hki] at hk; exact hl k hki hk
  · by_cases hai : a = i
    · subst hai; simp [hv] at ha
    · by_cases hbi : b = i
      · subst hbi; simp [hv] at hb
      · simp [Function.update_apply, hai] at ha
        simp [Function.update_apply, hbi] at hb
        exact h2 a b hab hid ha hb

theorem enter_preserves_inv (userId : Nat → JSString) (s : LockState) (i : Nat)
    (thr : Option Nat) (h : LockInv userId s) : LockInv userId (enter userId s i thr) := by
  have h1 := h.1
  have h2 := h.2
  unfold enter
  split
  · exact update_not_holding userId s i Pc.sleeping s.userLocks rfl h (fun k _ hk => h1 k hk)
  · rename_i hfree
    have hfree2 : userId i ∉ s.userLocks := by
      simpa [lockGet] using hfree
    cases thr with
    | none =>
      refine ⟨fun k hk => ?_, fun a b hab hid ha hb => ?_⟩
      · by_cases hki : k = i
        · subst hki; exact (mem_lockSet _ _ _).2 (Or.inl rfl)
        · simp [Function.update_apply, hki] at hk
          exact (mem_lockSet _ _ _).2 (Or.inr (h1 k hk))
      · by_cases hai : a = i
        · subst hai
          have hbi : b ≠ a := fun e => hab e.symm
          simp [Function.update_apply, hbi] at hb
          exact hfree2 (hid ▸ h1 b hb)
        · simp [Function.update_apply, hai] at ha
          by_cases hbi : b = i
          · subst hbi
            exact hfree2 (hid ▸ h1 a ha)
          · simp [Function.update_apply, hbi] at hb
            exact h2 a b hab hid ha hb
    | some reason =>
      refine update_not_holding userId s i _ _ rfl h (fun k _ hk => ?_)
      refine (mem_lockDelete _ _ _).2 ⟨(mem_lockSet _ _ _).2 (Or.inr (h1 k hk)), ?_⟩
      intro e
      exact hfree2 (e ▸ h1 k hk)

theorem step_preserves_inv (userId : Nat → JSString) (s : LockState) (ev : Event)
    (h : LockInv userId s) : LockInv userId (step userId s ev) := by
  have h1 := h.1
  have h2 := h.2
  cases ev with
  | run i thr =>
    cases hpc : s.pc i with
    | entry => simp only [step, hpc]; exact enter_preserves_inv userId s i thr h
    | sleeping => simp only [step, hpc]; exact enter_preserves_inv userId s i thr h
    | awaiting => simp only [step, hpc]; exact h
    | settled o => simp only [step, hpc]; exact h
    | resuming o =>
      simp only [step, hpc]
      have hi : (s.pc i).holding = true := by rw [hpc]; rfl
      refine update_not_holding userId s i _ _ rfl h (fun k hki hk => ?_)
      refine (mem_lockDelete _ _ _).2 ⟨h1 k hk, ?_⟩
      intro e
      exact h2 k i hki e hk hi
  | settle i o =>
    cases hpc : s.pc i with
    | awaiting =>
      simp only [step, hpc]
      have hi : (s.pc i).holding = true := by rw [hpc]; rfl
      have hsame : ∀ k, (Function.update s.pc i (Pc.resuming o) k).holding =
          (s.pc k).holding := by
        intro k
        by_cases hki : k = i
        · subst hki; simp [Pc.holding, hpc]
        · simp [Function.update_apply, hki]
      refine ⟨fun k hk => ?_, fun a b hab hid ha hb => ?_⟩
      · exact h1 k ((hsame k) ▸ hk)
      · exact h2 a b hab hid ((hsame a) ▸ ha) ((hsame b) ▸ hb)
    | entry => simp only [step, hpc]; exact h
    | sleeping => simp only [step, hpc]; exact h
    | resuming o2 => simp only [step, hpc]; exact h
    | settled o2 => simp only [step, hpc]; exact h

theorem runEvents_snoc (userId : Nat → JSString) (evs : List Event) (ev : Event) :
    runEvents userId (evs ++ [ev]) = step userId (runEvents userId evs) ev := by
  simp [runEvents, List.foldl_append]

theorem runEvents_inv (userId : Nat → JSString) (evs : List Event) :
    LockInv userId (runEvents userId evs) := by
  induction evs using List.reverseRecOn with
  | nil =>
    refine ⟨fun i hi => ?_, fun i j _ _ hi _ => ?_⟩ <;>
      simp [runEvents, initial, Pc.holding] at hi
  | append_singleton evs ev ih =>
    rw [runEvents_snoc]
    exact step_preserves_inv userId _ ev ih

theorem start_needs_free_lock (userId : Nat → JSString) (s : LockState) (ev : Event)
    (j : Nat) (h0 : (s.pc j).started = false)
    (h1 : ((step userId s ev).pc j).started = true) : userId j ∉ s.userLocks := by
  by_cases hc : j = ev.call
  · cases ev with
    | run i thr =>
      have hji : j = i := hc
      subst hji
      cases hpc : s.pc j with
      | entry =>
        simp only [step, hpc, enter] at h1
        split at h1
        · simp [Pc.started] at h1
        · rename_i hfree; simpa [lockGet] using hfree
      | sleeping =>
        simp only [step, hpc, enter] at h1
        split at h1
        · simp [Pc.started] at h1
        · rename_i hfree; simpa [lockGet] using hfree
      | awaiting => simp [hpc, Pc.started] at h0
      | resuming o => simp [hpc, Pc.started] at h0
      | settled o => simp [hpc, Pc.started] at h0
    | settle i o =>
      have hji : j = i := hc
      subst hji
      cases hpc : s.pc j <;> simp [step, hpc, Pc.started] at h0 h1
  · rw [step_pc_other userId s ev j hc, h0] at h1
    exact absurd h1 (by decide)

theorem resuming_was_settled (userId : Nat → JSString) (evs : List Event) (i : Nat)
    (o : Outcome) (h : (runEvents userId evs).pc i = Pc.resuming o) :
    Event.settle i o ∈ evs := by
  induction evs using List.reverseRecOn with
  | nil => simp [runEvents, initial] at h
  | append_singleton evs ev ih =>
    rw [runEvents_snoc] at h
    by_cases hc : i = ev.call
    · cases ev with
      | run k thr =>
        have hik : i = k := hc
        subst hik
        cases hpc : (runEvents userId evs).pc i with
        | entry =>
          simp only [step, hpc, enter] at h
          split at h
          · simp at h
          · cases thr <;> simp at h
        | sleeping =>
          simp only [step, hpc, enter] at h
          split at h
          · simp at h
          · cases thr <;> simp at h
        | awaiting => simp [step, hpc] at h
        | resuming o2 => simp [step, hpc] at h
        | settled o2 => simp [step, hpc] at h
      | settle k o2 =>
        have hik : i = k := hc
        subst hik
        cases hpc : (runEvents userId evs).pc i with
        | awaiting =>
          simp [step, hpc] at h
          subst h
          simp
        | entry => simp [step, hpc] at h
        | sleeping => simp [step, hpc] at h
        | resuming o3 =>
          simp only [step, hpc] at h
          exact List.mem_append_left _ (ih (hpc.trans h))
        | settled o3 => simp [step, hpc] at h
    · rw [step_pc_other userId _ ev i hc] at h
      exact List.mem_append_left _ (ih h)

/-- C9: in every interleaving of calls of `withUserLock`, two different calls with
the same user id never have their actions in flight together, nor are both between
`userLocks.set` and `userLocks.delete`; and at the step in which the action of one
of them starts, the other one, if its action had started, has settled and its lock
entry is removed. -/
theorem withUserLock_one_action_per_user (userId : Nat → JSString) (evs : List Event)
    (ev : Event) (i j : Nat) (hij : i ≠ j) (hid : userId i = userId j) :
    ¬ (((runEvents userId evs).pc i).inFlight = true ∧
        ((runEvents userId evs).pc j).inFlight = true) ∧
      ¬ (((runEvents userId evs).pc i).holding = true ∧
        ((runEvents userId evs).pc j).holding = true) ∧
      (((runEvents userId evs).pc i).started = true →
        ((runEvents userId evs).pc j).started = false →
        ((step userId (runEvents userId evs) ev).pc j).started = true →
        (∃ o, (runEvents userId evs).pc i = Pc.settled o) ∧
          userId i ∉ (runEvents userId evs).userLocks) := by
  have hinv := runEvents_inv userId evs
  have hhold : ¬ (((runEvents userId evs).pc i).holding = true ∧
      ((runEvents userId evs).pc j).holding = true) :=
    fun h => hinv.2 i j hij hid h.1 h.2
  refine ⟨fun h => hhold ⟨?_, ?_⟩, hhold, fun hs h0 h1 => ?_⟩
  · cases hpc : (runEvents userId evs).pc i <;> simp [hpc, Pc.inFlight, Pc.holding] at h ⊢
  · cases hpc : (runEvents userId evs).pc j <;> simp [hpc, Pc.inFlight, Pc.holding] at h ⊢
  · have hfree : userId i ∉ (runEvents userId evs).userLocks :=
      hid ▸ start_needs_free_lock userId _ ev j h0 h1
    refine ⟨?_, hfree⟩
    cases hpc : (runEvents userId evs).pc i with
    | entry => simp [hpc, Pc.started] at hs
    | sleeping => simp [hpc, Pc.started] at hs
    | awaiting => exact absurd (hinv.1 i (by rw [hpc]; rfl)) hfree
    | resuming o => exact absurd (hinv.1 i (by rw [hpc]; rfl)) hfree
    | settled o => exact ⟨o, rfl⟩

/-- C9, at two calls of one user: call 0 runs and settles, call 1 found the lock
taken, slept, and starts its action afterwards. -/
theorem withUserLock_one_action_per_user_witness :
    (0 : Nat) ≠ 1 ∧
      ((runEvents (fun _ => lit "u1") [Event.run 0 none, Event.run 1 none,
        Event.settle 0 (Outcome.resolved 7), Event.run 0 none]).pc 1).started = false ∧
      ((step (fun _ => lit "u1") (runEvents (fun _ => lit "u1") [Event.run 0 none,
        Event.run 1 none, Event.settle 0 (Outcome.resolved 7), Event.run 0 none])
        (Event.run 1 none)).pc 1).started = true ∧
      ((∃ o, (runEvents (fun _ => lit "u1") [Event.run 0 none, Event.run 1 none,
        Event.settle 0 (Outcome.resolved 7), Event.run 0 none]).pc 0 = Pc.settled o) ∧
        lit "u1" ∉ (runEvents (fun _ => lit "u1") [Event.run 0 none, Event.run 1 none,
          Event.settle 0 (Outcome.resolved 7), Event.run 0 none]).userLocks) :=
  ⟨by decide, by decide, by decide,
    (withUserLock_one_action_per_user (fun _ => lit "u1") [Event.run 0 none,
      Event.run 1 none, Event.settle 0 (Outcome.resolved 7), Event.run 0 none]
      (Event.run 1 none) 0 1 (by decide) rfl).2.2 (by decide) (by decide) (by decide)⟩

/-- C10: at the step in which call number `i` of `withUserLock` settles with
outcome `o`, its user id is absent from `userLocks`, the entries of all other user
ids are as before the step, and `o` is the outcome of the action: the promise of
`fn()` had settled with `o`, or `fn` threw `reason` and `o` is the rejection with
`reason`.  No step of call `i` changes the entry of another user id. -/
theorem withUserLock_releases_and_forwards (userId : Nat → JSString) (evs : List Event)
    (ev : Event) (i : Nat) (o : Outcome)
    (hbefore : ∀ o2, (runEvents userId evs).pc i ≠ Pc.settled o2)
    (hafter : (step userId (runEvents userId evs) ev).pc i = Pc.settled o) :
    userId i ∉ (step userId (runEvents userId evs) ev).userLocks ∧
      (∀ k, k ≠ userId i → (k ∈ (step userId (runEvents userId evs) ev).userLocks ↔
        k ∈ (runEvents userId evs).userLocks)) ∧
      (((runEvents userId evs).pc i = Pc.resuming o ∧ Event.settle i o ∈ evs) ∨
        ∃ reason, ev = Event.run i (some reason) ∧ o = Outcome.rejected reason) ∧
      (∀ (s : LockState) (e : Event), e.call = i → ∀ k, k ≠ userId i →
        (k ∈ (step userId s e).userLocks ↔ k ∈ s.userLocks)) := by
  have hcall : i = ev.call := by
    by_contra hc
    rw [step_pc_other userId _ ev i hc] at hafter
    exact hbefore o hafter
  refine ⟨?_, fun k hk => step_other_keys userId _ ev k (hcall ▸ hk), ?_,
    fun s e he k hk => step_other_keys userId s e k (he ▸ hk)⟩
  · cases ev with
    | run k thr =>
      have hik : i = k := hcall
      subst hik
      cases hpc : (runEvents userId evs).pc i with
      | entry =>
        simp only [step, hpc, enter] at hafter ⊢
        split at hafter
        · simp at hafter
        · cases thr <;> simp at hafter
          rename_i hfree reason
          simp [hfree, mem_lockDelete]
      | sleeping =>
        simp only [step, hpc, enter] at hafter ⊢
        split at hafter
        · simp at hafter
        · cases thr <;> simp at hafter
          rename_i hfree reason
          simp [hfree, mem_lockDelete]
      | awaiting => simp [step, hpc] at hafter
      | resuming o2 => simp [step, hpc, mem_lockDelete]
      | settled o2 => exact absurd hpc (hbefore o2)
    | settle k o2 =>
      have hik : i = k := hcall
      subst hik
      cases hpc : (runEvents userId evs).pc i <;> simp [step, hpc] at hafter
      exact absurd hpc (hbefore _)
  · cases ev with
    | run k thr =>
      have hik : i = k := hcall
      subst hik
      cases hpc : (runEvents userId evs).pc i with
      | entry =>
        simp only [step, hpc, enter] at hafter
        split at hafter
        · simp at hafter
        · cases thr <;> simp at hafter
          exact Or.inr ⟨_, rfl, hafter.symm⟩
      | sleeping =>
        simp only [step, hpc, enter] at hafter
        split at hafter
        · simp at hafter
        · cases thr <;> simp at hafter
          exact Or.inr ⟨_, rfl, hafter.symm⟩
      | awaiting => simp [step, hpc] at hafter
      | resuming o2 =>
        simp [step, hpc] at hafter
        subst hafter
        exact Or.inl ⟨rfl, resuming_was_settled userId evs i o2 hpc⟩
      | settled o2 => exact absurd hpc (hbefore o2)
    | settle k o2 =>
      have hik : i = k := hcall
      subst hik
      cases hpc : (runEvents userId evs).pc i <;> simp [step, hpc] at hafter
      exact absurd hpc (hbefore _)

/-- C10, at a call whose action rejects: the call settles with the same rejection
and its lock entry is gone. -/
theorem withUserLock_releases_and_forwards_witness :
    (step (fun _ => lit "u1") (runEvents (fun _ => lit "u1") [Event.run 0 none,
        Event.settle 0 (Outcome.rejected 3)]) (Event.run 0 none)).pc 0 =
        Pc.settled (Outcome.rejected 3) ∧
      lit "u1" ∉ (step (fun _ => lit "u1") (runEvents (fun _ => lit "u1")
        [Event.run 0 none, Event.settle 0 (Outcome.rejected 3)]) (Event.run 0 none)).userLocks :=
  ⟨by decide,
    (withUserLock_releases_and_forwards (fun _ => lit "u1") [Event.run 0 none,
      Event.settle 0 (Outcome.rejected 3)] (Event.run 0 none) 0 (Outcome.rejected 3)
      (by
        intro o2 h
        have h2 : (runEvents (fun _ => lit "u1") [Event.run 0 none,
            Event.settle 0 (Outcome.rejected 3)]).pc 0 =
            Pc.resuming (Outcome.rejected 3) := by decide
        rw [h2] at h
        cases h)
      (by decide)).1⟩

/-! ## The results of `executeCode` -/

theorem stdout_handler_output (cfg : Config) (chunks : List JSString)
    (st : JSString × List Effect) :
    (chunks.foldl (onStdoutData cfg) st).1 = st.1 ++ chunks.flatten := by
  induction chunks generalizing st with
  | nil => simp
  | cons c cs ih =>
    rw [List.foldl_cons, ih]
    unfold onStdoutData
    split <;> simp

theorem executeCode_reachesClose (cfg : Config) (env : Env) (code language input : JSString)
    (h : reachesClose env language = true) :
    (executeCode cfg env code language input).1 =
      onClose cfg language
        (pathJoin SANDBOX_DIR (env.executionId ++ lit "." ++ getFileExtension language))
        env.stdoutChunks.flatten env.stderrChunks.flatten env.exitCode env.signal := by
  simp only [reachesClose, Bool.and_eq_true, Bool.or_eq_true, decide_eq_true_eq,
    Option.isNone_iff_eq_none, Bool.not_eq_true'] at h
  obtain ⟨⟨hw, hr⟩, hl⟩ := h
  have hout := stdout_handler_output cfg env.stdoutChunks ([], [])
  rw [List.nil_append] at hout
  unfold executeCode
  rcases hl with hpy | ⟨hc | hj, hf⟩
  · subst hpy
    simp only [if_neg lit_python_ne_java, if_neg lit_python_ne_cpp, if_true, hw, runStage,
      hr, hout]
  · subst hc
    have hcj : lit "cpp" ≠ lit "java" := by decide
    simp only [if_neg hcj, if_true, hw, hf, runStage, hr, hout, Bool.false_eq_true, if_false]
  · subst hj
    simp only [if_true, hw, hf, runStage, hr, hout, Bool.false_eq_true, if_false]

/-- The close handler resolves with no result exactly when the language is java, the
signal is not `SIGKILL` and the exit code is not 0: the case in which line 198
throws. -/
theorem onClose_eq_none (cfg : Config) (language filePath output error : JSString)
    (code : Option Int) (signal : Option JSString) :
    onClose cfg language filePath output error code signal = none ↔
      language = lit "java" ∧ signal ≠ some (lit "SIGKILL") ∧ code ≠ some 0 := by
  unfold onClose identifiersToStrip
  by_cases hs : signal = some (lit "SIGKILL")
  · simp [hs]
  · by_cases hc : code = some 0
    · simp [hs, hc]
    · rw [if_neg hs, if_neg hc]
      by_cases hp : language = lit "python"
      · rw [if_pos hp]
        have hpj : language ≠ lit "java" := by rw [hp]; decide
        exact ⟨fun h => (by cases h), fun h => absurd h.1 hpj⟩
      · rw [if_neg hp]
        by_cases hj : language = lit "java"
        · rw [if_pos hj]
          exact ⟨fun _ => ⟨hj, hs, hc⟩, fun _ => rfl⟩
        · rw [if_neg hj]
          exact ⟨fun h => (by cases h), fun h => absurd h.1 hj⟩

theorem onClose_cases (cfg : Config) (language filePath output error : JSString)
    (code : Option Int) (signal : Option JSString) (r : ExecResult)
    (h : onClose cfg language filePath output error code signal = some r) :
    r.verdict ∈ [lit "Executed", lit "Runtime Error", lit "Time Limit Exceeded"] ∧
      (r.success = true ↔ r.verdict = lit "Executed") := by
  unfold onClose at h
  split at h
  · cases h
    refine ⟨by simp [failure], ?_⟩
    simp only [failure]
    decide
  · split at h
    · cases h
      exact ⟨by simp, by simp⟩
    · split at h
      · cases h
      · cases h
        refine ⟨by simp [failure], ?_⟩
        simp only [failure]
        decide

theorem failure_wellFormed (kind error output : JSString) (hk : kind ∈ engineVerdicts)
    (hne : kind ≠ lit "Executed") : (failure kind error output).wellFormed := by
  refine ⟨hk, ?_⟩
  simp [failure, hne]

theorem onClose_wellFormed (cfg : Config) (language filePath output error : JSString)
    (code : Option Int) (signal : Option JSString) (r : ExecResult)
    (h : onClose cfg language filePath output error code signal = some r) :
    r.wellFormed := by
  have h := onClose_cases cfg language filePath output error code signal r h
  refine ⟨?_, h.2⟩
  have h1 := h.1
  simp only [List.mem_cons, List.mem_singleton, List.not_mem_nil, or_false] at h1
  rcases h1 with h1 | h1 | h1 <;> rw [h1] <;> decide

theorem catchBlock_wellFormed (filePath execPath : JSString) (err : JSError)
    (done : List Effect) (r : ExecResult) (h : (catchBlock filePath execPath err done).1 = some r) :
    r.wellFormed := by
  cases h
  exact failure_wellFormed _ _ _ (by decide) (by decide)

theorem runStage_wellFormed (cfg : Config) (env : Env)
    (language input filePath execPath runCmd : JSString) (cleanupList : List JSString)
    (done : List Effect) (r : ExecResult)
    (h : (runStage cfg env language input filePath execPath runCmd cleanupList done).1 =
      some r) :
    r.wellFormed := by
  unfold runStage at h
  cases hr : env.runError with
  | some err =>
    simp only [hr] at h
    exact catchBlock_wellFormed _ _ _ _ r h
  | none =>
    simp only [hr] at h
    exact onClose_wellFormed _ _ _ _ _ _ _ r h

theorem executeCode_wellFormed (cfg : Config) (env : Env) (code language input : JSString)
    (r : ExecResult) (h : (executeCode cfg env code language input).1 = some r) :
    r.wellFormed := by
  unfold executeCode at h
  by_cases hj : language = lit "java"
  · simp only [if_pos hj] at h
    cases hw : env.writeError with
    | some err =>
      simp only [hw] at h
      exact catchBlock_wellFormed _ _ _ _ r h
    | none =>
      simp only [hw] at h
      by_cases hf : env.compile.failed = true
      · simp only [if_pos hf] at h
        cases h
        exact failure_wellFormed _ _ _ (by decide) (by decide)
      · simp only [if_neg hf] at h
        exact runStage_wellFormed _ _ _ _ _ _ _ _ _ r h
  · simp only [if_neg hj] at h
    cases hw : env.writeError with
    | some err =>
      simp only [hw] at h
      exact catchBlock_wellFormed _ _ _ _ r h
    | none =>
      simp only [hw] at h
      by_cases hc : language = lit "cpp"
      · simp only [if_pos hc] at h
        by_cases hf : env.compile.failed = true
        · simp only [if_pos hf] at h
          cases h
          exact failure_wellFormed _ _ _ (by decide) (by decide)
        · simp only [if_neg hf] at h
          exact runStage_wellFormed _ _ _ _ _ _ _ _ _ r h
      · simp only [if_neg hc] at h
        by_cases hp : language = lit "python"
        · simp only [if_pos hp] at h
          exact runStage_wellFormed _ _ _ _ _ _ _ _ _ r h
        · simp only [if_neg hp] at h
          cases h
          exact failure_wellFormed _ _ _ (by decide) (by decide)

/-- The promise of `executeCode` is never settled exactly when a java execution
reaches the close handler with an exit code other than 0 and a signal other than
`SIGKILL`; in every other case `executeCode` returns a result. -/
theorem executeCode_eq_none (cfg : Config) (env : Env) (code language input : JSString) :
    (executeCode cfg env code language input).1 = none ↔
      language = lit "java" ∧ reachesClose env language = true ∧
        env.signal ≠ some (lit "SIGKILL") ∧ env.exitCode ≠ some 0 := by
  by_cases hrun : reachesClose env language = true
  · rw [executeCode_reachesClose cfg env code language input hrun, onClose_eq_none]
    tauto
  · constructor
    · intro h
      exfalso
      apply hrun
      unfold executeCode at h
      simp only [reachesClose, Bool.and_eq_true, Bool.or_eq_true, decide_eq_true_eq,
        Option.isNone_iff_eq_none, Bool.not_eq_true']
      by_cases hj : language = lit "java"
      · simp only [if_pos hj] at h
        cases hw : env.writeError with
        | some err => simp [hw, catchBlock] at h
        | none =>
          simp only [hw] at h
          by_cases hf : env.compile.failed = true
          · simp [hf] at h
          · simp only [if_neg hf, runStage] at h
            cases hr : env.runError with
            | some err => simp [hr, catchBlock] at h
            | none => exact ⟨⟨rfl, rfl⟩, Or.inr ⟨Or.inr hj, by simpa using hf⟩⟩
      · simp only [if_neg hj] at h
        cases hw : env.writeError with
        | some err => simp [hw, catchBlock] at h
        | none =>
          simp only [hw] at h
          by_cases hc : language = lit "cpp"
          · simp only [if_pos hc] at h
            by_cases hf : env.compile.failed = true
            · simp [hf] at h
            · simp only [if_neg hf, runStage] at h
              cases hr : env.runError with
              | some err => simp [hr, catchBlock] at h
              | none => exact ⟨⟨rfl, rfl⟩, Or.inr ⟨Or.inl hc, by simpa using hf⟩⟩
          · simp only [if_neg hc] at h
            by_cases hp : language = lit "python"
            · simp only [if_pos hp, runStage] at h
              cases hr : env.runError with
              | some err => simp [hr, catchBlock] at h
              | none => exact ⟨⟨rfl, rfl⟩, Or.inl hp⟩
            · simp [hp] at h
    · intro h
      exact absurd h.2.1 hrun

/-- C20: whatever the code, the language, the stdin and the behaviour of file
system, toolchain and child process, the verdict of every result `executeCode`
returns is one of `Executed`, `Compilation Error`, `Runtime Error`,
`Time Limit Exceeded`, `Bad Request`, `Internal Error`, and `success` is true exactly
when the verdict is `Executed`.  Among the behaviours of `Env` a result is returned
in every case but one: a java execution whose child closes with an exit code other
than 0 and a signal other than `SIGKILL`, where the close handler throws and the
promise is never settled. -/
theorem executeCode_verdict_closed (cfg : Config) (env : Env)
    (code language input : JSString) :
    (∀ r, (executeCode cfg env code language input).1 = some r →
        r.verdict ∈
          [lit "Executed", lit "Compilation Error", lit "Runtime Error",
           lit "Time Limit Exceeded", lit "Bad Request", lit "Internal Error"] ∧
        (r.success = true ↔ r.verdict = lit "Executed")) ∧
      ((∃ r, (executeCode cfg env code language input).1 = some r) ↔
        ¬ (language = lit "java" ∧ reachesClose env language = true ∧
          env.signal ≠ some (lit "SIGKILL") ∧ env.exitCode ≠ some 0)) := by
  refine ⟨fun r h => executeCode_wellFormed cfg env code language input r h, ?_⟩
  rw [← executeCode_eq_none cfg env code language input]
  cases (executeCode cfg env code language input).1 <;> simp

/-- C20, at a python program that exits with 0 and at a cpp program that the compiler
rejects: both return a result, and its verdict is in the list. -/
theorem executeCode_verdict_closed_witness :
    (executeCode defaultConfig (quietEnv sampleId) (lit "print(1)") (lit "python") []).1 =
        some { success := true, verdict := lit "Executed", type := none, error := none,
               output := [], memoryUsed := 0 } ∧
      lit "Executed" ∈
        [lit "Executed", lit "Compilation Error", lit "Runtime Error",
         lit "Time Limit Exceeded", lit "Bad Request", lit "Internal Error"] ∧
      (failure (lit "Compilation Error") compileTimeoutEnv.compile.message []).verdict ∈
        [lit "Executed", lit "Compilation Error", lit "Runtime Error",
         lit "Time Limit Exceeded", lit "Bad Request", lit "Internal Error"] :=
  ⟨by decide,
    ((executeCode_verdict_closed defaultConfig (quietEnv sampleId) (lit "print(1)")
      (lit "python") []).1
      { success := true, verdict := lit "Executed", type := none, error := none,
        output := [], memoryUsed := 0 } (by decide)).1,
    ((executeCode_verdict_closed defaultConfig compileTimeoutEnv (lit "int main(){}")
      (lit "cpp") []).1 (failure (lit "Compilation Error") compileTimeoutEnv.compile.message [])
      (by decide)).1⟩

/-! ## The close handler -/

theorem slice0_of_nonneg (s : JSString) (e : Int) (h : 0 ≤ e) : slice0 s e = s.take e.toNat := by
  unfold slice0
  rw [if_neg (by omega)]

theorem replaceAllAux_no_match (matchAt : JSString → Option Nat) (repl text : JSString)
    (h : ∀ t, t <:+ text → matchAt t = none) : replaceAllAux matchAt repl 0 text = text := by
  induction text with
  | nil => simp [replaceAllAux, h [] (List.suffix_refl _)]
  | cons c t ih =>
    have hc := h (c :: t) (List.suffix_refl _)
    have ht := ih (fun t2 h2 => h t2 (h2.trans (List.suffix_cons c t)))
    simp only [replaceAllAux, hc, ht]

theorem matchLiteral_none_of_mem (pat t : JSString) (u : Nat) (hu : u ∈ pat) (hn : u ∉ t) :
    matchLiteral pat t = none := by
  unfold matchLiteral
  split
  · rename_i hp
    exact absurd ((List.isPrefixOf_iff_prefix.1 hp).subset hu) hn
  · rfl

theorem sanitizeError_foreign_identifier (text pat : JSString) (u : Nat) (hu : u ∈ pat)
    (hn : u ∉ text) : sanitizeError text [pat] = text := by
  unfold sanitizeError
  split
  · rename_i h; exact h.symm
  · simp only [List.foldl_cons, List.foldl_nil, replaceAll]
    refine replaceAllAux_no_match _ _ _ (fun t ht => ?_)
    exact matchLiteral_none_of_mem pat t u hu (fun hm => hn (ht.subset hm))

theorem sanitize_fixed_text (language filePath : JSString) (identifiers : List JSString)
    (hp : filePath = pathJoin SANDBOX_DIR (filePath.drop 9))
    (hi : identifiersToStrip language filePath = some identifiers) :
    sanitizeError (lit "Runtime error or non-zero exit code") identifiers =
      lit "Runtime error or non-zero exit code" := by
  unfold identifiersToStrip at hi
  split at hi
  · cases hi
    refine sanitizeError_foreign_identifier _ _ 47 ?_ (by decide)
    rw [hp]
    simp [pathJoin, SANDBOX_DIR, lit]
  · split at hi
    · cases hi
    · cases hi
      decide

/-- C16: when the child closes with exit code 0 and the signal is not `SIGKILL`,
`executeCode` resolves, the result has success true and verdict `Executed`, and its
output is the first `MAX_OUTPUT_SIZE` code units of the accumulated stdout: all of it
when it is not longer than the cap.  (`MAX_OUTPUT_SIZE` is taken non-negative, as a
size is.) -/
theorem clean_exit_is_executed (cfg : Config) (env : Env) (code language input : JSString)
    (hcap : 0 ≤ cfg.maxOutputSize) (hrun : reachesClose env language = true)
    (hcode : env.exitCode = some 0) (hsig : env.signal ≠ some (lit "SIGKILL")) :
    (executeCode cfg env code language input).1 =
        some { success := true, verdict := lit "Executed", type := none, error := none,
               output := env.stdoutChunks.flatten.take (MAX_OUTPUT_SIZE cfg).toNat,
               memoryUsed := 0 } ∧
      ((env.stdoutChunks.flatten.length : Int) ≤ MAX_OUTPUT_SIZE cfg →
        (executeCode cfg env code language input).1.map ExecResult.output =
          some env.stdoutChunks.flatten) := by
  have hmax : 0 ≤ MAX_OUTPUT_SIZE cfg := by unfold MAX_OUTPUT_SIZE; omega
  have hres : (executeCode cfg env code language input).1 =
      some { success := true, verdict := lit "Executed", type := none, error := none,
             output := env.stdoutChunks.flatten.take (MAX_OUTPUT_SIZE cfg).toNat,
             memoryUsed := 0 } := by
    rw [executeCode_reachesClose cfg env code language input hrun]
    unfold onClose
    rw [if_neg hsig, if_pos hcode, slice0_of_nonneg _ _ hmax]
  refine ⟨hres, fun hlen => ?_⟩
  rw [hres]
  simp only [Option.map]
  rw [List.take_of_length_le (by omega)]

/-- C16, at a python program that prints `hello` in two chunks and exits with 0. -/
theorem clean_exit_is_executed_witness :
    (executeCode defaultConfig { quietEnv sampleId with stdoutChunks := [lit "hel", lit "lo\n"] }
        (lit "print(chr(104) + chr(101) + chr(108) * 2 + chr(111))") (lit "python") []).1 =
      some { success := true, verdict := lit "Executed", type := none, error := none,
             output := lit "hello\n", memoryUsed := 0 } :=
  (clean_exit_is_executed defaultConfig
    { quietEnv sampleId with stdoutChunks := [lit "hel", lit "lo\n"] }
    (lit "print(chr(104) + chr(101) + chr(108) * 2 + chr(111))") (lit "python") []
    (by decide) (by decide) (by decide) (by decide)).1

/-- Outside java: when the child closes with an exit code other than 0 and the signal
is not `SIGKILL`, `executeCode` resolves, the result has success false and verdict
`Runtime Error`, its output is the accumulated stdout cut to the cap, and its error
is `sanitizeError` of the captured stderr (with the source path as identifier for
python, with no identifier otherwise), or the text
`Runtime error or non-zero exit code` when stderr is empty.  (`MAX_OUTPUT_SIZE` is
taken non-negative.) -/
theorem nonzero_exit_is_runtime_error (cfg : Config) (env : Env)
    (code language input : JSString)
    (hcap : 0 ≤ cfg.maxOutputSize) (hrun : reachesClose env language = true)
    (hl : language ≠ lit "java")
    (hcode : env.exitCode ≠ some 0) (hsig : env.signal ≠ some (lit "SIGKILL")) :
    ∃ r, (executeCode cfg env code language input).1 = some r ∧
      r.success = false ∧ r.verdict = lit "Runtime Error" ∧
      r.type = some (lit "Runtime Error") ∧
      r.output = env.stdoutChunks.flatten.take (MAX_OUTPUT_SIZE cfg).toNat ∧
      (env.stderrChunks.flatten ≠ [] →
        r.error = some (sanitizeError env.stderrChunks.flatten
          (if language = lit "python" then
            [pathJoin SANDBOX_DIR (env.executionId ++ lit "." ++ getFileExtension language)]
          else []))) ∧
      (env.stderrChunks.flatten = [] →
        r.error = some (lit "Runtime error or non-zero exit code")) := by
  have hmax : 0 ≤ MAX_OUTPUT_SIZE cfg := by unfold MAX_OUTPUT_SIZE; omega
  have hids : identifiersToStrip language
      (pathJoin SANDBOX_DIR (env.executionId ++ lit "." ++ getFileExtension language)) =
      some (if language = lit "python" then
        [pathJoin SANDBOX_DIR (env.executionId ++ lit "." ++ getFileExtension language)]
      else []) := by
    unfold identifiersToStrip
    by_cases hp : language = lit "python"
    · simp only [if_pos hp]
    · simp only [if_neg hp, if_neg hl]
  rw [executeCode_reachesClose cfg env code language input hrun]
  unfold onClose
  rw [if_neg hsig, if_neg hcode, slice0_of_nonneg _ _ hmax, hids]
  refine ⟨_, rfl, rfl, rfl, rfl, rfl, fun hne => ?_, fun he => ?_⟩
  · simp only [failure, jsOr, if_neg hne]
  · simp only [failure, jsOr, he, if_true]
    rw [sanitize_fixed_text language _ _ ?_ hids]
    simp [pathJoin, SANDBOX_DIR, lit]

/-- The theorem `nonzero_exit_is_runtime_error` at a cpp program that writes one line
to stderr and exits with 1. -/
theorem nonzero_exit_is_runtime_error_witness :
    reachesClose argvLeakEnv (lit "cpp") = true ∧ argvLeakEnv.exitCode ≠ some 0 ∧
      ∃ r, (executeCode defaultConfig argvLeakEnv (lit "int main(){}") (lit "cpp") []).1 =
          some r ∧ r.success = false ∧ r.verdict = lit "Runtime Error" := by
  obtain ⟨r, h1, h2, h3, _⟩ := nonzero_exit_is_runtime_error defaultConfig argvLeakEnv
    (lit "int main(){}") (lit "cpp") [] (by decide) (by decide) (by decide) (by decide)
    (by decide)
  exact ⟨by decide, by decide, r, h1, h2, h3⟩

/-- With java, a child that closes with an exit code other than 0 and a signal other
than `SIGKILL` gets no result: the close handler throws at line 198 and the promise
of `executeCode` is never settled, whatever the source, the stdout and the stderr
are. -/
theorem java_nonzero_exit_is_pending (cfg : Config) (env : Env) (code input : JSString)
    (hrun : reachesClose env (lit "java") = true)
    (hcode : env.exitCode ≠ some 0) (hsig : env.signal ≠ some (lit "SIGKILL")) :
    (executeCode cfg env code (lit "java") input).1 = none :=
  (executeCode_eq_none cfg env code (lit "java") input).2 ⟨rfl, hrun, hsig, hcode⟩

/-- C17 (defect of the code): for java the close handler does not reach `resolve` on
a non-zero exit.  In the handler the name `code` is the exit code, and line 198
calls `code.match(...)` on it, which throws a `TypeError`.  A Java program that exits
with code 3 gets no result at all: the promise of `executeCode` is never settled and
the request handler sends no response.  The same close event under python gets the
Runtime Error result of the claim. -/
theorem java_nonzero_exit_never_resolves :
    reachesClose exitThreeEnv (lit "java") = true ∧
      (exitThreeEnv.exitCode, exitThreeEnv.signal) = (some 3, none) ∧
      (executeCode defaultConfig exitThreeEnv exitSource (lit "java") []).1 = none ∧
      (postHandler defaultConfig exitThreeEnv
        { code := some exitSource, language := some (lit "java"), input := none }).1 = none ∧
      (executeCode defaultConfig exitThreeEnv (lit "import sys; sys.exit(3)") (lit "python")
          []).1 =
        some (failure (lit "Runtime Error") (lit "Runtime error or non-zero exit code")
          []) := by
  decide

/-! ## Compile failure, exceptions, unsupported languages -/

theorem compileDiagnostic_eq (o : ExecOutcome) :
    jsOr (jsOr o.stderr o.stdout) o.message = compileDiagnostic o := by
  unfold compileDiagnostic jsOr
  by_cases h1 : o.stderr = []
  · by_cases h2 : o.stdout = [] <;> simp [h1, h2]
  · simp [h1]

/-- C18 (as stated, refuted): for java the diagnostic of the Compilation Error result
is not the stderr of the compiler: `sanitizeError` has removed the path of the
source file from it. -/
theorem java_diagnostic_is_sanitized :
    (executeCode defaultConfig javacErrorEnv (lit "int x;") (lit "java") []).1.map
        ExecResult.verdict = some (lit "Compilation Error") ∧
      javacErrorEnv.compile.stderr =
        lit "/sandbox/Main.java:1: error: class, interface, or enum expected\n" ∧
      (executeCode defaultConfig javacErrorEnv (lit "int x;") (lit "java") []).1.bind
        ExecResult.error = some (lit ":1: error: class, interface, or enum expected\n") ∧
      (executeCode defaultConfig javacErrorEnv (lit "int x;") (lit "java") []).1.bind
        ExecResult.error ≠ some (compileDiagnostic javacErrorEnv.compile) := by
  decide

/-- C18 (amended): for cpp and java, when the compile command reports failure, the
result has success false, verdict `Compilation Error` and output `''`, and no run
command is spawned.  For cpp the diagnostic is the stderr of the compiler if it is
not empty, else its stdout if that is not empty, else the message of the error; for
java it is `sanitizeError` of that text with the path of the source file. -/
theorem compile_failure_short_circuits (cfg : Config) (env : Env)
    (code language input : JSString)
    (hl : language = lit "cpp" ∨ language = lit "java") (hw : env.writeError = none)
    (hf : env.compile.failed = true) :
    ∃ r, (executeCode cfg env code language input).1 = some r ∧
      r.success = false ∧ r.verdict = lit "Compilation Error" ∧ r.output = [] ∧
      (∀ e ∈ (executeCode cfg env code language input).2, e.isSpawn = false) ∧
      (language = lit "cpp" → r.error = some (compileDiagnostic env.compile)) ∧
      (language = lit "java" → r.error =
        some (sanitizeError (compileDiagnostic env.compile)
          [pathJoin SANDBOX_DIR (javaClassName code ++ lit ".java")])) := by
  have hcj : lit "cpp" ≠ lit "java" := by decide
  rcases hl with hc | hj
  · subst hc
    simp only [executeCode, if_neg hcj, if_true, hw, hf, compileDiagnostic_eq]
    refine ⟨_, rfl, rfl, rfl, rfl, ?_, fun _ => rfl, fun h => absurd h hcj⟩
    intro e he
    simp at he
    rcases he with he | he | he <;> subst he <;> rfl
  · subst hj
    simp only [executeCode, if_true, hw, hf, compileDiagnostic_eq]
    refine ⟨_, rfl, rfl, rfl, rfl, ?_, fun h => absurd h.symm hcj, fun _ => rfl⟩
    intro e he
    simp at he
    rcases he with he | he | he <;> subst he <;> rfl

/-- C18 (amended), at a cpp compile that timed out and a java compile that failed. -/
theorem compile_failure_short_circuits_witness :
    compileTimeoutEnv.compile.failed = true ∧
      (∃ r, (executeCode defaultConfig compileTimeoutEnv (lit "int main(){}") (lit "cpp")
        []).1 = some r ∧ r.verdict = lit "Compilation Error") ∧
      (∀ e ∈ (executeCode defaultConfig javacErrorEnv (lit "int x;") (lit "java") []).2,
        e.isSpawn = false) := by
  obtain ⟨r1, h1, _, h2, _⟩ := compile_failure_short_circuits defaultConfig compileTimeoutEnv
    (lit "int main(){}") (lit "cpp") [] (Or.inl rfl) (by decide) (by decide)
  obtain ⟨r2, _, _, _, _, h3, _⟩ := compile_failure_short_circuits defaultConfig javacErrorEnv
    (lit "int x;") (lit "java") [] (Or.inr rfl) (by decide) (by decide)
  exact ⟨by decide, ⟨r1, h1, h2⟩, h3⟩

set_option maxRecDepth 20000 in
/-- C13 (defect of the code): the `catch` block puts the message of the exception
into the error text, where `server.js` answers an exception of its own with a fixed
text.  Two failing writes give two different texts, and when the sandbox directory
is read-only the text carries the path of the source file, execution id included;
the handler of `server.js` forwards it to the caller as it is. -/
theorem internal_error_leaks_exception_message :
    (executeCode defaultConfig diskFullEnv (lit "print(1)") (lit "python") []).1 =
        some (failure (lit "Internal Error")
          (lit "An internal error occurred: ENOSPC: no space left on device, write") []) ∧
      (executeCode defaultConfig readOnlyEnv (lit "print(1)") (lit "python") []).1 =
        some (failure (lit "Internal Error")
          (lit "An internal error occurred: EACCES: permission denied, open " ++ [39] ++
            lit "/sandbox/3f2b8c1e-9a4d-4e7b-8c21-5d6f7a8b9c0d.py" ++ [39]) []) ∧
      (executeCode defaultConfig diskFullEnv (lit "print(1)") (lit "python") []).1 ≠
        (executeCode defaultConfig readOnlyEnv (lit "print(1)") (lit "python") []).1 ∧
      (postHandler defaultConfig readOnlyEnv
          { code := some (lit "print(1)"), language := some (lit "python"),
            input := none }).1.bind Response.error =
        some (lit "An internal error occurred: EACCES: permission denied, open " ++ [39] ++
          lit "/sandbox/3f2b8c1e-9a4d-4e7b-8c21-5d6f7a8b9c0d.py" ++ [39]) ∧
      pathJoin SANDBOX_DIR (sampleId ++ lit ".py") <:+:
        (lit "An internal error occurred: EACCES: permission denied, open " ++ [39] ++
          lit "/sandbox/3f2b8c1e-9a4d-4e7b-8c21-5d6f7a8b9c0d.py" ++ [39]) ∧
      sampleId <:+:
        (lit "An internal error occurred: EACCES: permission denied, open " ++ [39] ++
          lit "/sandbox/3f2b8c1e-9a4d-4e7b-8c21-5d6f7a8b9c0d.py" ++ [39]) := by
  decide

/-- For every exception raised inside the `try` block, `executeCode` returns a result
(it does not throw) with success false, verdict `Internal Error`, output `''`, and
the error text `An internal error occurred: ` followed by the message of the
exception, or by its string form when the message is empty. -/
theorem exception_becomes_internal_error (cfg : Config) (env : Env)
    (code language input : JSString) (err : JSError)
    (h : raisedError env language = some err) :
    (executeCode cfg env code language input).1 =
      some { success := false, verdict := lit "Internal Error",
             type := some (lit "Internal Error"),
             error := some (lit "An internal error occurred: " ++
               (if err.message = [] then err.asString else err.message)),
             output := [], memoryUsed := 0 } := by
  have hcj : lit "cpp" ≠ lit "java" := by decide
  unfold raisedError at h
  cases hw : env.writeError with
  | some e =>
    rw [hw] at h
    simp only [Option.some.injEq] at h
    subst h
    unfold executeCode
    split <;> simp only [hw, catchBlock, failure, jsOr]
  | none =>
    rw [hw] at h
    simp only at h
    split at h
    · rename_i hreach
      rcases hreach with hpy | ⟨hc | hj, hf⟩
      · subst hpy
        simp only [executeCode, if_neg lit_python_ne_java, if_neg lit_python_ne_cpp, if_true,
          hw, runStage, h, catchBlock, failure, jsOr]
      · subst hc
        simp only [executeCode, if_neg hcj, if_true, hw, hf, runStage, h, catchBlock,
          failure, jsOr, Bool.false_eq_true, if_false]
      · subst hj
        simp only [executeCode, if_true, hw, hf, runStage, h, catchBlock, failure, jsOr,
          Bool.false_eq_true, if_false]
    · exact absurd h (by simp)

/-- The theorem `exception_becomes_internal_error` at a write that fails because the
disk is full. -/
theorem exception_becomes_internal_error_witness :
    raisedError diskFullEnv (lit "python") = diskFullEnv.writeError ∧
      (executeCode defaultConfig diskFullEnv (lit "print(1)") (lit "python") []).1 =
        some { success := false, verdict := lit "Internal Error",
               type := some (lit "Internal Error"),
               error := some (lit "An internal error occurred: ENOSPC: no space left on device, write"),
               output := [], memoryUsed := 0 } :=
  ⟨by decide,
    exception_becomes_internal_error defaultConfig diskFullEnv (lit "print(1)") (lit "python")
      [] { message := lit "ENOSPC: no space left on device, write",
           asString := lit "Error: ENOSPC: no space left on device, write" } (by decide)⟩

theorem cleanupFilesFrom_spec (unlinkFails : Nat → Bool) (files : List JSString) :
    ∀ (start : Nat) (disk : FileSystem),
      ∃ disk2, cleanupFilesFrom unlinkFails start files disk = Except.ok disk2 ∧
        (∀ j p, files[j]? = some p → unlinkFails (start + j) = false → p ∉ disk2) ∧
        (∀ p, p ∉ files → (p ∈ disk2 ↔ p ∈ disk)) ∧
        (∀ p, p ∈ disk2 → p ∈ disk) := by
  induction files with
  | nil =>
    intro start disk
    exact ⟨disk, rfl, by simp, by simp, fun _ h => h⟩
  | cons file rest ih =>
    intro start disk
    have key : ∀ disk1 : FileSystem, (∀ p, p ∈ disk1 → p ∈ disk) →
        (∀ p, p ≠ file → (p ∈ disk1 ↔ p ∈ disk)) →
        (unlinkFails start = false → file ∉ disk1) →
        ∃ disk2, cleanupFilesFrom unlinkFails (start + 1) rest disk1 = Except.ok disk2 ∧
          (∀ j p, (file :: rest)[j]? = some p → unlinkFails (start + j) = false →
            p ∉ disk2) ∧
          (∀ p, p ∉ file :: rest → (p ∈ disk2 ↔ p ∈ disk)) ∧
          (∀ p, p ∈ disk2 → p ∈ disk) := by
      intro disk1 hsub hother hgone
      obtain ⟨disk2, hrun, hdel, hkeep, hsub2⟩ := ih (start + 1) disk1
      refine ⟨disk2, hrun, ?_, ?_, fun p hp => hsub p (hsub2 p hp)⟩
      · intro j p hj hok hp
        cases j with
        | zero =>
          simp only [List.getElem?_cons_zero, Option.some.injEq] at hj
          subst hj
          exact hgone hok (hsub2 _ hp)
        | succ j =>
          simp only [List.getElem?_cons_succ] at hj
          exact hdel j p hj (by rw [Nat.add_assoc, Nat.add_comm 1 j]; exact hok) hp
      · intro p hp
        simp only [List.mem_cons, not_or] at hp
        rw [hkeep p hp.2, hother p hp.1]
    unfold cleanupFilesFrom
    by_cases hex : file ∈ disk
    · by_cases hfail : unlinkFails start = true
      · simp only [if_pos hex, unlinkSync, hfail, if_true]
        exact key disk (fun _ h => h) (fun _ _ => Iff.rfl) (fun h => by simp [hfail] at h)
      · simp only [if_pos hex, unlinkSync, hfail, Bool.false_eq_true, if_false]
        refine key _ (fun p hp => (List.mem_filter.1 hp).1) (fun p hp => ?_) (fun _ => ?_)
        · simp [List.mem_filter, hp]
        · simp [List.mem_filter]
    · simp only [if_neg hex]
      exact key disk (fun _ h => h) (fun _ _ => Iff.rfl) (fun _ => hex)

/-- C19: for every list of paths, every disk and every pattern of deletion failures,
`cleanupFiles` returns without raising; every listed file whose deletion does not
fail is gone afterwards, whatever happened to the files listed before it; a file
that is not listed is on the disk afterwards exactly if it was before; and no file
appears. -/
theorem cleanupFiles_swallows_failures (unlinkFails : Nat → Bool) (files : List JSString)
    (disk : FileSystem) :
    ∃ disk2, cleanupFiles unlinkFails files disk = Except.ok disk2 ∧
      (∀ i p, files[i]? = some p → unlinkFails i = false → p ∉ disk2) ∧
      (∀ p, p ∉ files → (p ∈ disk2 ↔ p ∈ disk)) ∧
      (∀ p, p ∈ disk2 → p ∈ disk) := by
  obtain ⟨disk2, hrun, hdel, hkeep, hsub⟩ := cleanupFilesFrom_spec unlinkFails files 0 disk
  exact ⟨disk2, hrun, fun i p hi hok => hdel i p hi (by rw [Nat.zero_add]; exact hok),
    hkeep, hsub⟩

/-- C14: for every language other than `python`, `cpp` and `java` and every source
code, once the source file is written, `executeCode` returns success false, verdict
`Bad Request`, error `Unsupported language: ` followed by the language, and output
`''`; its only effects are the write of the source file and the call of
`cleanupFiles` on the source and executable paths, so it starts no compiler and no
child process; and when no deletion fails, the disk afterwards holds no file that
was not there before, and not the source file. -/
theorem unsupported_language_is_bad_request (cfg : Config) (env : Env)
    (code language input : JSString)
    (hpy : language ≠ lit "python") (hcpp : language ≠ lit "cpp")
    (hjava : language ≠ lit "java") (hw : env.writeError = none) :
    (executeCode cfg env code language input).1 =
        some { success := false, verdict := lit "Bad Request",
               type := some (lit "Bad Request"),
               error := some (lit "Unsupported language: " ++ language), output := [],
               memoryUsed := 0 } ∧
      (executeCode cfg env code language input).2 =
        [Effect.writeFile (pathJoin SANDBOX_DIR (env.executionId ++ lit ".txt")) code,
         Effect.cleanupFiles [pathJoin SANDBOX_DIR (env.executionId ++ lit ".txt"),
           pathJoin SANDBOX_DIR (env.executionId ++ lit ".out")]] ∧
      (∀ e ∈ (executeCode cfg env code language input).2,
        e.isExec = false ∧ e.isSpawn = false) ∧
      (∀ (disk : FileSystem) (p : JSString),
        p ∈ diskAfterAll (fun _ => false) disk (executeCode cfg env code language input).2 →
          p ∈ disk ∧ p ≠ pathJoin SANDBOX_DIR (env.executionId ++ lit ".txt")) := by
  have hext : getFileExtension language = lit "txt" := by
    simp [getFileExtension, hpy, hcpp, hjava]
  have htxt : ∀ a : JSString, a ++ lit "." ++ lit "txt" = a ++ lit ".txt" := by
    intro a
    rw [List.append_assoc]
    rfl
  have heff : (executeCode cfg env code language input).2 =
      [Effect.writeFile (pathJoin SANDBOX_DIR (env.executionId ++ lit ".txt")) code,
       Effect.cleanupFiles [pathJoin SANDBOX_DIR (env.executionId ++ lit ".txt"),
         pathJoin SANDBOX_DIR (env.executionId ++ lit ".out")]] := by
    simp only [executeCode, if_neg hjava, if_neg hcpp, if_neg hpy, hw, hext, htxt,
      List.singleton_append]
  refine ⟨?_, heff, ?_, ?_⟩
  · simp only [executeCode, if_neg hjava, if_neg hcpp, if_neg hpy, hw, failure]
  · rw [heff]
    intro e he
    simp only [List.mem_cons, List.mem_singleton, List.not_mem_nil, or_false] at he
    rcases he with he | he <;> subst he <;> exact ⟨rfl, rfl⟩
  · rw [heff]
    intro disk p hp
    simp only [diskAfterAll, List.foldl_cons, List.foldl_nil] at hp
    generalize hd1 : diskAfter (fun _ => false) disk
      (Effect.writeFile (pathJoin SANDBOX_DIR (env.executionId ++ lit ".txt")) code) = disk1 at hp
    obtain ⟨disk2, hrun, hdel, hkeep, hsub⟩ := cleanupFiles_swallows_failures (fun _ => false)
      [pathJoin SANDBOX_DIR (env.executionId ++ lit ".txt"),
        pathJoin SANDBOX_DIR (env.executionId ++ lit ".out")] disk1
    simp only [diskAfter, hrun] at hp
    have hne : p ≠ pathJoin SANDBOX_DIR (env.executionId ++ lit ".txt") := by
      intro he
      subst he
      exact hdel 0 _ rfl rfl hp
    refine ⟨?_, hne⟩
    have hp1 : p ∈ disk1 := hsub p hp
    rw [← hd1] at hp1
    simp only [diskAfter] at hp1
    split at hp1
    · exact hp1
    · rcases List.mem_append.1 hp1 with h | h
      · exact h
      · exact absurd (List.mem_singleton.1 h) hne

/-- C14, at the language `ruby`. -/
theorem unsupported_language_is_bad_request_witness :
    (executeCode defaultConfig (quietEnv sampleId) (lit "puts 1") (lit "ruby") []).1 =
        some { success := false, verdict := lit "Bad Request",
               type := some (lit "Bad Request"),
               error := some (lit "Unsupported language: ruby"), output := [],
               memoryUsed := 0 } ∧
      diskAfterAll (fun _ => false) [lit "/sandbox/Main.java"]
        (executeCode defaultConfig (quietEnv sampleId) (lit "puts 1") (lit "ruby") []).2 =
        [lit "/sandbox/Main.java"] :=
  ⟨(unsupported_language_is_bad_request defaultConfig (quietEnv sampleId) (lit "puts 1")
      (lit "ruby") [] (by decide) (by decide) (by decide) (by decide)).1,
    by decide⟩

/-! ## The entry class of a Java source -/

theorem dropLiteral_eq_some (pat t r : JSString) :
    dropLiteral pat t = some r ↔ t = pat ++ r := by
  unfold dropLiteral
  constructor
  · intro h
    split at h
    · rename_i hp
      obtain ⟨r2, hr2⟩ := List.isPrefixOf_iff_prefix.1 hp
      simp only [Option.some.injEq] at h
      rw [← h, ← hr2, List.drop_left]
    · exact absurd h (by simp)
  · intro h
    subst h
    have hp : pat.isPrefixOf (pat ++ r) = true :=
      List.isPrefixOf_iff_prefix.2 (List.prefix_append pat r)
    rw [if_pos hp, List.drop_left]

theorem takeWhile_of_head (p : Nat → Bool) (run rest : JSString)
    (hrun : ∀ u ∈ run, p u = true) (hrest : ∀ u, rest.head? = some u → p u = false) :
    (run ++ rest).takeWhile p = run ∧ (run ++ rest).dropWhile p = rest := by
  have h1 : rest.takeWhile p = [] ∧ rest.dropWhile p = rest := by
    cases rest with
    | nil => simp
    | cons c t =>
      have hc := hrest c rfl
      simp [List.takeWhile_cons, List.dropWhile_cons, hc]
  rw [List.takeWhile_append_of_pos hrun, List.dropWhile_append_of_pos hrun, h1.1, h1.2]
  simp

theorem takeSome_eq_some (p : Nat → Bool) (t run rest : JSString) :
    takeSome p t = some (run, rest) ↔
      t = run ++ rest ∧ run ≠ [] ∧ (∀ u ∈ run, p u = true) ∧
        (∀ u, rest.head? = some u → p u = false) := by
  unfold takeSome
  constructor
  · intro h
    split at h
    · exact absurd h (by simp)
    · rename_i hne
      simp only [Option.some.injEq, Prod.mk.injEq] at h
      obtain ⟨h1, h2⟩ := h
      subst h1 h2
      refine ⟨(List.takeWhile_append_dropWhile p t).symm, hne,
        fun u hu => List.mem_takeWhile_imp hu, fun u hu => ?_⟩
      have hd := List.head?_dropWhile_not p t
      rw [hu] at hd
      simpa using hd
  · rintro ⟨ht, hne, hrun, hrest⟩
    subst ht
    obtain ⟨h1, h2⟩ := takeWhile_of_head p run rest hrun hrest
    rw [h1, h2, if_neg hne]

theorem wordChar_not_whiteSpace (u : Nat) (h : isWordChar u = true) :
    isWhiteSpace u = false := by
  simp only [isWordChar, decide_eq_true_eq] at h
  simp only [isWhiteSpace, decide_eq_false_iff_not]
  omega

theorem matchPublicClassAt_iff (t name : JSString) :
    matchPublicClassAt t = some name ↔ PublicClassMatchAt t name := by
  unfold matchPublicClassAt PublicClassMatchAt
  constructor
  · intro h
    simp only [Option.bind_eq_some, Option.map_eq_some'] at h
    obtain ⟨r1, h1, s1, h2, r2, h3, s2, h4, w, h5, h6⟩ := h
    obtain ⟨ws1, rest1⟩ := s1
    obtain ⟨ws2, rest2⟩ := s2
    obtain ⟨nm, rest3⟩ := w
    simp only at h3 h5 h6
    subst h6
    rw [dropLiteral_eq_some] at h1 h3
    rw [takeSome_eq_some] at h2 h4 h5
    obtain ⟨e2, n2, a2, _⟩ := h2
    obtain ⟨e4, n4, a4, _⟩ := h4
    obtain ⟨e5, n5, a5, m5⟩ := h5
    refine ⟨ws1, ws2, rest3, ?_, n2, a2, n4, a4, n5, a5, m5⟩
    rw [h1, e2, h3, e4, e5]
  · rintro ⟨ws1, ws2, rest, ht, n1, a1, n2, a2, n3, a3, m3⟩
    subst ht
    have hs1 : takeSome isWhiteSpace (ws1 ++ (lit "class" ++ (ws2 ++ (name ++ rest)))) =
        some (ws1, lit "class" ++ (ws2 ++ (name ++ rest))) := by
      rw [takeSome_eq_some]
      refine ⟨rfl, n1, a1, fun u hu => ?_⟩
      have : u = 99 := by
        have h99 : (lit "class" ++ (ws2 ++ (name ++ rest))).head? = some 99 := rfl
        rw [h99] at hu
        exact (Option.some.inj hu).symm
      subst this
      decide
    have hs2 : takeSome isWhiteSpace (ws2 ++ (name ++ rest)) = some (ws2, name ++ rest) := by
      rw [takeSome_eq_some]
      refine ⟨rfl, n2, a2, fun u hu => ?_⟩
      cases name with
      | nil => exact absurd rfl n3
      | cons c cs =>
        simp only [List.cons_append, List.head?_cons, Option.some.injEq] at hu
        subst hu
        exact wordChar_not_whiteSpace _ (a3 _ (List.mem_cons_self _ _))
    have hs3 : takeSome isWordChar (name ++ rest) = some (name, rest) := by
      rw [takeSome_eq_some]
      exact ⟨rfl, n3, a3, m3⟩
    have hd1 : dropLiteral (lit "public")
        (lit "public" ++ (ws1 ++ (lit "class" ++ (ws2 ++ (name ++ rest))))) =
        some (ws1 ++ (lit "class" ++ (ws2 ++ (name ++ rest)))) :=
      (dropLiteral_eq_some _ _ _).2 rfl
    have hd2 : dropLiteral (lit "class") (lit "class" ++ (ws2 ++ (name ++ rest))) =
        some (ws2 ++ (name ++ rest)) := (dropLiteral_eq_some _ _ _).2 rfl
    simp only [hd1, Option.some_bind, hs1, hd2, hs2, hs3, Option.map_some']

theorem searchPublicClass_none (code : JSString)
    (h : ∀ before after, code = before ++ after → matchPublicClassAt after = none) :
    searchPublicClass code = none := by
  induction code with
  | nil => exact h [] [] rfl
  | cons c t ih =>
    unfold searchPublicClass
    rw [h [] (c :: t) rfl]
    exact ih (fun before after hba => h (c :: before) after (by rw [hba]; rfl))

theorem searchPublicClass_leftmost (before after name : JSString)
    (hm : matchPublicClassAt after = some name)
    (hmin : ∀ before2 after2, before ++ after = before2 ++ after2 →
      before2.length < before.length → matchPublicClassAt after2 = none) :
    searchPublicClass (before ++ after) = some name := by
  induction before with
  | nil =>
    rw [List.nil_append]
    cases after with
    | nil => exact hm
    | cons c t =>
      unfold searchPublicClass
      rw [hm]
  | cons b bs ih =>
    rw [List.cons_append]
    unfold searchPublicClass
    rw [hmin [] (b :: (bs ++ after)) rfl (by simp)]
    refine ih (fun before2 after2 heq hlt => ?_)
    exact hmin (b :: before2) after2 (by rw [List.cons_append, heq]; rfl) (by simpa using hlt)

theorem searchPublicClass_some (code name : JSString)
    (h : searchPublicClass code = some name) :
    ∃ after, matchPublicClassAt after = some name := by
  induction code with
  | nil => exact ⟨[], h⟩
  | cons c t ih =>
    unfold searchPublicClass at h
    split at h
    · rename_i n hn
      exact ⟨c :: t, by rw [hn, h]⟩
    · exact ih h

theorem javaClassName_word (code : JSString) :
    ∀ u ∈ javaClassName code, isWordChar u = true := by
  unfold javaClassName
  cases h : searchPublicClass code with
  | none => decide
  | some name =>
    obtain ⟨after, hm⟩ := searchPublicClass_some code name h
    obtain ⟨_, _, _, _, _, _, _, _, _, hw, _⟩ := (matchPublicClassAt_iff after name).1 hm
    exact hw

theorem splitSpace_no_space (name : JSString) (h : 32 ∉ name) : splitSpace name = [name] := by
  induction name with
  | nil => rfl
  | cons c t ih =>
    have hc : c ≠ 32 := fun e => h (e ▸ List.mem_cons_self _ _)
    have ht : 32 ∉ t := fun e => h (List.mem_cons_of_mem _ e)
    simp [splitSpace, ih ht, hc]

theorem splitSpace_java (name : JSString) (h : 32 ∉ name) :
    splitSpace (lit "java -cp " ++ SANDBOX_DIR ++ lit " " ++ name) =
      [lit "java", lit "-cp", lit "/sandbox", name] := by
  have e : lit "java -cp " ++ SANDBOX_DIR ++ lit " " ++ name =
      106 :: 97 :: 118 :: 97 :: 32 :: 45 :: 99 :: 112 :: 32 :: 47 :: 115 :: 97 :: 110 ::
        100 :: 98 :: 111 :: 120 :: 32 :: name := rfl
  rw [e]
  simp only [splitSpace, splitSpace_no_space name h]
  rfl

/-- The class name `executeCode` computes from a Java source at lines 63-64 is the
name captured by the leftmost match of `public`, whitespace, `class`, whitespace,
word characters in the source, and `Main` when the source has no such match at any
position.  That name, followed by `.java`, is the file the source is written to and
compiled from, and it is the last argument of the run command `java -cp /sandbox`.
The close handler does not get it: for java its list of identifiers is never
built. -/
theorem java_entry_class (cfg : Config) (env : Env) (code input filePath : JSString) :
    (∀ name, LeftmostPublicClass code name → javaClassName code = name) ∧
      ((∀ before after name, code = before ++ after → ¬ PublicClassMatchAt after name) →
        javaClassName code = lit "Main") ∧
      (env.writeError = none →
        Effect.writeFile (pathJoin SANDBOX_DIR (javaClassName code ++ lit ".java")) code ∈
            (executeCode cfg env code (lit "java") input).2 ∧
          Effect.exec (lit "javac " ++ pathJoin SANDBOX_DIR (javaClassName code ++ lit ".java"))
            (TIME_LIMIT_MS cfg) ∈ (executeCode cfg env code (lit "java") input).2) ∧
      (env.writeError = none → env.compile.failed = false →
        Effect.spawn (lit "java") [lit "-cp", lit "/sandbox", javaClassName code]
          (TIME_LIMIT_MS cfg) none ∈ (executeCode cfg env code (lit "java") input).2) ∧
      identifiersToStrip (lit "java") filePath = none := by
  refine ⟨?_, ?_, ?_, ?_, ?_⟩
  · rintro name ⟨before, after, hcode, hm, hmin⟩
    subst hcode
    unfold javaClassName
    rw [searchPublicClass_leftmost before after name ((matchPublicClassAt_iff _ _).2 hm)]
    · rfl
    · intro before2 after2 heq hlt
      cases hn : matchPublicClassAt after2 with
      | none => rfl
      | some name2 =>
        exact absurd ((matchPublicClassAt_iff _ _).1 hn) (hmin before2 after2 name2 heq hlt)
  · intro hno
    unfold javaClassName
    rw [searchPublicClass_none code]
    · rfl
    · intro before after heq
      cases hn : matchPublicClassAt after with
      | none => rfl
      | some name => exact absurd ((matchPublicClassAt_iff _ _).1 hn) (hno before after name heq)
  · intro hw
    simp only [executeCode, if_true, hw]
    split
    · simp
    · simp only [runStage]
      split <;> simp [catchBlock]
  · intro hw hf
    have hsp : (32 : Nat) ∉ javaClassName code := by
      intro h32
      have := javaClassName_word code 32 h32
      exact absurd this (by decide)
    simp only [executeCode, if_true, hw, hf, runStage, splitSpace_java _ hsp,
      Bool.false_eq_true, if_false]
    split <;> simp [catchBlock, lit]
  · unfold identifiersToStrip
    rw [if_neg (by decide), if_pos rfl]

theorem searchPublicClass_spec (code name : JSString)
    (h : searchPublicClass code = some name) :
    ∃ before after, code = before ++ after ∧ matchPublicClassAt after = some name ∧
      ∀ before2 after2, code = before2 ++ after2 → before2.length < before.length →
        matchPublicClassAt after2 = none := by
  induction code with
  | nil => exact ⟨[], [], rfl, h, fun _ _ _ hlt => absurd hlt (by simp)⟩
  | cons c t ih =>
    unfold searchPublicClass at h
    split at h
    · rename_i n hn
      exact ⟨[], c :: t, rfl, by rw [hn, h], fun _ _ _ hlt => absurd hlt (by simp)⟩
    · rename_i hnone
      obtain ⟨before, after, ht, hm, hmin⟩ := ih h
      refine ⟨c :: before, after, by rw [ht]; rfl, hm, fun before2 after2 heq hlt => ?_⟩
      cases before2 with
      | nil =>
        rw [List.nil_append] at heq
        rw [← heq]
        exact hnone
      | cons b bs =>
        rw [List.cons_append] at heq
        exact hmin bs after2 (List.cons.inj heq).2 (by simpa using hlt)

theorem leftmost_of_search (code name : JSString) (h : searchPublicClass code = some name) :
    LeftmostPublicClass code name := by
  obtain ⟨before, after, hc, hm, hmin⟩ := searchPublicClass_spec code name h
  refine ⟨before, after, hc, (matchPublicClassAt_iff _ _).1 hm, ?_⟩
  intro before2 after2 name2 heq hlt hm2
  have := hmin before2 after2 heq hlt
  rw [(matchPublicClassAt_iff _ _).2 hm2] at this
  exact absurd this (by simp)

/-- The theorem `java_entry_class` at a source whose first `public class` declares
`Foo_1`: the leftmost match captures `Foo_1`, and that is the class name used. -/
theorem java_entry_class_witness :
    LeftmostPublicClass (lit "import x;\npublic   class  Foo_1 { } public class Bar { }")
        (lit "Foo_1") ∧
      javaClassName (lit "import x;\npublic   class  Foo_1 { } public class Bar { }") =
        lit "Foo_1" :=
  ⟨leftmost_of_search _ _ (by decide),
    (java_entry_class defaultConfig (quietEnv sampleId)
      (lit "import x;\npublic   class  Foo_1 { } public class Bar { }") [] []).1 (lit "Foo_1")
      (leftmost_of_search _ _ (by decide))⟩

set_option maxRecDepth 20000 in
/-- C15 (defect of the code): the class name captured from the source reaches the
file name, the compile command and the run command, and never the sanitizer of the
close handler.  There the name `code` is the exit code of the child, so line 198
calls `match` on a number and throws: the list of identifiers is not built, no text
is sanitized and the promise of `executeCode` is never settled.  A source with
`public class Foo` that throws at run time is written to `/sandbox/Foo.java` and run
as `java -cp /sandbox Foo`, its stack trace names `Foo.java`, and `executeCode`
returns no result. -/
theorem close_handler_gets_no_class_name :
    javaClassName divisionSource = lit "Foo" ∧
      Effect.writeFile (lit "/sandbox/Foo.java") divisionSource ∈
        (executeCode defaultConfig javaTraceEnv divisionSource (lit "java") []).2 ∧
      Effect.exec (lit "javac /sandbox/Foo.java") 5000 ∈
        (executeCode defaultConfig javaTraceEnv divisionSource (lit "java") []).2 ∧
      Effect.spawn (lit "java") [lit "-cp", lit "/sandbox", lit "Foo"] 5000 none ∈
        (executeCode defaultConfig javaTraceEnv divisionSource (lit "java") []).2 ∧
      (javaTraceEnv.exitCode, javaTraceEnv.signal) = (some 1, none) ∧
      lit "Foo.java" <:+: javaTraceEnv.stderrChunks.flatten ∧
      identifiersToStrip (lit "java") (lit "/sandbox/3f2b8c1e-9a4d-4e7b-8c21-5d6f7a8b9c0d.java") =
        none ∧
      (executeCode defaultConfig javaTraceEnv divisionSource (lit "java") []).1 = none := by
  decide

/-! ## The hidden tests of `submitCode` -/

theorem jsOr_nil (a : JSString) : jsOr a [] = a := by
  unfold jsOr
  split
  · rename_i h; exact h.symm
  · rfl

theorem loop_pass_step (code language : JSString) (t : TestRun) (rest : List TestRun)
    (st : Judgement) (h : testPasses t = true) :
    hiddenTestLoop code language (t :: rest) st =
      hiddenTestLoop code language rest
        { st with requests := st.requests ++ [requestOf code language t] } := by
  obtain ⟨inp, exp, resp⟩ := t
  cases inp with
  | none => simp [testPasses] at h
  | some inputData =>
    cases exp with
    | none => simp [testPasses] at h
    | some expectedOutput =>
      cases resp with
      | none => simp [testPasses] at h
      | some result =>
        simp only [testPasses, Bool.and_eq_true, decide_eq_true_eq] at h
        simp only [hiddenTestLoop, jsOr_nil, h.1, h.2, requestOf, Option.getD_some]
        simp

theorem loop_pass_before (code language : JSString) (before rest : List TestRun)
    (st : Judgement) (h : ∀ x ∈ before, testPasses x = true) :
    hiddenTestLoop code language (before ++ rest) st =
      hiddenTestLoop code language rest
        { st with requests := st.requests ++ before.map (requestOf code language) } := by
  induction before generalizing st with
  | nil => simp
  | cons t ts ih =>
    rw [List.cons_append, loop_pass_step code language t _ st (h t (List.mem_cons_self _ _)),
      ih _ (fun x hx => h x (List.mem_cons_of_mem _ hx))]
    simp

theorem loop_fail_step (code language : JSString) (t : TestRun) (rest : List TestRun)
    (st : Judgement) (h : testPasses t = false) :
    (hiddenTestLoop code language (t :: rest) st).requests =
        st.requests ++ (if t.inputData.isSome = true ∧ t.expectedOutput.isSome = true then
          [requestOf code language t] else []) ∧
      (hiddenTestLoop code language (t :: rest) st).allPassed = false ∧
      (hiddenTestLoop code language (t :: rest) st).verdict ∈
        [lit "Error", lit "Compilation Error", lit "Wrong Answer"] := by
  obtain ⟨inp, exp, resp⟩ := t
  cases inp with
  | none => simp [hiddenTestLoop, testError]
  | some inputData =>
    cases exp with
    | none => simp [hiddenTestLoop, testError]
    | some expectedOutput =>
      cases resp with
      | none => simp [hiddenTestLoop, testError, requestOf]
      | some result =>
        simp only [testPasses, Bool.and_eq_false_iff, decide_eq_false_iff_not] at h
        simp only [hiddenTestLoop, jsOr_nil]
        by_cases hs : result.success = false
        · simp [hs, requestOf]
        · have hne : trim (result.output.getD []) ≠ trim expectedOutput := by
            rcases h with h | h
            · exact absurd h hs
            · exact h
          rw [if_neg hs, if_pos hne]
          cases result.output <;> simp [testError, requestOf]

theorem loop_allPassed (code language : JSString) (tests : List TestRun) (st : Judgement)
    (hst : st.allPassed = true) :
    ((hiddenTestLoop code language tests st).allPassed = true ↔
        ∀ t ∈ tests, testPasses t = true) ∧
      ((hiddenTestLoop code language tests st).allPassed = false →
        (hiddenTestLoop code language tests st).verdict ∈
          [lit "Error", lit "Compilation Error", lit "Wrong Answer"]) := by
  induction tests generalizing st with
  | nil =>
    simp only [hiddenTestLoop, hst, List.not_mem_nil, false_implies, implies_true, true_iff]
    exact ⟨trivial, fun h => absurd h (by simp)⟩
  | cons t ts ih =>
    by_cases hp : testPasses t = true
    · rw [loop_pass_step code language t ts st hp]
      obtain ⟨h1, h2⟩ := ih { st with requests := st.requests ++ [requestOf code language t] } hst
      refine ⟨?_, h2⟩
      rw [h1]
      constructor
      · intro h x hx
        rcases List.mem_cons.1 hx with e | e
        · rw [e]; exact hp
        · exact h x e
      · intro h x hx
        exact h x (List.mem_cons_of_mem _ hx)
    · have hf : testPasses t = false := by simpa using hp
      obtain ⟨_, h2, h3⟩ := loop_fail_step code language t ts st hf
      refine ⟨?_, fun _ => h3⟩
      rw [h2]
      constructor
      · intro h; exact absurd h (by simp)
      · intro h; exact absurd (h t (List.mem_cons_self _ _)) hp

/-- C11: when the hidden test `t` is the first one that does not pass (its files
cannot be read, the request throws, the engine result is unsuccessful, or the
trimmed output differs from the trimmed expected output), the requests `submitCode`
makes to the compiler service are one request for each test before `t`, in list
order, followed by the request for `t` itself if its files were read: the tests
after `t` have no part in them. -/
theorem hidden_tests_fail_fast (code language : JSString) (before after : List TestRun)
    (t : TestRun) (hb : ∀ x ∈ before, testPasses x = true) (ht : testPasses t = false) :
    (submitCode code language (before ++ t :: after)).requests =
        before.map (requestOf code language) ++
          (if t.inputData.isSome = true ∧ t.expectedOutput.isSome = true then
            [requestOf code language t] else []) ∧
      (submitCode code language (before ++ t :: after)).requests =
        (submitCode code language (before ++ [t])).requests ∧
      (submitCode code language (before ++ t :: after)).allPassed = false := by
  have key : ∀ rest : List TestRun,
      (submitCode code language (before ++ t :: rest)).requests =
          before.map (requestOf code language) ++
            (if t.inputData.isSome = true ∧ t.expectedOutput.isSome = true then
              [requestOf code language t] else []) ∧
        (submitCode code language (before ++ t :: rest)).allPassed = false := by
    intro rest
    unfold submitCode
    simp only [loop_pass_before code language before (t :: rest) _ hb]
    obtain ⟨h1, h2, _⟩ := loop_fail_step code language t rest
      { verdict := lit "Accepted", output := some [], allPassed := true,
        failedTestCaseDetails := none,
        requests := [] ++ before.map (requestOf code language) } ht
    rw [List.nil_append] at h1 h2
    simp only [List.nil_append, h2, Bool.false_eq_true, if_false]
    exact ⟨h1, trivial⟩
  exact ⟨(key after).1, (key after).1.trans (key []).1.symm, (key after).2⟩

/-- C11, at five hidden tests of which the third has a wrong answer: the requests are
those for the first three tests. -/
theorem hidden_tests_fail_fast_witness :
    testPasses (wrongTest (lit "3")) = false ∧
      (submitCode (lit "print(41)") (lit "python")
        ([passingTest (lit "1") (lit "a"), passingTest (lit "2") (lit "b")] ++
          wrongTest (lit "3") ::
            [passingTest (lit "4") (lit "d"), passingTest (lit "5") (lit "e")])).requests =
        [{ code := lit "print(41)", language := lit "python", input := lit "1" },
         { code := lit "print(41)", language := lit "python", input := lit "2" },
         { code := lit "print(41)", language := lit "python", input := lit "3" }] :=
  ⟨by decide,
    (hidden_tests_fail_fast (lit "print(41)") (lit "python")
      [passingTest (lit "1") (lit "a"), passingTest (lit "2") (lit "b")]
      [passingTest (lit "4") (lit "d"), passingTest (lit "5") (lit "e")]
      (wrongTest (lit "3")) (by decide) (by decide)).1⟩

theorem rdropWhile_append_of_pos (p : Nat → Bool) (l ws : JSString)
    (h : ∀ u ∈ ws, p u = true) : (l ++ ws).rdropWhile p = l.rdropWhile p := by
  unfold List.rdropWhile
  rw [List.reverse_append, List.dropWhile_append_of_pos (fun u hu => h u (List.mem_reverse.1 hu))]

theorem trim_pad (ws1 ws2 s : JSString) (h1 : ∀ u ∈ ws1, isWhiteSpace u = true)
    (h2 : ∀ u ∈ ws2, isWhiteSpace u = true) : trim (ws1 ++ s ++ ws2) = trim s := by
  unfold trim
  rw [List.append_assoc, List.dropWhile_append_of_pos h1, List.dropWhile_append]
  split
  · rename_i hempty
    have hnil : s.dropWhile isWhiteSpace = [] := by simpa using hempty
    have hall : ws2.dropWhile isWhiteSpace = [] := by
      rw [List.dropWhile_eq_nil_iff]
      exact h2
    rw [hnil, hall]
  · exact rdropWhile_append_of_pos _ _ _ h2

theorem testPasses_padTest (ws1 ws2 ws3 ws4 : JSString) (t : TestRun)
    (h1 : ∀ u ∈ ws1, isWhiteSpace u = true) (h2 : ∀ u ∈ ws2, isWhiteSpace u = true)
    (h3 : ∀ u ∈ ws3, isWhiteSpace u = true) (h4 : ∀ u ∈ ws4, isWhiteSpace u = true) :
    testPasses (padTest ws1 ws2 ws3 ws4 t) = testPasses t := by
  obtain ⟨inp, exp, resp⟩ := t
  cases inp <;> cases exp <;> cases resp <;> simp only [padTest, testPasses, Option.map]
  rename_i inputData expectedOutput result
  rw [trim_pad ws3 ws4 expectedOutput h3 h4]
  cases result.output with
  | none => rfl
  | some o => simp only [Option.getD_some, trim_pad ws1 ws2 o h1 h2]

theorem submitCode_accepted_iff (code language : JSString) (tests : List TestRun) :
    (submitCode code language tests).verdict = lit "Accepted" ↔
      ∀ t ∈ tests, testPasses t = true := by
  obtain ⟨h1, h2⟩ := loop_allPassed code language tests
    { verdict := lit "Accepted", output := some [], allPassed := true,
      failedTestCaseDetails := none, requests := [] } rfl
  unfold submitCode
  simp only
  split
  · rename_i hall
    exact ⟨fun _ => h1.1 hall, fun _ => rfl⟩
  · rename_i hall
    have hfalse : (hiddenTestLoop code language tests
        { verdict := lit "Accepted", output := some [], allPassed := true,
          failedTestCaseDetails := none, requests := [] }).allPassed = false := by
      simpa using hall
    have hv := h2 hfalse
    constructor
    · intro hacc
      rw [hacc] at hv
      exact absurd hv (by decide)
    · intro hp
      exact absurd (h1.2 hp) hall

/-- C12: the verdict `submitCode` arrives at is `Accepted` exactly when every hidden
test passes, that is, its files are read, the engine result has success true, and
the engine output with leading and trailing white space trimmed equals the expected
output trimmed the same way.  Adding white space in front of or behind the engine
output or the expected output of the tests changes neither whether a test passes
nor whether the verdict is `Accepted`, and a problem without hidden tests is
`Accepted`. -/
theorem accepted_iff_all_tests_pass (code language : JSString) (tests : List TestRun)
    (ws1 ws2 ws3 ws4 : JSString)
    (h1 : ∀ u ∈ ws1, isWhiteSpace u = true) (h2 : ∀ u ∈ ws2, isWhiteSpace u = true)
    (h3 : ∀ u ∈ ws3, isWhiteSpace u = true) (h4 : ∀ u ∈ ws4, isWhiteSpace u = true) :
    ((submitCode code language tests).verdict = lit "Accepted" ↔
        ∀ t ∈ tests, testPasses t = true) ∧
      (∀ t, testPasses (padTest ws1 ws2 ws3 ws4 t) = testPasses t) ∧
      ((submitCode code language (tests.map (padTest ws1 ws2 ws3 ws4))).verdict =
          lit "Accepted" ↔ (submitCode code language tests).verdict = lit "Accepted") ∧
      (submitCode code language []).verdict = lit "Accepted" := by
  refine ⟨submitCode_accepted_iff code language tests,
    fun t => testPasses_padTest ws1 ws2 ws3 ws4 t h1 h2 h3 h4, ?_, rfl⟩
  rw [submitCode_accepted_iff, submitCode_accepted_iff]
  constructor
  · intro h t ht
    rw [← testPasses_padTest ws1 ws2 ws3 ws4 t h1 h2 h3 h4]
    exact h _ (List.mem_map_of_mem _ ht)
  · intro h t ht
    obtain ⟨t0, ht0, e⟩ := List.mem_map.1 ht
    rw [← e, testPasses_padTest ws1 ws2 ws3 ws4 t0 h1 h2 h3 h4]
    exact h t0 ht0

/-- C12, at two passing tests whose outputs get blanks and line ends added. -/
theorem accepted_iff_all_tests_pass_witness :
    (∀ u ∈ lit " \n", isWhiteSpace u = true) ∧
      (submitCode (lit "print(1)") (lit "python")
        ([passingTest (lit "1") (lit "a"), passingTest (lit "2") (lit "b")].map
          (padTest (lit " \n") (lit "\t") (lit "\r\n") (lit "  ")))).verdict = lit "Accepted" :=
  ⟨by decide,
    (accepted_iff_all_tests_pass (lit "print(1)") (lit "python")
      [passingTest (lit "1") (lit "a"), passingTest (lit "2") (lit "b")]
      (lit " \n") (lit "\t") (lit "\r\n") (lit "  ")
      (by decide) (by decide) (by decide) (by decide)).2.2.1.2 (by decide)⟩

/-! ## The request handler and the compile command -/

/-- C21: when the code or the language of a request is missing or empty, the handler
answers with status 400, success false and verdict `Bad Request`, and makes no
effect at all: `executeCode` is not invoked, no file is written, no process is
started. -/
theorem missing_code_or_language_is_rejected (cfg : Config) (env : Env) (body : RequestBody)
    (h : body.code = none ∨ body.code = some [] ∨ body.language = none ∨
      body.language = some []) :
    postHandler cfg env body =
      (some { status := 400, success := false, verdict := some (lit "Bad Request"),
              type := some (lit "Bad Request"),
              error := some (lit "Code and language are required"), output := none,
              memoryUsed := 0 }, []) := by
  have ht : (!truthy body.code || !truthy body.language) = true := by
    rcases h with h | h | h | h <;> simp [h, truthy]
  unfold postHandler
  rw [if_pos ht]

/-- C21, at a request without code and at a request with an empty language. -/
theorem missing_code_or_language_is_rejected_witness :
    (postHandler defaultConfig (quietEnv sampleId)
        { code := none, language := some (lit "python"), input := none }).1.map
          Response.status = some 400 ∧
      (postHandler defaultConfig (quietEnv sampleId)
        { code := some (lit "print(1)"), language := some [], input := none }).2 = [] ∧
      (postHandler defaultConfig (quietEnv sampleId)
        { code := some (lit "print(1)"), language := some (lit "python"),
          input := none }).1.map Response.status = some 200 :=
  ⟨congrArg (fun x => x.1.map Response.status) (missing_code_or_language_is_rejected defaultConfig
      (quietEnv sampleId) { code := none, language := some (lit "python"), input := none }
      (Or.inl rfl)),
    congrArg (fun x => x.2) (missing_code_or_language_is_rejected defaultConfig
      (quietEnv sampleId) { code := some (lit "print(1)"), language := some [], input := none }
      (Or.inr (Or.inr (Or.inr rfl)))),
    by decide⟩

theorem compileCommands_append (xs ys : List Effect) :
    compileCommands (xs ++ ys) = compileCommands xs ++ compileCommands ys := by
  simp [compileCommands]

theorem spawnedCommands_append (xs ys : List Effect) :
    spawnedCommands (xs ++ ys) = spawnedCommands xs ++ spawnedCommands ys := by
  simp [spawnedCommands]

theorem stdout_handler_commands (cfg : Config) (chunks : List JSString)
    (st : JSString × List Effect) :
    compileCommands (chunks.foldl (onStdoutData cfg) st).2 = compileCommands st.2 ∧
      spawnedCommands (chunks.foldl (onStdoutData cfg) st).2 = spawnedCommands st.2 := by
  induction chunks generalizing st with
  | nil => simp
  | cons c cs ih =>
    rw [List.foldl_cons]
    refine ⟨(ih _).1.trans ?_, (ih _).2.trans ?_⟩
    · unfold onStdoutData
      split <;> simp [compileCommands]
    · unfold onStdoutData
      split <;> simp [spawnedCommands]

theorem runStage_commands (cfg : Config) (env : Env)
    (language input filePath execPath runCmd : JSString) (cleanupList : List JSString)
    (done : List Effect) :
    compileCommands (runStage cfg env language input filePath execPath runCmd
        cleanupList done).2 = compileCommands done ∧
      spawnedCommands (runStage cfg env language input filePath execPath runCmd
        cleanupList done).2 =
        spawnedCommands done ++ [((splitSpace runCmd).headD [], (splitSpace runCmd).tail)] := by
  have hk := stdout_handler_commands cfg env.stdoutChunks ([], [])
  unfold runStage
  cases env.runError with
  | some err =>
    simp [catchBlock, compileCommands_append, spawnedCommands_append, compileCommands,
      spawnedCommands]
  | none =>
    simp only [compileCommands_append, spawnedCommands_append, hk.1, hk.2]
    split <;> simp [compileCommands, spawnedCommands]

theorem executeCode_commands (cfg : Config) (env : Env) (code language input : JSString)
    (hw : env.writeError = none) :
    compileCommands (executeCode cfg env code language input).2 =
      (if language = lit "java" then
        [lit "javac " ++ pathJoin SANDBOX_DIR (javaClassName code ++ lit ".java")]
      else if language = lit "cpp" then
        [lit "g++ " ++ pathJoin SANDBOX_DIR (env.executionId ++ lit "." ++ lit "cpp") ++
          lit " -o " ++ pathJoin SANDBOX_DIR (env.executionId ++ lit ".out") ++
          lit " -O2 -static-libstdc++"]
      else []) := by
  unfold executeCode
  by_cases hj : language = lit "java"
  · simp only [if_pos hj, hw]
    split
    · simp [compileCommands]
    · rw [(runStage_commands _ _ _ _ _ _ _ _ _).1]
      simp [compileCommands]
  · simp only [if_neg hj, hw]
    by_cases hc : language = lit "cpp"
    · have hext : getFileExtension language = lit "cpp" := by
        rw [hc]; decide
      simp only [if_pos hc, hext]
      split
      · simp [compileCommands]
      · rw [(runStage_commands _ _ _ _ _ _ _ _ _).1]
        simp [compileCommands]
    · simp only [if_neg hc]
      split
      · rw [(runStage_commands _ _ _ _ _ _ _ _ _).1]
        simp [compileCommands]
      · simp [compileCommands]

theorem mem_compileCommands (effects : List Effect) (cmd : JSString) (t : Int)
    (h : Effect.exec cmd t ∈ effects) : cmd ∈ compileCommands effects := by
  unfold compileCommands
  rw [List.mem_flatMap]
  exact ⟨_, h, by simp⟩

/-- C22 (as stated, refuted): the compile command of a cpp execution is one string
handed to `exec`, which runs it through a shell; it is not an argument vector. -/
theorem compile_command_is_a_shell_string :
    Effect.exec (lit "g++ /sandbox/3f2b8c1e-9a4d-4e7b-8c21-5d6f7a8b9c0d.cpp -o /sandbox/3f2b8c1e-9a4d-4e7b-8c21-5d6f7a8b9c0d.out -O2 -static-libstdc++") 5000 ∈
        (executeCode defaultConfig (quietEnv sampleId) (lit "int main(){}") (lit "cpp") []).2 ∧
      (Effect.exec (lit "g++ /sandbox/3f2b8c1e-9a4d-4e7b-8c21-5d6f7a8b9c0d.cpp -o /sandbox/3f2b8c1e-9a4d-4e7b-8c21-5d6f7a8b9c0d.out -O2 -static-libstdc++") 5000).viaShell = true := by
  decide

/-- C22 (amended): for cpp and java and every source code, the compile step hands
exactly one command string to `exec`, that is to a shell: `javac` followed by the
path of the source file, or the `g++` command line; every effect that goes through
a shell is such an `exec` bounded by `TIME_LIMIT_MS`, and what is spawned (the run
command) is an argument vector that goes through no shell. -/
theorem compile_command_goes_to_shell (cfg : Config) (env : Env)
    (code language input : JSString)
    (hl : language = lit "cpp" ∨ language = lit "java") (hw : env.writeError = none) :
    compileCommands (executeCode cfg env code language input).2 =
        [if language = lit "java" then
          lit "javac " ++ pathJoin SANDBOX_DIR (javaClassName code ++ lit ".java")
        else
          lit "g++ " ++ pathJoin SANDBOX_DIR (env.executionId ++ lit "." ++ lit "cpp") ++
            lit " -o " ++ pathJoin SANDBOX_DIR (env.executionId ++ lit ".out") ++
            lit " -O2 -static-libstdc++"] ∧
      (∀ e ∈ (executeCode cfg env code language input).2, e.viaShell = true →
        ∃ cmd, e = Effect.exec cmd (TIME_LIMIT_MS cfg) ∧
          cmd ∈ compileCommands (executeCode cfg env code language input).2) ∧
      (∀ e ∈ (executeCode cfg env code language input).2, e.isSpawn = true →
        e.viaShell = false) := by
  refine ⟨?_, ?_, ?_⟩
  · rw [executeCode_commands cfg env code language input hw]
    rcases hl with hc | hj
    · subst hc
      have hcj : lit "cpp" ≠ lit "java" := by decide
      simp only [if_neg hcj, if_true]
    · subst hj
      simp only [if_true]
  · intro e he hs
    cases e with
    | exec cmd t =>
      have ht : t = TIME_LIMIT_MS cfg := by
        have hcj : lit "cpp" ≠ lit "java" := by decide
        unfold executeCode at he
        rcases hl with hc | hj
        · subst hc
          simp only [if_neg hcj, if_true, hw] at he
          split at he
          · simp at he
            exact he.2
          · simp only [runStage] at he
            split at he
            · simp [catchBlock] at he
              exact he.2
            · have hk := stdout_handler_commands cfg env.stdoutChunks ([], [])
              simp only [List.mem_append] at he
              rcases he with (((he | he) | he) | he) | he
              · simp at he
                exact he.2
              · split at he <;> simp at he
              · simp at he
              · have := mem_compileCommands _ _ _ he
                rw [hk.1] at this
                simp [compileCommands] at this
              · simp at he
        · subst hj
          simp only [if_true, hw] at he
          split at he
          · simp at he
            exact he.2
          · simp only [runStage] at he
            split at he
            · simp [catchBlock] at he
              exact he.2
            · have hk := stdout_handler_commands cfg env.stdoutChunks ([], [])
              simp only [List.mem_append] at he
              rcases he with (((he | he) | he) | he) | he
              · simp at he
                exact he.2
              · split at he <;> simp at he
              · simp at he
              · have := mem_compileCommands _ _ _ he
                rw [hk.1] at this
                simp [compileCommands] at this
              · simp at he
      subst ht
      exact ⟨cmd, rfl, mem_compileCommands _ _ _ he⟩
    | _ => simp [Effect.viaShell] at hs
  · intro e _ hs
    cases e <;> simp [Effect.isSpawn] at hs
    rfl

/-- C22 (amended), at a java execution. -/
theorem compile_command_goes_to_shell_witness :
    compileCommands (executeCode defaultConfig (quietEnv sampleId)
        (lit "public class Foo { }") (lit "java") []).2 = [lit "javac /sandbox/Foo.java"] :=
  (compile_command_goes_to_shell defaultConfig (quietEnv sampleId)
    (lit "public class Foo { }") (lit "java") [] (Or.inr rfl) (by decide)).1

/-! ## The verdicts of `submitCode` -/

/-- C26: when the first hidden test that does not pass has an unsuccessful engine
result, the verdict of `submitCode` is `Compilation Error`, whatever the engine
reported (the reply is arbitrary but for `success`, and no other field of it is read
on this path than `error`); for every list of hidden tests the verdict is one of
`Accepted`, `Wrong Answer`, `Compilation Error`, `Error`, and never
`Runtime Error`. -/
theorem unsuccessful_result_is_compilation_error (code language : JSString)
    (before after : List TestRun) (inputData expectedOutput : JSString) (result : EngineReply)
    (hb : ∀ x ∈ before, testPasses x = true) (hs : result.success = false) :
    (submitCode code language
        (before ++ { inputData := some inputData, expectedOutput := some expectedOutput,
                     response := some result } :: after)).verdict = lit "Compilation Error" ∧
      (∀ tests : List TestRun,
        (submitCode code language tests).verdict ∈
            [lit "Accepted", lit "Wrong Answer", lit "Compilation Error", lit "Error"] ∧
          (submitCode code language tests).verdict ≠ lit "Runtime Error") := by
  constructor
  · unfold submitCode
    simp only [loop_pass_before code language before _ _ hb]
    simp [hiddenTestLoop, hs]
  · intro tests
    have hmem : (submitCode code language tests).verdict ∈
        [lit "Accepted", lit "Wrong Answer", lit "Compilation Error", lit "Error"] := by
      obtain ⟨_, h2⟩ := loop_allPassed code language tests
        { verdict := lit "Accepted", output := some [], allPassed := true,
          failedTestCaseDetails := none, requests := [] } rfl
      unfold submitCode
      simp only
      split
      · simp
      · rename_i hall
        have hv := h2 (by simpa using hall)
        simp only [List.mem_cons, List.mem_singleton, List.not_mem_nil, or_false] at hv ⊢
        tauto
    refine ⟨hmem, fun h => ?_⟩
    rw [h] at hmem
    exact absurd hmem (by decide)

/-- C26, at a second test that the engine answers with a Runtime Error. -/
theorem unsuccessful_result_is_compilation_error_witness :
    (submitCode (lit "print(1/0)") (lit "python")
      ([passingTest (lit "1") (lit "a")] ++
        { inputData := some (lit "2"), expectedOutput := some (lit "b"),
          response := some { success := false, output := none,
                             error := some (lit "ZeroDivisionError") } } ::
          [passingTest (lit "3") (lit "c")])).verdict = lit "Compilation Error" :=
  (unsuccessful_result_is_compilation_error (lit "print(1/0)") (lit "python")
    [passingTest (lit "1") (lit "a")] [passingTest (lit "3") (lit "c")] (lit "2") (lit "b")
    { success := false, output := none, error := some (lit "ZeroDivisionError") }
    (by decide) rfl).1

/-! ## The output cap -/

theorem failure_outputBounded (cfg : Config) (stdout kind error : JSString)
    (hcap : 0 ≤ cfg.maxOutputSize) : (failure kind error []).outputBounded cfg stdout := by
  refine ⟨?_, List.nil_prefix, fun _ _ => rfl⟩
  simp only [failure, List.length_nil, MAX_OUTPUT_SIZE]
  omega

theorem onClose_outputBounded (cfg : Config) (language filePath stdout error : JSString)
    (code : Option Int) (signal : Option JSString) (hcap : 0 ≤ cfg.maxOutputSize)
    (r : ExecResult) (h : onClose cfg language filePath stdout error code signal = some r) :
    r.outputBounded cfg stdout := by
  have hmax : 0 ≤ MAX_OUTPUT_SIZE cfg := by unfold MAX_OUTPUT_SIZE; omega
  have hlen : ((stdout.take (MAX_OUTPUT_SIZE cfg).toNat).length : Int) ≤ MAX_OUTPUT_SIZE cfg := by
    rw [List.length_take]
    omega
  unfold onClose at h
  split at h
  · cases h
    exact failure_outputBounded cfg stdout _ _ hcap
  · split at h
    · cases h
      refine ⟨?_, ?_, fun h => absurd rfl h⟩
      · simp only [slice0_of_nonneg _ _ hmax]
        exact hlen
      · simp only [slice0_of_nonneg _ _ hmax]
        exact List.take_prefix _ _
    · split at h
      · cases h
      · cases h
        refine ⟨?_, ?_, fun _ h => absurd rfl h⟩
        · simp only [failure, slice0_of_nonneg _ _ hmax]
          exact hlen
        · simp only [failure, slice0_of_nonneg _ _ hmax]
          exact List.take_prefix _ _

theorem runStage_outputBounded (cfg : Config) (env : Env)
    (language input filePath execPath runCmd : JSString) (cleanupList : List JSString)
    (done : List Effect) (hcap : 0 ≤ cfg.maxOutputSize) (r : ExecResult)
    (h : (runStage cfg env language input filePath execPath runCmd cleanupList done).1 =
      some r) :
    r.outputBounded cfg env.stdoutChunks.flatten := by
  have hout := stdout_handler_output cfg env.stdoutChunks ([], [])
  rw [List.nil_append] at hout
  unfold runStage at h
  cases hr : env.runError with
  | some err =>
    simp only [hr, catchBlock] at h
    cases h
    exact failure_outputBounded cfg _ _ _ hcap
  | none =>
    simp only [hr, hout] at h
    exact onClose_outputBounded _ _ _ _ _ _ _ hcap r h

/-- C30: for every result `executeCode` returns and every stdout of the child, the
output field has at most `MAX_OUTPUT_SIZE` code units and is a beginning of the
accumulated stdout, the empty one on every path but `Executed` and `Runtime Error`.
(`MAX_OUTPUT_SIZE` is taken non-negative, as a size is.) -/
theorem output_within_cap (cfg : Config) (env : Env) (code language input : JSString)
    (hcap : 0 ≤ cfg.maxOutputSize) (r : ExecResult)
    (hr : (executeCode cfg env code language input).1 = some r) :
    (r.output.length : Int) ≤ MAX_OUTPUT_SIZE cfg ∧
      r.output <+: env.stdoutChunks.flatten ∧
      (r.verdict ≠ lit "Executed" → r.verdict ≠ lit "Runtime Error" → r.output = []) := by
  show r.outputBounded cfg env.stdoutChunks.flatten
  unfold executeCode at hr
  by_cases hj : language = lit "java"
  · simp only [if_pos hj] at hr
    cases hw : env.writeError with
    | some err =>
      simp only [hw, catchBlock] at hr
      cases hr
      exact failure_outputBounded cfg _ _ _ hcap
    | none =>
      simp only [hw] at hr
      by_cases hf : env.compile.failed = true
      · simp only [if_pos hf] at hr
        cases hr
        exact failure_outputBounded cfg _ _ _ hcap
      · simp only [if_neg hf] at hr
        exact runStage_outputBounded _ _ _ _ _ _ _ _ _ hcap r hr
  · simp only [if_neg hj] at hr
    cases hw : env.writeError with
    | some err =>
      simp only [hw, catchBlock] at hr
      cases hr
      exact failure_outputBounded cfg _ _ _ hcap
    | none =>
      simp only [hw] at hr
      by_cases hc : language = lit "cpp"
      · simp only [if_pos hc] at hr
        by_cases hf : env.compile.failed = true
        · simp only [if_pos hf] at hr
          cases hr
          exact failure_outputBounded cfg _ _ _ hcap
        · simp only [if_neg hf] at hr
          exact runStage_outputBounded _ _ _ _ _ _ _ _ _ hcap r hr
      · simp only [if_neg hc] at hr
        by_cases hp : language = lit "python"
        · simp only [if_pos hp] at hr
          exact runStage_outputBounded _ _ _ _ _ _ _ _ _ hcap r hr
        · simp only [if_neg hp] at hr
          cases hr
          exact failure_outputBounded cfg _ _ _ hcap

theorem accented_result (n : Nat) (code : JSString) :
    (executeCode defaultConfig (accentedEnv n) code (lit "python") []).1 =
      some { success := true, verdict := lit "Executed", type := none, error := none,
             output := List.replicate (min 1048576 n) 233, memoryUsed := 0 } := by
  have hneg : ¬ MAX_OUTPUT_SIZE defaultConfig < 0 := by decide
  have hmax : (MAX_OUTPUT_SIZE defaultConfig).toNat = 1048576 := by decide
  have hrun : reachesClose (accentedEnv n) (lit "python") = true := by
    simp [reachesClose, accentedEnv, quietEnv]
  rw [executeCode_reachesClose _ _ _ _ _ hrun]
  simp only [accentedEnv, quietEnv, onClose, List.flatten_cons, List.flatten_nil,
    List.append_nil]
  simp only [if_true, slice0, if_neg hneg, List.take_replicate, hmax]
  rw [if_neg (by intro hs; cases hs)]

/-- C30, at a child that prints 1048577 code units under the default cap of
1048576: the result holds 1048576 of them. -/
theorem output_within_cap_witness :
    (executeCode defaultConfig (accentedEnv 1048577) (lit "print(1)") (lit "python") []).1 =
        some { success := true, verdict := lit "Executed", type := none, error := none,
               output := List.replicate (min 1048576 1048577) 233, memoryUsed := 0 } ∧
      ((List.replicate (min 1048576 1048577) 233).length : Int) ≤
        MAX_OUTPUT_SIZE defaultConfig :=
  ⟨accented_result 1048577 _,
    (output_within_cap defaultConfig (accentedEnv 1048577) (lit "print(1)") (lit "python") []
      (by decide) _ (accented_result 1048577 _)).1⟩

theorem stdout_handler_keeps (cfg : Config) (chunks : List JSString)
    (st : JSString × List Effect) (e : Effect) (he : e ∈ st.2) :
    e ∈ (chunks.foldl (onStdoutData cfg) st).2 := by
  induction chunks generalizing st with
  | nil => exact he
  | cons c cs ih =>
    rw [List.foldl_cons]
    apply ih
    unfold onStdoutData
    split
    · exact List.mem_append_left _ he
    · exact he

theorem stdout_handler_kills (cfg : Config) (chunks : List JSString)
    (st : JSString × List Effect) (n : Nat) (hn : n < chunks.length)
    (hlen : ((st.1 ++ (chunks.take (n + 1)).flatten).length : Int) > MAX_OUTPUT_SIZE cfg) :
    Effect.kill (lit "SIGKILL") ∈ (chunks.foldl (onStdoutData cfg) st).2 := by
  induction chunks generalizing st n with
  | nil => exact absurd hn (by simp)
  | cons c cs ih =>
    rw [List.foldl_cons]
    cases n with
    | zero =>
      apply stdout_handler_keeps
      simp only [Nat.zero_add, List.take_succ_cons, List.take_zero, List.flatten_cons,
        List.flatten_nil, List.append_nil] at hlen
      unfold onStdoutData
      rw [if_pos hlen]
      simp
    | succ k =>
      apply ih _ k (by simpa using hn)
      have h1 : (onStdoutData cfg st c).1 = st.1 ++ c := by
        unfold onStdoutData
        split <;> rfl
      rw [h1]
      simpa [List.take_succ_cons, List.append_assoc] using hlen

theorem executeCode_handler_effects (cfg : Config) (env : Env)
    (code language input : JSString) (h : reachesClose env language = true) (e : Effect)
    (he : e ∈ (env.stdoutChunks.foldl (onStdoutData cfg) ([], [])).2) :
    e ∈ (executeCode cfg env code language input).2 := by
  simp only [reachesClose, Bool.and_eq_true, Bool.or_eq_true, decide_eq_true_eq,
    Option.isNone_iff_eq_none, Bool.not_eq_true'] at h
  obtain ⟨⟨hw, hr⟩, hl⟩ := h
  have hcj : lit "cpp" ≠ lit "java" := by decide
  unfold executeCode
  rcases hl with hpy | ⟨hc | hj, hf⟩
  · subst hpy
    simp only [if_neg lit_python_ne_java, if_neg lit_python_ne_cpp, if_true, hw, runStage, hr]
    exact List.mem_append_left _ (List.mem_append_right _ he)
  · subst hc
    simp only [if_neg hcj, if_true, hw, hf, runStage, hr, Bool.false_eq_true, if_false]
    exact List.mem_append_left _ (List.mem_append_right _ he)
  · subst hj
    simp only [if_true, hw, hf, runStage, hr, Bool.false_eq_true, if_false]
    exact List.mem_append_left _ (List.mem_append_right _ he)

/-- C24: whenever the stdout accumulated after a `data` event is longer than
`MAX_OUTPUT_SIZE`, the handler issues a `SIGKILL`; and when that signal ends the
child, the result is the one of a child ended by the timer of the time limit:
verdict `Time Limit Exceeded`, error `Process killed due to timeout or resource
limits`, and output `''`, whatever was captured. -/
theorem output_cap_kill_is_time_limit (cfg : Config) (env : Env)
    (code language input : JSString) (hrun : reachesClose env language = true) :
    (∀ n, n < env.stdoutChunks.length →
        (((env.stdoutChunks.take (n + 1)).flatten.length : Nat) : Int) > MAX_OUTPUT_SIZE cfg →
        Effect.kill (lit "SIGKILL") ∈ (executeCode cfg env code language input).2) ∧
      ((env.exitCode, env.signal) = closeEvent none Termination.outputCap →
        (executeCode cfg env code language input).1 =
          some { success := false, verdict := lit "Time Limit Exceeded",
                 type := some (lit "Time Limit Exceeded"),
                 error := some (lit "Process killed due to timeout or resource limits"),
                 output := [], memoryUsed := 0 }) ∧
      ((env.exitCode, env.signal) = closeEvent none Termination.backstopTimer →
        (executeCode cfg env code language input).1 =
          some { success := false, verdict := lit "Time Limit Exceeded",
                 type := some (lit "Time Limit Exceeded"),
                 error := some (lit "Process killed due to timeout or resource limits"),
                 output := [], memoryUsed := 0 }) := by
  have hclose : env.signal = some (lit "SIGKILL") →
      (executeCode cfg env code language input).1 =
        some { success := false, verdict := lit "Time Limit Exceeded",
               type := some (lit "Time Limit Exceeded"),
               error := some (lit "Process killed due to timeout or resource limits"),
               output := [], memoryUsed := 0 } := by
    intro hs
    rw [executeCode_reachesClose cfg env code language input hrun]
    unfold onClose
    rw [if_pos hs]
    rfl
  refine ⟨fun n hn hlen => ?_, fun h => hclose ?_, fun h => hclose ?_⟩
  · apply executeCode_handler_effects cfg env code language input hrun
    exact stdout_handler_kills cfg env.stdoutChunks ([], []) n hn (by simpa using hlen)
  · simp only [closeEvent, Prod.mk.injEq] at h
    exact h.2
  · simp only [closeEvent, Prod.mk.injEq] at h
    exact h.2

theorem floodEnv_exceeds (n : Nat) (h : (n : Int) > MAX_OUTPUT_SIZE defaultConfig) :
    ((((floodEnv n).stdoutChunks.take (0 + 1)).flatten.length : Nat) : Int) >
      MAX_OUTPUT_SIZE defaultConfig := by
  simp only [floodEnv, quietEnv, Nat.zero_add, List.take_succ_cons, List.take_zero,
    List.flatten_cons, List.flatten_nil, List.append_nil, List.length_replicate]
  exact h

/-- C24, at a child that prints 1048577 code units under the default cap and is
ended by the `SIGKILL` of the handler. -/
theorem output_cap_kill_is_time_limit_witness :
    reachesClose (floodEnv 1048577) (lit "python") = true ∧
      Effect.kill (lit "SIGKILL") ∈
        (executeCode defaultConfig (floodEnv 1048577) (lit "print(1)") (lit "python") []).2 ∧
      (executeCode defaultConfig (floodEnv 1048577) (lit "print(1)") (lit "python")
        []).1.map ExecResult.verdict = some (lit "Time Limit Exceeded") :=
  ⟨by decide,
    (output_cap_kill_is_time_limit defaultConfig (floodEnv 1048577) (lit "print(1)")
      (lit "python") [] (by decide)).1 0 (by decide) (floodEnv_exceeds 1048577 (by decide)),
    congrArg (fun r => r.map ExecResult.verdict)
      ((output_cap_kill_is_time_limit defaultConfig (floodEnv 1048577) (lit "print(1)")
        (lit "python") [] (by decide)).2.1 rfl)⟩

/-! ## Command strings -/

theorem isUuid_chars (s : JSString) (h : isUuid s = true) :
    ∀ u ∈ s, isHexDigit u = true ∨ u = 45 := by
  unfold isUuid at h
  simp only [Bool.and_eq_true, List.all_eq_true, Bool.or_eq_true, decide_eq_true_eq] at h
  exact h.1.1.1.1.1.2

theorem uuid_no_space (s : JSString) (h : isUuid s = true) : (32 : Nat) ∉ s := by
  intro hm
  rcases isUuid_chars s h 32 hm with h1 | h1
  · exact absurd h1 (by decide)
  · exact absurd h1 (by decide)

theorem uuid_safe (s : JSString) (h : isUuid s = true) : s.all isSafeCmdChar = true := by
  rw [List.all_eq_true]
  intro u hu
  rcases isUuid_chars s h u hu with h1 | h1
  · simp only [isHexDigit, decide_eq_true_eq] at h1
    simp only [isSafeCmdChar, decide_eq_true_eq]
    omega
  · subst h1
    decide

theorem className_safe (code : JSString) : (javaClassName code).all isSafeCmdChar = true := by
  rw [List.all_eq_true]
  intro u hu
  have h1 := javaClassName_word code u hu
  simp only [isWordChar, decide_eq_true_eq] at h1
  simp only [isSafeCmdChar, decide_eq_true_eq]
  omega

theorem splitSpace_python (path : JSString) (h : 32 ∉ path) :
    splitSpace (lit "python3 " ++ path) = [lit "python3", path] := by
  have e : lit "python3 " ++ path =
      112 :: 121 :: 116 :: 104 :: 111 :: 110 :: 51 :: 32 :: path := rfl
  rw [e]
  simp only [splitSpace, splitSpace_no_space path h]
  rfl

theorem sandbox_path_no_space (name ext : JSString) (hn : 32 ∉ name) (he : 32 ∉ ext) :
    (32 : Nat) ∉ pathJoin SANDBOX_DIR (name ++ ext) := by
  unfold pathJoin
  simp only [List.mem_append, not_or]
  exact ⟨⟨by decide, by decide⟩, hn, he⟩

/-- C27: for an execution id in UUID format and every source code, the run command
that is spawned is the intended argument vector: `python3` with the source path for
python, the executable path with no argument for cpp, and `java`, `-cp`,
`/sandbox`, class name for java; neither path nor class name is split. -/
theorem run_command_splits_as_intended (cfg : Config) (env : Env) (code input : JSString)
    (hid : isUuid env.executionId = true) (hw : env.writeError = none) :
    spawnedCommands (executeCode cfg env code (lit "python") input).2 =
        [(lit "python3", [lit "/sandbox/" ++ env.executionId ++ lit ".py"])] ∧
      (env.compile.failed = false →
        spawnedCommands (executeCode cfg env code (lit "cpp") input).2 =
          [(lit "/sandbox/" ++ env.executionId ++ lit ".out", [])]) ∧
      (env.compile.failed = false →
        spawnedCommands (executeCode cfg env code (lit "java") input).2 =
          [(lit "java", [lit "-cp", lit "/sandbox", javaClassName code])]) := by
  have hsp := uuid_no_space _ hid
  have hcj : lit "cpp" ≠ lit "java" := by decide
  have hpy : pathJoin SANDBOX_DIR (env.executionId ++ lit "." ++ lit "py") =
      lit "/sandbox/" ++ env.executionId ++ lit ".py" := by
    simp [pathJoin, SANDBOX_DIR, lit]
  have hout : pathJoin SANDBOX_DIR (env.executionId ++ lit ".out") =
      lit "/sandbox/" ++ env.executionId ++ lit ".out" := by
    simp [pathJoin, SANDBOX_DIR, lit]
  refine ⟨?_, fun hf => ?_, fun hf => ?_⟩
  · have hns : (32 : Nat) ∉ pathJoin SANDBOX_DIR (env.executionId ++ lit "." ++ lit "py") := by
      rw [List.append_assoc]
      exact sandbox_path_no_space _ _ hsp (by decide)
    have hext : getFileExtension (lit "python") = lit "py" := by decide
    simp only [executeCode, if_neg lit_python_ne_java, if_neg lit_python_ne_cpp, if_true, hw,
      hext]
    rw [(runStage_commands _ _ _ _ _ _ _ _ _).2, splitSpace_python _ hns, hpy]
    simp [spawnedCommands]
  · have hns : (32 : Nat) ∉ pathJoin SANDBOX_DIR (env.executionId ++ lit ".out") :=
      sandbox_path_no_space _ _ hsp (by decide)
    simp only [executeCode, if_neg hcj, if_true, hw, hf, Bool.false_eq_true, if_false]
    rw [(runStage_commands _ _ _ _ _ _ _ _ _).2, splitSpace_no_space _ hns, hout]
    simp [spawnedCommands]
  · have hns : (32 : Nat) ∉ javaClassName code := by
      intro h32
      exact absurd (javaClassName_word code 32 h32) (by decide)
    simp only [executeCode, if_true, hw, hf, Bool.false_eq_true, if_false]
    rw [(runStage_commands _ _ _ _ _ _ _ _ _).2, splitSpace_java _ hns]
    simp [spawnedCommands]

/-- C27, at a python execution with a UUID as id. -/
theorem run_command_splits_as_intended_witness :
    isUuid sampleId = true ∧
      spawnedCommands (executeCode defaultConfig (quietEnv sampleId) (lit "print(1)")
        (lit "python") []).2 =
        [(lit "python3", [lit "/sandbox/3f2b8c1e-9a4d-4e7b-8c21-5d6f7a8b9c0d.py"])] :=
  ⟨by decide,
    (run_command_splits_as_intended defaultConfig (quietEnv sampleId) (lit "print(1)") []
      (by decide) (by decide)).1⟩

/-- C28: for an execution id in UUID format and every source code, the command
strings handed to `exec` are `javac` with the path built from the class name (java),
the `g++` command line built from the execution id (cpp), and none otherwise, so
that two sources with the same class name give the same commands; every character
of such a command is a letter, a digit, underscore, space, `/`, `.`, `-` or `+`, and
none is a shell metacharacter. -/
theorem compile_command_is_shell_safe (cfg : Config) (env : Env)
    (code language input : JSString)
    (hid : isUuid env.executionId = true) (hw : env.writeError = none) :
    compileCommands (executeCode cfg env code language input).2 =
        (if language = lit "java" then
          [lit "javac /sandbox/" ++ javaClassName code ++ lit ".java"]
        else if language = lit "cpp" then
          [lit "g++ /sandbox/" ++ env.executionId ++ lit ".cpp -o /sandbox/" ++
            env.executionId ++ lit ".out -O2 -static-libstdc++"]
        else []) ∧
      (∀ code2, javaClassName code2 = javaClassName code →
        compileCommands (executeCode cfg env code2 language input).2 =
          compileCommands (executeCode cfg env code language input).2) ∧
      (∀ cmd ∈ compileCommands (executeCode cfg env code language input).2,
        ∀ u ∈ cmd, isSafeCmdChar u = true ∧ u ∉ shellMetacharacters) := by
  have hcmds : ∀ c : JSString, compileCommands (executeCode cfg env c language input).2 =
      (if language = lit "java" then
        [lit "javac /sandbox/" ++ javaClassName c ++ lit ".java"]
      else if language = lit "cpp" then
        [lit "g++ /sandbox/" ++ env.executionId ++ lit ".cpp -o /sandbox/" ++
          env.executionId ++ lit ".out -O2 -static-libstdc++"]
      else []) := by
    intro c
    rw [executeCode_commands cfg env c language input hw]
    split
    · simp [pathJoin, SANDBOX_DIR, lit]
    · split
      · simp [pathJoin, SANDBOX_DIR, lit]
      · rfl
  have hmeta : ∀ u, isSafeCmdChar u = true → u ∉ shellMetacharacters := by
    intro u hu hm
    have hall : ∀ v ∈ shellMetacharacters, isSafeCmdChar v = false := by decide
    rw [hall u hm] at hu
    exact absurd hu (by decide)
  refine ⟨hcmds code, fun code2 h2 => ?_, fun cmd hcmd u hu => ?_⟩
  · rw [hcmds code2, hcmds code, h2]
  · have hsafe : cmd.all isSafeCmdChar = true := by
      rw [hcmds code] at hcmd
      split at hcmd
      · rw [List.mem_singleton.1 hcmd]
        simp only [List.all_append, className_safe, Bool.and_eq_true, and_true, true_and]
        exact ⟨by decide, by decide⟩
      · split at hcmd
        · rw [List.mem_singleton.1 hcmd]
          simp only [List.all_append, uuid_safe _ hid, Bool.and_eq_true, and_true, true_and]
          exact ⟨⟨by decide, by decide⟩, by decide⟩
        · exact absurd hcmd (by simp)
    have hu2 := List.all_eq_true.1 hsafe u hu
    exact ⟨hu2, hmeta u hu2⟩

/-- C28, at a java source whose text holds shell metacharacters. -/
theorem compile_command_is_shell_safe_witness :
    compileCommands (executeCode defaultConfig (quietEnv sampleId)
        (lit "public class A ; rm -rf / | $(x) > y") (lit "java") []).2 =
      [lit "javac /sandbox/A.java"] :=
  (compile_command_is_shell_safe defaultConfig (quietEnv sampleId)
    (lit "public class A ; rm -rf / | $(x) > y") (lit "java") []
    (by decide) (by decide)).1

/-! ## The pass of `sanitizeError` -/

theorem literalOfPattern_escape (identifier : JSString) :
    literalOfPattern (escapeRegExp identifier) = some identifier := by
  unfold literalOfPattern escapeRegExp
  induction identifier with
  | nil => rfl
  | cons c t ih =>
    rw [List.flatMap_cons]
    by_cases hc : isSyntaxChar c = true
    · simp only [hc, if_true, List.cons_append, List.nil_append, literalOfPatternAux, ih,
        Option.map_some']
    · have h92 : c ≠ 92 := by
        intro e
        subst e
        exact hc (by decide)
      simp only [hc, Bool.false_eq_true, if_false, List.cons_append, List.nil_append,
        literalOfPatternAux, if_neg h92, ih, Option.map_some']

theorem replaceAllAux_skip (matchAt : JSString → Option Nat) (repl : JSString)
    (hnil : matchAt [] = none ∨ repl = []) (n : Nat) (t : JSString) :
    replaceAllAux matchAt repl n t = replaceAllAux matchAt repl 0 (t.drop n) := by
  induction t generalizing n with
  | nil =>
    cases n with
    | zero => rfl
    | succ n =>
      simp only [List.drop_nil, replaceAllAux]
      rcases hnil with h | h
      · rw [h]
      · cases matchAt [] <;> simp [h]
  | cons c t ih =>
    cases n with
    | zero => rfl
    | succ n => simp only [replaceAllAux, List.drop_succ_cons, ih]

theorem sanitizeError_single (text identifier : JSString) :
    sanitizeError text [identifier] = replaceAllAux (matchLiteral identifier) [] 0 text := by
  unfold sanitizeError
  split
  · rename_i h
    subst h
    simp only [replaceAllAux]
    cases matchLiteral identifier [] <;> rfl
  · rfl

theorem pass_delete (identifier rest : JSString) (hne : identifier ≠ []) :
    replaceAllAux (matchLiteral identifier) [] 0 (identifier ++ rest) =
      replaceAllAux (matchLiteral identifier) [] 0 rest := by
  cases identifier with
  | nil => exact absurd rfl hne
  | cons c cs =>
    have hm : matchLiteral (c :: cs) ((c :: cs) ++ rest) = some (cs.length + 1) := by
      unfold matchLiteral
      rw [if_pos (List.isPrefixOf_iff_prefix.2 (List.prefix_append _ _))]
      rfl
    rw [List.cons_append] at hm ⊢
    simp only [replaceAllAux, hm, List.nil_append]
    rw [replaceAllAux_skip _ _ (Or.inr rfl), List.drop_left]

theorem pass_keep (identifier : JSString) (c : Nat) (t : JSString)
    (h : ¬ (identifier ≠ [] ∧ identifier <+: c :: t)) :
    replaceAllAux (matchLiteral identifier) [] 0 (c :: t) =
      c :: replaceAllAux (matchLiteral identifier) [] 0 t := by
  by_cases hne : identifier = []
  · subst hne
    simp [replaceAllAux, matchLiteral]
  · have hp : ¬ identifier <+: c :: t := fun hp => h ⟨hne, hp⟩
    have hm : matchLiteral identifier (c :: t) = none := by
      unfold matchLiteral
      rw [if_neg (fun hb => hp (List.isPrefixOf_iff_prefix.1 hb))]
    simp only [replaceAllAux, hm]

theorem onePass_of_length (identifier : JSString) (n : Nat) :
    ∀ text : JSString, text.length = n →
      OnePass identifier text (replaceAllAux (matchLiteral identifier) [] 0 text) := by
  induction n using Nat.strong_induction_on with
  | _ n ih =>
    intro text hlen
    cases text with
    | nil =>
      have h0 : replaceAllAux (matchLiteral identifier) [] 0 [] = [] := by
        simp only [replaceAllAux]
        cases matchLiteral identifier [] <;> rfl
      rw [h0]
      exact OnePass.done
    | cons c t =>
      by_cases h : identifier ≠ [] ∧ identifier <+: c :: t
      · obtain ⟨hne, rest, hrest⟩ := h
        rw [← hrest, pass_delete identifier rest hne]
        have hlt : rest.length < n := by
          rw [← hlen, ← hrest, List.length_append]
          have : 0 < identifier.length := List.length_pos.2 hne
          omega
        exact OnePass.delete rest _ hne (ih rest.length hlt rest rfl)
      · rw [pass_keep identifier c t h]
        have hlt : t.length < n := by
          rw [← hlen, List.length_cons]
          omega
        exact OnePass.keep c t _ h (ih t.length hlt t rfl)

theorem onePass_unique (identifier text out : JSString) (h : OnePass identifier text out) :
    out = replaceAllAux (matchLiteral identifier) [] 0 text := by
  induction h with
  | done =>
    simp only [replaceAllAux]
    cases matchLiteral identifier [] <;> rfl
  | delete rest out hne _ ih => rw [pass_delete identifier rest hne, ih]
  | keep c t out hnot _ ih => rw [pass_keep identifier c t hnot, ih]

/-- C23: for every text and every identifier, whatever syntax characters the
identifier holds, the pattern built from the escaped identifier matches the
identifier letter for letter, and `sanitizeError(text, [id])` is the result of one
left-to-right pass that deletes each occurrence of the identifier found at the
current position and keeps every other character in order, the only such result;
`sanitizeError` of the empty text is `''`, and with no identifier the text comes
back unchanged. -/
theorem sanitizeError_is_one_pass (text identifier : JSString) :
    literalOfPattern (escapeRegExp identifier) = some identifier ∧
      OnePass identifier text (sanitizeError text [identifier]) ∧
      (∀ out, OnePass identifier text out → out = sanitizeError text [identifier]) ∧
      (∀ identifiers, sanitizeError [] identifiers = []) ∧
      sanitizeError text [] = text := by
  refine ⟨literalOfPattern_escape identifier, ?_, fun out h => ?_, fun _ => rfl, ?_⟩
  · rw [sanitizeError_single]
    exact onePass_of_length identifier text.length text rfl
  · rw [sanitizeError_single]
    exact onePass_unique identifier text out h
  · unfold sanitizeError
    split
    · rename_i h; exact h.symm
    · rfl

/-! ## The verdicts of `runCode` -/

/-- C25 (as stated, refuted): without a custom input and with a successful engine
result the verdict can be `Executed`: for a problem without samples, and for a first
sample whose expected output is empty once trimmed, no comparison is made. -/
theorem run_without_input_can_be_executed :
    (runCode [] none (executedReply (lit "4\n"))).verdict = lit "Executed" ∧
      (runCode silentSamples none (executedReply (lit "4\n"))).verdict = lit "Executed" := by
  decide

/-- C25 (amended): in `runCode`, when the engine result is successful, the verdict is
`Executed` exactly when a custom input was supplied or the expected output of the
first sample is empty once trimmed (no sample counts as empty); when no custom input
was supplied, the input of the first sample is sent as stdin, and if the trimmed
expected output is not empty the verdict is `Correct Answer` when the trimmed output
equals it and `Wrong Answer` when it does not. -/
theorem run_verdict (samples : List Sample) (input : Option JSString) (result : RunReply)
    (hs : result.success = true) :
    ((runCode samples input result).verdict = lit "Executed" ↔
        input.isSome = true ∨ trim (sampleOutput samples) = []) ∧
      (input = none → (runCode samples input result).stdin = sampleInput samples) ∧
      (∀ custom, input = some custom → (runCode samples input result).stdin = custom) ∧
      (input = none → trim (sampleOutput samples) ≠ [] →
        ((runCode samples input result).verdict = lit "Correct Answer" ↔
            (runCode samples input result).actualOutput = trim (sampleOutput samples)) ∧
          ((runCode samples input result).verdict = lit "Wrong Answer" ↔
            (runCode samples input result).actualOutput ≠ trim (sampleOutput samples))) := by
  have hne1 : lit "Wrong Answer" ≠ lit "Executed" := by decide
  have hne2 : lit "Correct Answer" ≠ lit "Executed" := by decide
  have hne3 : lit "Wrong Answer" ≠ lit "Correct Answer" := by decide
  have hsf : ¬ result.success = false := by simp [hs]
  cases input with
  | some custom =>
    refine ⟨?_, fun h => absurd h (by simp), fun c hc => ?_, fun h => absurd h (by simp)⟩
    · simp [runCode, hsf]
    · simp only [Option.some.injEq] at hc
      subst hc
      simp [runCode]
  | none =>
    refine ⟨?_, fun _ => by simp [runCode], fun c hc => absurd hc (by simp), fun _ hexp => ?_⟩
    · by_cases hexp : trim (sampleOutput samples) = []
      · simp [runCode, hsf, truthy, hexp]
      · by_cases heq : trim (jsOr (jsOr (result.output.getD []) (result.error.getD [])) []) =
            trim (sampleOutput samples)
        · simp [runCode, hsf, truthy, hexp, heq, hne2]
        · simp [runCode, hsf, truthy, hexp, heq, hne1]
    · by_cases heq : trim (jsOr (jsOr (result.output.getD []) (result.error.getD [])) []) =
          trim (sampleOutput samples)
      · simp [runCode, hsf, truthy, hexp, heq, hne3.symm]
      · simp [runCode, hsf, truthy, hexp, heq, hne3]

/-- C25 (amended), at a run against the first sample with a matching output. -/
theorem run_verdict_witness :
    (runCode sumSamples none (executedReply (lit " 3"))).stdin = lit "1 2" ∧
      (runCode sumSamples none (executedReply (lit " 3"))).verdict = lit "Correct Answer" :=
  ⟨(run_verdict sumSamples none (executedReply (lit " 3")) rfl).2.1 rfl,
    ((run_verdict sumSamples none (executedReply (lit " 3")) rfl).2.2.2 rfl
      (by decide)).1.2 (by decide)⟩

/-! ## The rewrite of `server.js` -/

theorem matchCppLocation_some (t : JSString) (n : Nat) (h : matchCppLocation t = some n) :
    CppLocationAt t ∧ 0 < n := by
  unfold matchCppLocation at h
  simp only [Option.bind_eq_some, Option.map_eq_some'] at h
  obtain ⟨r, h1, s1, h2, r2, h3, h4⟩ := h
  obtain ⟨run, rest1⟩ := s1
  simp only at h3 h4
  rw [dropLiteral_eq_some] at h1 h3
  rw [takeSome_eq_some] at h2
  obtain ⟨e2, n2, a2, _⟩ := h2
  refine ⟨⟨run, r2, ?_, n2, a2⟩, by omega⟩
  rw [h1, e2, h3]

theorem matchCppLocation_of_location (t : JSString) (h : CppLocationAt t) :
    ∃ n, matchCppLocation t = some n := by
  obtain ⟨run, rest, ht, hne, hall⟩ := h
  subst ht
  have hd1 : dropLiteral (lit "/sandbox/") (lit "/sandbox/" ++ (run ++ (lit ".cpp:" ++ rest))) =
      some (run ++ (lit ".cpp:" ++ rest)) := (dropLiteral_eq_some _ _ _).2 rfl
  have hs : takeSome isIdChar (run ++ (lit ".cpp:" ++ rest)) =
      some (run, lit ".cpp:" ++ rest) := by
    rw [takeSome_eq_some]
    refine ⟨rfl, hne, hall, fun u hu => ?_⟩
    have h46 : (lit ".cpp:" ++ rest).head? = some 46 := rfl
    rw [h46] at hu
    rw [← Option.some.inj hu]
    decide
  have hd2 : dropLiteral (lit ".cpp:") (lit ".cpp:" ++ rest) = some rest :=
    (dropLiteral_eq_some _ _ _).2 rfl
  exact ⟨9 + run.length + 5, by
    simp only [matchCppLocation, hd1, Option.some_bind, hs, hd2, Option.map_some']⟩

theorem matchCppLocation_head (u : Nat) (t : JSString) (hu : u ≠ 47) :
    matchCppLocation (u :: t) = none := by
  cases h : matchCppLocation (u :: t) with
  | none => rfl
  | some n =>
    obtain ⟨⟨run, rest, ht, _, _⟩, _⟩ := matchCppLocation_some _ _ h
    have h47 : lit "/sandbox/" ++ (run ++ (lit ".cpp:" ++ rest)) =
        47 :: (lit "sandbox/" ++ (run ++ (lit ".cpp:" ++ rest))) := rfl
    rw [h47] at ht
    exact absurd (List.cons.inj ht).1 hu

theorem suffix_append_cases (b x y : JSString) (h : b <:+ x ++ y) :
    b <:+ y ∨ ∃ x2, x2 ≠ [] ∧ x2 <:+ x ∧ b = x2 ++ y := by
  induction x with
  | nil => exact Or.inl h
  | cons a x ih =>
    rw [List.cons_append, List.suffix_cons_iff] at h
    rcases h with h | h
    · exact Or.inr ⟨a :: x, by simp, List.suffix_refl _, h⟩
    · rcases ih h with h2 | ⟨x2, hne, hs, hb⟩
      · exact Or.inl h2
      · exact Or.inr ⟨x2, hne, hs.trans (List.suffix_cons a x), hb⟩

theorem head_of_suffix (b x : JSString) (hne : b ≠ []) (h : b <:+ x) :
    ∃ u, u ∈ x ∧ b.head? = some u := by
  cases b with
  | nil => exact absurd rfl hne
  | cons u t => exact ⟨u, h.subset (List.mem_cons_self _ _), rfl⟩

theorem not_line_of_head (b X : JSString) (u : Nat) (hb : b.head? = some u) (hu : u ≠ 76) :
    ¬ b <+: lit "Line:" ++ X := by
  intro hp
  cases b with
  | nil => simp at hb
  | cons c t =>
    simp only [List.head?_cons, Option.some.injEq] at hb
    subst hb
    have e : lit "Line:" ++ X = 76 :: (lit "ine:" ++ X) := rfl
    rw [e, List.cons_prefix_cons] at hp
    exact hu hp.1

theorem run_not_line (r X : JSString) (hne : r ≠ []) (hall : ∀ u ∈ r, isIdChar u = true) :
    ¬ (r ++ lit ".cpp:") <+: lit "Line:" ++ X := by
  have e : lit "Line:" ++ X = 76 :: 105 :: 110 :: 101 :: 58 :: X := rfl
  have e2 : lit ".cpp:" = [46, 99, 112, 112, 58] := rfl
  rw [e, e2]
  rcases r with _ | ⟨c1, _ | ⟨c2, _ | ⟨c3, _ | ⟨c4, _ | ⟨c5, r⟩⟩⟩⟩⟩
  · exact absurd rfl hne
  · simp [List.cons_prefix_cons]
  · simp [List.cons_prefix_cons]
  · simp [List.cons_prefix_cons]
  · simp [List.cons_prefix_cons]
  · intro hp
    simp only [List.cons_append, List.cons_prefix_cons] at hp
    have h5 : isIdChar c5 = true := hall c5 (by simp)
    rw [hp.2.2.2.2.1] at h5
    exact absurd h5 (by decide)

theorem location_not_line (run b X : JSString) (hall : ∀ u ∈ run, isIdChar u = true)
    (hne : b ≠ []) (hb : b <:+ lit "/sandbox/" ++ (run ++ lit ".cpp:")) :
    ¬ b <+: lit "Line:" ++ X := by
  rcases suffix_append_cases b _ _ hb with h1 | ⟨x2, hx2, hs, he⟩
  · rcases suffix_append_cases b _ _ h1 with h2 | ⟨r2, hr2, hs2, he2⟩
    · obtain ⟨u, hu, hh⟩ := head_of_suffix b _ hne h2
      refine not_line_of_head b X u hh ?_
      have hall2 : ∀ v ∈ lit ".cpp:", v ≠ 76 := by decide
      exact hall2 u hu
    · rw [he2]
      exact run_not_line r2 X hr2 (fun u hu => hall u (hs2.subset hu))
  · obtain ⟨u, hu, hh⟩ := head_of_suffix x2 _ hx2 hs
    have hh2 : b.head? = some u := by
      rw [he]
      cases x2 with
      | nil => exact absurd rfl hx2
      | cons c t => exact hh
    refine not_line_of_head b X u hh2 ?_
    have hall2 : ∀ v ∈ lit "/sandbox/", v ≠ 76 := by decide
    exact hall2 u hu

theorem output_begins_copied (matchAt : JSString → Option Nat) (repl w : JSString)
    (hw : ∀ b, b ≠ [] → b <:+ w → ∀ X, ¬ b <+: repl ++ X) :
    ∀ text rest2, replaceAllAux matchAt repl 0 text = w ++ rest2 → w <+: text := by
  induction w with
  | nil => exact fun text _ _ => List.nil_prefix
  | cons c w ih =>
    intro text rest2 h
    have hself : ∀ X, ¬ (c :: w) <+: repl ++ X :=
      hw (c :: w) (by simp) (List.suffix_refl _)
    cases text with
    | nil =>
      simp only [replaceAllAux] at h
      cases hm : matchAt [] with
      | none => rw [hm] at h; simp at h
      | some n =>
        rw [hm] at h
        simp only at h
        exact absurd ⟨rest2, by rw [List.append_nil, h]⟩ (hself [])
    | cons d t =>
      simp only [replaceAllAux] at h
      cases hm : matchAt (d :: t) with
      | none =>
        rw [hm] at h
        simp only [List.cons_append] at h
        obtain ⟨hd, ht⟩ := List.cons.inj h
        subst hd
        rw [List.cons_prefix_cons]
        exact ⟨rfl, ih (fun b hb hs X => hw b hb (hs.trans (List.suffix_cons _ _)) X) t rest2 ht⟩
      | some n =>
        rw [hm] at h
        cases n with
        | zero => exact absurd ⟨rest2, h.symm⟩ (hself _)
        | succ n => exact absurd ⟨rest2, h.symm⟩ (hself _)

theorem rewrite_leaves_no_match (text : JSString) :
    ∀ (skip : Nat) (t : JSString),
      t <:+ replaceAllAux matchCppLocation (lit "Line:") skip text →
        matchCppLocation t = none := by
  induction text with
  | nil =>
    intro skip t ht
    have hout : replaceAllAux matchCppLocation (lit "Line:") skip [] = [] := by
      cases skip <;> rfl
    rw [hout] at ht
    rw [List.suffix_nil.1 ht]
    rfl
  | cons c tl ih =>
    intro skip t ht
    cases skip with
    | succ s => exact ih s t (by simpa only [replaceAllAux] using ht)
    | zero =>
      simp only [replaceAllAux] at ht
      cases hm : matchCppLocation (c :: tl) with
      | none =>
        rw [hm] at ht
        simp only at ht
        rcases List.suffix_cons_iff.1 ht with h | h
        · cases hmt : matchCppLocation t with
          | none => rfl
          | some n =>
            obtain ⟨⟨run, rest, hrun, hne, hall⟩, _⟩ := matchCppLocation_some t n hmt
            have hcopy : lit "/sandbox/" ++ (run ++ lit ".cpp:") <+: c :: tl := by
              refine output_begins_copied matchCppLocation (lit "Line:") _
                (fun b hb hs X => location_not_line run b X hall hb hs) (c :: tl) rest ?_
              simp only [replaceAllAux, hm]
              rw [← h, hrun]
              simp
            obtain ⟨rest3, hrest3⟩ := hcopy
            obtain ⟨k, hk⟩ := matchCppLocation_of_location (c :: tl)
              ⟨run, rest3, by rw [← hrest3]; simp, hne, hall⟩
            rw [hm] at hk
            exact absurd hk (by simp)
        · exact ih 0 t h
      | some n =>
        rw [hm] at ht
        have hpos := (matchCppLocation_some _ _ hm).2
        cases n with
        | zero => exact absurd hpos (by simp)
        | succ n =>
          simp only at ht
          have e : lit "Line:" ++ replaceAllAux matchCppLocation (lit "Line:") n tl =
              76 :: 105 :: 110 :: 101 :: 58 ::
                replaceAllAux matchCppLocation (lit "Line:") n tl := rfl
          rw [e] at ht
          rcases List.suffix_cons_iff.1 ht with h | ht
          · rw [h]; exact matchCppLocation_head _ _ (by decide)
          rcases List.suffix_cons_iff.1 ht with h | ht
          · rw [h]; exact matchCppLocation_head _ _ (by decide)
          rcases List.suffix_cons_iff.1 ht with h | ht
          · rw [h]; exact matchCppLocation_head _ _ (by decide)
          rcases List.suffix_cons_iff.1 ht with h | ht
          · rw [h]; exact matchCppLocation_head _ _ (by decide)
          rcases List.suffix_cons_iff.1 ht with h | ht
          · rw [h]; exact matchCppLocation_head _ _ (by decide)
          exact ih n t ht

theorem no_match_without_slash (text : JSString) (h : (47 : Nat) ∉ text) :
    ∀ t, t <:+ text → matchCppLocation t = none := by
  intro t ht
  cases t with
  | nil => rfl
  | cons u tl =>
    refine matchCppLocation_head u tl (fun e => h ?_)
    rw [← e]
    exact ht.subset (List.mem_cons_self _ _)

theorem responseError_no_match (error : JSString) :
    ∀ t, t <:+ responseError error → matchCppLocation t = none := by
  intro t ht
  unfold responseError jsOr at ht
  split at ht
  · exact no_match_without_slash _ (by decide) t ht
  · exact rewrite_leaves_no_match error 0 t ht

/-- C29: for every error text, the error the compiler service sends back has at no
position a substring made of `/sandbox/`, one or more letters, digits or hyphens,
and `.cpp:`: the one global replacement by `Line:` leaves no match and makes no new
one; applying the rewrite, or the whole expression of line 53, a second time changes
nothing; and when the rewritten text is empty the response carries
`Unknown error`. -/
theorem rewrite_is_complete (error : JSString) :
    (∀ before after, responseError error = before ++ after → ¬ CppLocationAt after) ∧
      (∀ before after, rewriteLocations error = before ++ after → ¬ CppLocationAt after) ∧
      rewriteLocations (rewriteLocations error) = rewriteLocations error ∧
      responseError (responseError error) = responseError error ∧
      (rewriteLocations error = [] → responseError error = lit "Unknown error") := by
  have hfix : ∀ s : JSString, (∀ t, t <:+ s → matchCppLocation t = none) →
      rewriteLocations s = s :=
    fun s hs => replaceAllAux_no_match matchCppLocation (lit "Line:") s hs
  have hnot : ∀ s : JSString, (∀ t, t <:+ s → matchCppLocation t = none) →
      ∀ before after, s = before ++ after → ¬ CppLocationAt after := by
    intro s hs before after heq hloc
    obtain ⟨n, hn⟩ := matchCppLocation_of_location after hloc
    rw [hs after ⟨before, heq.symm⟩] at hn
    exact absurd hn (by simp)
  refine ⟨hnot _ (responseError_no_match error),
    hnot _ (rewrite_leaves_no_match error 0), hfix _ (rewrite_leaves_no_match error 0), ?_, ?_⟩
  · have h1 := hfix _ (responseError_no_match error)
    have hne : responseError error ≠ [] := by
      unfold responseError jsOr
      split
      · decide
      · assumption
    unfold rewriteLocations at h1
    show jsOr (replaceAll matchCppLocation (lit "Line:") (responseError error))
      (lit "Unknown error") = responseError error
    rw [h1]
    unfold jsOr
    rw [if_neg hne]
  · intro h
    unfold rewriteLocations at h
    unfold responseError jsOr
    rw [if_pos h]

end OptiCode
